import Mathlib

/-!
# crow: daily file names for a date range (`src/modules/fetchVpts.js`)

`fetchVpts` is written against the JavaScript `Date` object, so the embedding
has two layers.

* The `Date` layer follows ECMA-262 (section "Date Objects"): a time value is a
  number of milliseconds since 1970-01-01T00:00:00Z, or NaN.  Finite time values
  are `Int`; a `Date` object is an `Option Int` with `none` for NaN (the
  "Invalid Date").  Every quantity the program computes is an integer below
  2^53 in absolute value, so `Int` arithmetic agrees with the IEEE doubles of
  the language.  The abstract operations keep their ECMA-262 names.
* The host's local time zone, which `getDate`/`setDate` read, is a parameter
  (`TimeZone`).
* `fetchVpts` itself is translated line by line on top of that.
-/

namespace Crow

/-! ## ECMA-262 day and year arithmetic -/

/-- Milliseconds in a day. -/
def msPerDay : Int := 86400000

/-- Milliseconds in an hour. -/
def msPerHour : Int := 3600000

/-- Milliseconds in a minute. -/
def msPerMinute : Int := 60000

/-- Milliseconds in a second. -/
def msPerSecond : Int := 1000

/-- Day number of a time value: `floor(t / msPerDay)`. -/
def Day (t : Int) : Int := t / msPerDay

/-- Milliseconds since the start of the day: `t modulo msPerDay`. -/
def TimeWithinDay (t : Int) : Int := t % msPerDay

/-- Number of days of year `y` in the proleptic Gregorian calendar. -/
def DaysInYear (y : Int) : Int :=
  if y % 4 ≠ 0 then 365
  else if y % 100 ≠ 0 then 366
  else if y % 400 ≠ 0 then 365
  else 366

/-- Day number of the first day of year `y`. -/
def DayFromYear (y : Int) : Int :=
  365 * (y - 1970) + (y - 1969) / 4 - (y - 1901) / 100 + (y - 1601) / 400

/-- Time value of the start of year `y`. -/
def TimeFromYear (y : Int) : Int := msPerDay * DayFromYear y

/-- Year containing day number `d`.  ECMA-262 specifies the year as the largest
`y` with `DayFromYear y ≤ d`; this computes it from the mean year length
(146097 days per 400 years) and corrects the estimate by at most one
(`yearOfDay_spec`, `YearFromTime_greatest`). -/
def yearOfDay (d : Int) : Int :=
  let y0 := 1970 + (400 * d) / 146097
  if d < DayFromYear y0 then y0 - 1
  else if DayFromYear (y0 + 1) ≤ d then y0 + 1
  else y0

/-- Year of a time value: the largest `y` with `TimeFromYear y ≤ t`. -/
def YearFromTime (t : Int) : Int := yearOfDay (Day t)

/-- Leap-year flag of a time value: 1 in a leap year, else 0. -/
def InLeapYear (t : Int) : Int :=
  if DaysInYear (YearFromTime t) = 366 then 1 else 0

/-- Day of the year of a time value, from 0. -/
def DayWithinYear (t : Int) : Int := Day t - DayFromYear (YearFromTime t)

/-- Month, 0 (January) to 11 (December), of day `d` of a year (from 0), `l`
being the leap flag of the year. -/
def monthOfYearDay (d l : Int) : Int :=
  if d < 31 then 0
  else if d < 59 + l then 1
  else if d < 90 + l then 2
  else if d < 120 + l then 3
  else if d < 151 + l then 4
  else if d < 181 + l then 5
  else if d < 212 + l then 6
  else if d < 243 + l then 7
  else if d < 273 + l then 8
  else if d < 304 + l then 9
  else if d < 334 + l then 10
  else 11

/-- Month of a time value, 0 (January) to 11 (December). -/
def MonthFromTime (t : Int) : Int := monthOfYearDay (DayWithinYear t) (InLeapYear t)

/-- Day of the month of day `d` of a year (from 0) that falls in month `m`. -/
def dateOfYearDay (m d l : Int) : Int :=
  if m = 0 then d + 1
  else if m = 1 then d - 30
  else if m = 2 then d - 58 - l
  else if m = 3 then d - 89 - l
  else if m = 4 then d - 119 - l
  else if m = 5 then d - 150 - l
  else if m = 6 then d - 180 - l
  else if m = 7 then d - 211 - l
  else if m = 8 then d - 242 - l
  else if m = 9 then d - 272 - l
  else if m = 10 then d - 303 - l
  else d - 333 - l

/-- Day of the month of a time value, 1 to 31. -/
def DateFromTime (t : Int) : Int :=
  dateOfYearDay (MonthFromTime t) (DayWithinYear t) (InLeapYear t)

/-- Hour of a time value, 0 to 23. -/
def HourFromTime (t : Int) : Int := (t / msPerHour) % 24

/-- Minute of a time value, 0 to 59. -/
def MinFromTime (t : Int) : Int := (t / msPerMinute) % 60

/-- Second of a time value, 0 to 59. -/
def SecFromTime (t : Int) : Int := (t / msPerSecond) % 60

/-- Millisecond of a time value, 0 to 999. -/
def msFromTime (t : Int) : Int := t % msPerSecond

/-- Days of the year before month `mn` (0 to 11), `l` being the leap flag. -/
def daysBeforeMonth (mn l : Int) : Int :=
  if mn = 0 then 0
  else if mn = 1 then 31
  else if mn = 2 then 59 + l
  else if mn = 3 then 90 + l
  else if mn = 4 then 120 + l
  else if mn = 5 then 151 + l
  else if mn = 6 then 181 + l
  else if mn = 7 then 212 + l
  else if mn = 8 then 243 + l
  else if mn = 9 then 273 + l
  else if mn = 10 then 304 + l
  else 334 + l

/-- Milliseconds of `hour:min:sec.ms`. -/
def MakeTime (hour min sec ms : Int) : Int :=
  hour * msPerHour + min * msPerMinute + sec * msPerSecond + ms

/-- Day number of the `date`-th day of month `month` of `year`.  Months outside
0..11 carry into the year and `date` may lie outside the month: the result is
the day number of the first of the month, plus `date - 1`. -/
def MakeDay (year month date : Int) : Int :=
  let ym := year + month / 12
  let mn := month % 12
  let l : Int := if DaysInYear ym = 366 then 1 else 0
  DayFromYear ym + daysBeforeMonth mn l + date - 1

/-- Time value of day number `day` at `time` milliseconds into the day. -/
def MakeDate (day time : Int) : Int := day * msPerDay + time

/-- Largest magnitude of a time value: 100 000 000 days either side of the
epoch. -/
def maxTime : Int := 8640000000000000

/-- ECMA-262 `TimeClip`: a time outside the range of time values is NaN. -/
def TimeClip (t : Int) : Option Int :=
  if t < -maxTime ∨ maxTime < t then none else some t

/-! ## The host's local time zone -/

/-- Local time zone of the host.  `offsetUTC t` is the local offset from UTC, in
milliseconds, in force at the UTC instant `t` (`LocalTZA(t, true)`), and
`offsetLocal t` is the offset by which the local wall-clock time `t` is read
(`LocalTZA(t, false)`). -/
structure TimeZone where
  offsetUTC : Int → Int
  offsetLocal : Int → Int

/-- A zone with one offset all year, `c` milliseconds east of UTC. -/
def TimeZone.fixed (c : Int) : TimeZone :=
  ⟨fun _ => c, fun _ => c⟩

/-- The zone of a host running on UTC. -/
def TimeZone.utc : TimeZone := TimeZone.fixed 0

/-- Europe/Brussels in 2016: UTC+1, and UTC+2 from 2016-03-27T01:00Z to
2016-10-30T01:00Z.  A wall-clock time that a transition skips or repeats is read
with the offset in force before the transition, as ECMA-262 requires. -/
def TimeZone.brussels2016 : TimeZone :=
  ⟨fun t => if t < 1459040400000 then 3600000
            else if t < 1477789200000 then 7200000 else 3600000,
   fun t => if t < 1459040400000 + 7200000 then 3600000
            else if t < 1477789200000 + 7200000 then 7200000 else 3600000⟩

/-- America/New_York in 2016: UTC-5, and UTC-4 from 2016-03-13T07:00Z to
2016-11-06T06:00Z. -/
def TimeZone.newYork2016 : TimeZone :=
  ⟨fun t => if t < 1457852400000 then -18000000
            else if t < 1478412000000 then -14400000 else -18000000,
   fun t => if t < 1457852400000 - 14400000 then -18000000
            else if t < 1478412000000 - 14400000 then -14400000 else -18000000⟩

/-- Pacific/Apia from April 2011 to September 2012: UTC-11, UTC-10 from
2011-09-24T14:00Z, UTC+14 from 2011-12-30T10:00Z, when the zone moved across the
date line and 30 December was skipped, and UTC+13 from 2012-03-31T14:00Z. -/
def TimeZone.apia2011 : TimeZone :=
  ⟨fun t => if t < 1316872800000 then -39600000
            else if t < 1325239200000 then -36000000
            else if t < 1333202400000 then 50400000 else 46800000,
   fun t => if t < 1316872800000 - 36000000 then -39600000
            else if t < 1325239200000 + 50400000 then -36000000
            else if t < 1333202400000 + 50400000 then 50400000 else 46800000⟩

/-- America/Anchorage around 1867: local mean time, 14:00:24 east of UTC until
1867-10-19T00:31:13Z and 9:59:36 west of it from then on, when Alaska moved
across the date line and 18 October was repeated. -/
def TimeZone.anchorage1867 : TimeZone :=
  ⟨fun t => if t < -3225223727000 then 50424000 else -35976000,
   fun t => if t < -3225223727000 + 50424000 then 50424000 else -35976000⟩

/-- Asia/Manila around 1844: local mean time, 15:56:00 west of UTC until
1844-12-31T15:56:00Z and 8:04:00 east of it from then on, when the Philippines
moved across the date line and 31 December was skipped. -/
def TimeZone.manila1844 : TimeZone :=
  ⟨fun t => if t < -3944621040000 then -57360000 else 29040000,
   fun t => if t < -3944621040000 + 29040000 then -57360000 else 29040000⟩

/-- Local wall-clock time of the UTC instant `t`. -/
def LocalTime (tz : TimeZone) (t : Int) : Int := t + tz.offsetUTC t

/-- UTC instant of the local wall-clock time `t`. -/
def UTC (tz : TimeZone) (t : Int) : Int := t - tz.offsetLocal t

/-- The offset in force at the instant `t`, counted modulo 24 hours from `-c`
on: what the zone adds to the time of day.  A move of the zone across the date
line, which changes the offset by 24 hours, leaves it unchanged. -/
def TimeZone.offsetInDay (tz : TimeZone) (c t : Int) : Int :=
  (tz.offsetUTC t + c) % msPerDay

/-- A zone is regular when the same wall-clock time on the next local day, read
back as an instant `u`, comes at least 24 hours after `t`, less what the offset
has gained in between, the offsets being counted modulo 24 hours.  Where the
offsets of the zone stay within 24 hours of each other this says that the local
time of `u` is not before the wall-clock time that `u` was read from, which is
how ECMA-262 has `LocalTime` and `UTC` agree. -/
def TimeZone.Regular (tz : TimeZone) : Prop :=
  ∃ c, ∀ t, t + tz.offsetInDay c t + msPerDay ≤
    UTC tz (LocalTime tz t + msPerDay)
      + tz.offsetInDay c (UTC tz (LocalTime tz t + msPerDay))

/-! ## `Date` methods used by the program -/

/-- The method `Date.prototype.getDate()`: the local day of the month, NaN for an invalid
date. -/
def getDate (tz : TimeZone) (d : Option Int) : Option Int :=
  d.map fun t => DateFromTime (LocalTime tz t)

/-- The method `Date.prototype.setDate(dt)`: the new time value of the date, which keeps
the local year, month and time of day and takes `dt` as its day of the month. -/
def setDate (tz : TimeZone) (d : Option Int) (dt : Option Int) : Option Int :=
  match d, dt with
  | some t, some n =>
    let tl := LocalTime tz t
    TimeClip (UTC tz (MakeDate (MakeDay (YearFromTime tl) (MonthFromTime tl) n)
      (TimeWithinDay tl)))
  | _, _ => none

/-- The relation `a < b` on two `Date` objects: false when either is
invalid. -/
def dateLt (a b : Option Int) : Bool :=
  match a, b with
  | some x, some y => decide (x < y)
  | _, _ => false

/-! ## Text -/

/-- The decimal digit `d` (below 10) as a character. -/
def digitChar (d : Nat) : Char := Char.ofNat (48 + d)

/-- The last `w` decimal digits of `n`, zero-padded: exactly `w` characters. -/
def padDigits : Nat → Nat → List Char
  | 0, _ => []
  | w + 1, n => padDigits w (n / 10) ++ [digitChar (n % 10)]

/-- The method `String.prototype.split(sep)` for a one-character separator. -/
def split (sep : Char) : List Char → List (List Char)
  | [] => [[]]
  | c :: cs =>
    if c = sep then [] :: split sep cs
    else
      match split sep cs with
      | [] => [[c]]
      | seg :: rest => (c :: seg) :: rest

/-- The text of `Date.prototype.toISOString()` on a valid time value:
`YYYY-MM-DDTHH:mm:ss.sssZ` in UTC, the year written with a sign and six digits
when it lies outside 0..9999. -/
def isoString (t : Int) : List Char :=
  let y := YearFromTime t
  let year : List Char :=
    if 0 ≤ y ∧ y ≤ 9999 then padDigits 4 y.toNat
    else (if 0 ≤ y then '+' else '-') :: padDigits 6 y.natAbs
  year ++ '-' :: padDigits 2 (MonthFromTime t + 1).toNat
    ++ '-' :: padDigits 2 (DateFromTime t).toNat
    ++ 'T' :: padDigits 2 (HourFromTime t).toNat
    ++ ':' :: padDigits 2 (MinFromTime t).toNat
    ++ ':' :: padDigits 2 (SecFromTime t).toNat
    ++ '.' :: padDigits 3 (msFromTime t).toNat ++ ['Z']

/-- What the program can throw. -/
inductive Thrown where
  /-- A thrown string value (line 16). -/
  | message (s : String)
  /-- The RangeError of `toISOString` on an invalid date. -/
  | rangeError
  deriving DecidableEq, Repr

deriving instance DecidableEq for Except

/-- The method `Date.prototype.toISOString()`: throws a RangeError on an invalid date. -/
def toISOString : Option Int → Except Thrown (List Char)
  | none => .error .rangeError
  | some t => .ok (isoString t)

/-! ## The lines of `fetchVpts` -/

/-- The date stamp that line 32 computes from the ISO string `s`:
`s.split("T")[0].replace(/\D/g,'')`, the part before the first `T` with every
character that is not an ASCII digit removed. -/
def stampOfISO (s : List Char) : String :=
  String.mk (((split 'T' s).headD []).filter Char.isDigit)

/-- Line 32, `date.toISOString().split("T")[0].replace(/\D/g,'')`, on one
date. -/
def dateStamp (d : Option Int) : Except Thrown String :=
  match toISOString d with
  | .error e => .error e
  | .ok s => .ok (stampOfISO s)

/-- Lines 23 to 27, the loop `while (dateMin < dateMax)`: each turn moves
`dateMin` to the next local calendar day and appends a copy to `dates`.  The
result is the final `dates`, or `none` when `fuel` turns do not finish the
loop. -/
def collectDates (tz : TimeZone) :
    Nat → Option Int → Option Int → List (Option Int) → Option (List (Option Int))
  | 0, _, _, _ => none
  | fuel + 1, dateMin, dateMax, dates =>
    if dateLt dateMin dateMax then
      let next := setDate tz dateMin ((getDate tz dateMin).map (· + 1))
      collectDates tz fuel next dateMax (dates ++ [next])
    else some dates

/-- Line 30: what every file name has before its date stamp. -/
def pre_string : String := "example_vpts_"

/-- Line 31: what every file name has after its date stamp. -/
def post_string : String := ".csv"

/-- Lines 32 and 33 on one date: the file name of the date, or what
`toISOString` throws. -/
def fileName (directory : String) (d : Option Int) : Except Thrown String :=
  match dateStamp d with
  | .error e => .error e
  | .ok date => .ok (directory ++ pre_string ++ date ++ post_string)

/-- Lines 32 to 33: `map` over the dates, stopping at the first throw. -/
def filenames (directory : String) : List (Option Int) → Except Thrown (List String)
  | [] => .ok []
  | d :: ds =>
    match fileName directory d with
    | .error e => .error e
    | .ok f =>
      match filenames directory ds with
      | .error e => .error e
      | .ok fs => .ok (f :: fs)

/-! ## `new Date(value)` -/

/-- Value of a run of ASCII digits, `none` when a character is not a digit. -/
def digitsValue (cs : List Char) : Option Nat :=
  cs.foldl (fun acc c =>
    acc.bind fun n => if c.isDigit then some (10 * n + (c.toNat - 48)) else none) (some 0)

/-- Value of exactly `w` ASCII digits. -/
def fixedDigits (w : Nat) (cs : List Char) : Option Nat :=
  if cs.length = w then digitsValue cs else none

/-- Year of the Date Time String Format: `YYYY`, or a sign and `YYYYYY`
(`-000000` is not a year). -/
def parseYear (cs : List Char) : Option Int :=
  match cs with
  | '+' :: r => (fixedDigits 6 r).map Int.ofNat
  | '-' :: r => (fixedDigits 6 r).bind fun n => if n = 0 then none else some (-(n : Int))
  | _ => (fixedDigits 4 cs).map Int.ofNat

/-- Day number of the calendar date `y-m-d` (`m` from 1), `none` when the month
or the day of the month does not exist. -/
def dayOfCalendarDate (y : Int) (m d : Nat) : Option Int :=
  if 1 ≤ m ∧ m ≤ 12 ∧ 1 ≤ d ∧ MakeDay y ((m : Int) - 1) d < MakeDay y (m : Int) 1 then
    some (MakeDay y ((m : Int) - 1) d)
  else none

/-- Date part of the Date Time String Format, `YYYY`, `YYYY-MM` or
`YYYY-MM-DD`, as a day number. -/
def parseDatePart (cs : List Char) : Option Int :=
  let sign : List Char := cs.take 1 |>.filter fun c => c = '+' ∨ c = '-'
  match split '-' (cs.drop sign.length) with
  | [y] => (parseYear (sign ++ y)).bind fun y => dayOfCalendarDate y 1 1
  | [y, m] =>
    (parseYear (sign ++ y)).bind fun y =>
    (fixedDigits 2 m).bind fun m => dayOfCalendarDate y m 1
  | [y, m, d] =>
    (parseYear (sign ++ y)).bind fun y =>
    (fixedDigits 2 m).bind fun m =>
    (fixedDigits 2 d).bind fun d => dayOfCalendarDate y m d
  | _ => none

/-- Seconds part `ss` or `ss.sss` of the Date Time String Format, in
milliseconds. -/
def parseSeconds (cs : List Char) : Option Nat :=
  match split '.' cs with
  | [s] => (fixedDigits 2 s).bind fun s => if s < 60 then some (1000 * s) else none
  | [s, f] =>
    (fixedDigits 2 s).bind fun s =>
    (fixedDigits 3 f).bind fun f => if s < 60 then some (1000 * s + f) else none
  | _ => none

/-- Time part `HH:mm`, `HH:mm:ss` or `HH:mm:ss.sss` of the Date Time String
Format, in milliseconds since midnight; `24:00:00` is the end of the day. -/
def parseTimePart (cs : List Char) : Option Int :=
  let hm (h m : List Char) (s : Nat) : Option Int :=
    (fixedDigits 2 h).bind fun h =>
    (fixedDigits 2 m).bind fun m =>
      if (h < 24 ∧ m < 60) ∨ (h = 24 ∧ m = 0 ∧ s = 0) then
        some (MakeTime h m 0 s)
      else none
  match split ':' cs with
  | [h, m] => hm h m 0
  | [h, m, s] => (parseSeconds s).bind fun s => hm h m s
  | _ => none

/-- UTC offset `HH:mm` of the Date Time String Format, in milliseconds. -/
def parseOffset (cs : List Char) : Option Int :=
  match split ':' cs with
  | [h, m] =>
    (fixedDigits 2 h).bind fun h =>
    (fixedDigits 2 m).bind fun m =>
      if h < 24 ∧ m < 60 then some (MakeTime h m 0 0) else none
  | _ => none

/-- Time part with its UTC offset, `Z` or `±HH:mm` or nothing: the milliseconds
since midnight and the offset, `none` standing for local time. -/
def parseTimeAndOffset (cs : List Char) : Option (Int × Option Int) :=
  if cs.getLast? = some 'Z' then
    (parseTimePart cs.dropLast).map fun t => (t, some 0)
  else
    match split '+' cs, split '-' cs with
    | [t, o], [_] =>
      (parseTimePart t).bind fun t => (parseOffset o).map fun o => (t, some o)
    | [_], [t, o] =>
      (parseTimePart t).bind fun t => (parseOffset o).map fun o => (t, some (-o))
    | [_], [_] => (parseTimePart cs).map fun t => (t, none)
    | _, _ => none

/-- The function `Date.parse` on the Date Time String Format of ECMA-262.  A date-only form
is read as UTC and a date-time form without offset as local time.  ECMA-262
leaves the reading of any other text to the implementation, and hosts differ on
it: a text such as `2016/09/01` or `2016-09-01 00:05:00`, a fraction of seconds
of other than three digits, an offset without colon, or a day that the month
lacks (`2015-02-29`) is a date on some hosts.  The model gives NaN for all of
these, and no result below relies on that. -/
def DateParse (tz : TimeZone) (s : String) : Option Int :=
  match split 'T' s.data with
  | [d] => (parseDatePart d).bind fun day => TimeClip (MakeDate day 0)
  | [d, t] =>
    (parseDatePart d).bind fun day =>
    (parseTimeAndOffset t).bind fun
      | (time, some offset) => TimeClip (MakeDate day time - offset)
      | (time, none) => TimeClip (UTC tz (MakeDate day time))
  | _ => none

/-- An argument of `fetchVpts` that `new Date(...)` accepts. -/
inductive DateLike where
  /-- A date string, such as `"2016-09-01"`. -/
  | text (s : String)
  /-- A number of milliseconds since the epoch, or a `Date` with that time
  value; `none` is NaN. -/
  | time (t : Option Int)

/-- The expression `new Date(value)`: the time value of the new date. -/
def newDate (tz : TimeZone) : DateLike → Option Int
  | .text s => DateParse tz s
  | .time t => t.bind TimeClip

/-! ## `fetchVpts` -/

/-- Lines 15 to 35 of `fetchVpts`, after `dateMin` and `dateMax` have been made
dates: `none` when the loop does not finish within `fuel` turns, else the
returned array or the thrown value. -/
def fetchVptsDates (tz : TimeZone) (fuel : Nat) (dateMin dateMax : Option Int)
    (directory : String) : Option (Except Thrown (List String)) :=
  if dateLt dateMax dateMin then
    some (.error (.message "dateMin need to be before dateMax"))
  else
    match collectDates tz fuel dateMin dateMax [dateMin] with
    | none => none
    | some dates => some (filenames directory dates)

/-- The function `fetchVpts(dateMin, dateMax, directory)` of
`src/modules/fetchVpts.js`, on a host in zone `tz`, its loop bounded by
`fuel`. -/
def fetchVpts (tz : TimeZone) (fuel : Nat) (dateMin dateMax : DateLike)
    (directory : String) : Option (Except Thrown (List String)) :=
  fetchVptsDates tz fuel (newDate tz dateMin) (newDate tz dateMax) directory

/-! ## Numbers read from text

The numeric columns are read with the unary `+`, that is ECMA-262 `ToNumber`.
Every numeric text denotes a decimal fraction (its mathematical value, MV), and
the Number that it is read as is the Number value for that fraction: the IEEE
754 double nearest to it, `+∞` or `-∞` past the greatest double.  A finite
Number is given by its exact value, which is a decimal fraction as well.  Both
zeros are the fraction 0.  For a literal of more than 20 significant digits
ECMA-262 lets the host round from either 20-digit neighbour of the fraction
(`RoundMVResult`); the model rounds the fraction itself, which is one of the
results allowed. -/

/-- An exact decimal fraction, `digits / 10 ^ scale`. -/
structure Decimal where
  digits : Int
  scale : Nat
  deriving DecidableEq, Repr

/-- The decimal `digits / 10 ^ scale` with the trailing zeros of its fraction
dropped, so that equal values have one representation. -/
def normalizeDecimal : Int → Nat → Decimal
  | d, 0 => ⟨d, 0⟩
  | d, s + 1 => if d % 10 = 0 then normalizeDecimal (d / 10) s else ⟨d, s + 1⟩

/-- The rational value of a decimal. -/
def Decimal.toRat (d : Decimal) : ℚ := (d.digits : ℚ) / 10 ^ d.scale

/-- A Number of the language: NaN, an infinity, or a finite Number, given by its
exact value. -/
inductive JSNumber where
  | nan
  | infinity (negative : Bool)
  | finite (mv : Decimal)
  deriving DecidableEq, Repr

/-- The Number of opposite sign. -/
def JSNumber.neg : JSNumber → JSNumber
  | .nan => .nan
  | .infinity b => .infinity (!b)
  | .finite d => .finite ⟨-d.digits, d.scale⟩

/-- The number of binary digits of `n` after the first, found by halving `n` at
most `fuel` times: the floor of the binary logarithm of `n` when `n ≤ fuel`. -/
def log2Fuel : Nat → Nat → Nat
  | 0, _ => 0
  | fuel + 1, n => if n < 2 then 0 else log2Fuel fuel (n / 2) + 1

/-- The floor of the binary logarithm of `n / d`, for `n` and `d` positive. -/
def floorLog2 (n d : Nat) : Int :=
  let k : Int := (log2Fuel n n : Int) - (log2Fuel d d : Int)
  if (if 0 ≤ k then d <<< k.toNat ≤ n else d ≤ n <<< (-k).toNat) then k else k - 1

/-- The integer nearest to `num / den`, the even one of the two when `num / den`
lies halfway between them. -/
def roundHalfEven (num den : Nat) : Nat :=
  let q := num / den
  let r := num % den
  if 2 * r < den then q
  else if den < 2 * r then q + 1
  else if q % 2 = 0 then q else q + 1

/-- The exact decimal of `m * 2 ^ e`. -/
def Decimal.ofDyadic (m : Nat) (e : Int) : Decimal :=
  if m = 0 then ⟨0, 0⟩
  else if 0 ≤ e then ⟨(m <<< e.toNat : Nat), 0⟩
  else normalizeDecimal (m * 5 ^ (-e).toNat : Nat) (-e).toNat

/-- The Number value for `n / d`, with `d` positive (ECMA-262, 6.1.6.1): the
IEEE 754 double nearest to `n / d`, the one with an even significand when two
are equally near, and `+∞` when that is `2 ^ 1024`.  The significand `m` is
`n / d` over `2 ^ e` rounded to an integer, where `e` places it from `2 ^ 52` to
`2 ^ 53`, or is -1074, the least exponent, for a subnormal. -/
def numberValue (n d : Nat) : JSNumber :=
  if n = 0 then .finite ⟨0, 0⟩
  else
    let e : Int := max (-1074) (floorLog2 n d - 52)
    let m := if 0 ≤ e then roundHalfEven n (d <<< e.toNat)
      else roundHalfEven (n <<< (-e).toNat) d
    if 971 < e ∨ (e = 971 ∧ 2 ^ 53 ≤ m) then .infinity false
    else .finite (Decimal.ofDyadic m e)

/-- The Number value for `digits / 10 ^ scale`. -/
def JSNumber.ofDecimal (digits : Int) (scale : Nat) : JSNumber :=
  if digits < 0 then (numberValue digits.natAbs (10 ^ scale)).neg
  else numberValue digits.natAbs (10 ^ scale)

/-- The characters of `StrWhiteSpaceChar`: white space and line terminators. -/
def isStrWhiteSpace (c : Char) : Bool :=
  c.toNat ∈ [9, 10, 11, 12, 13, 32, 160, 5760, 8192, 8193, 8194, 8195, 8196, 8197, 8198, 8199,
    8200, 8201, 8202, 8232, 8233, 8239, 8287, 12288, 65279]

/-- A text without its leading and trailing white space. -/
def trimWhiteSpace (cs : List Char) : List Char :=
  ((cs.dropWhile isStrWhiteSpace).reverse.dropWhile isStrWhiteSpace).reverse

/-- Position of `c` in a list of digits. -/
def digitIndex (c : Char) : List Char → Option Nat
  | [] => none
  | x :: xs => if c = x then some 0 else (digitIndex c xs).map (· + 1)

/-- Value of a digit in base `base` (2, 8 or 16): its position among the
sixteen digits, in either case, when below the base. -/
def digitOfBase (base : Nat) (c : Char) : Option Nat :=
  ((digitIndex c "0123456789abcdef".data).orElse fun _ =>
    digitIndex c "0123456789ABCDEF".data).bind fun d => if d < base then some d else none

/-- Value of a non-empty run of digits in base `base`. -/
def digitsValueBase (base : Nat) (cs : List Char) : Option Nat :=
  if cs = [] then none
  else cs.foldl (fun acc c =>
    acc.bind fun n => (digitOfBase base c).map fun d => base * n + d) (some 0)

/-- Value of `DecimalDigits`, a non-empty run of decimal digits. -/
def decimalDigits (cs : List Char) : Option Nat :=
  if cs = [] then none else digitsValue cs

/-- Value of `SignedInteger`: decimal digits after an optional sign. -/
def signedInteger (cs : List Char) : Option Int :=
  if cs.take 1 = ['+'] then (decimalDigits (cs.drop 1)).map Int.ofNat
  else if cs.take 1 = ['-'] then (decimalDigits (cs.drop 1)).map fun n => -(n : Int)
  else (decimalDigits cs).map Int.ofNat

/-- The exponent indicators `e` and `E`. -/
def isExponentIndicator (c : Char) : Bool := c = 'e' || c = 'E'

/-- The exponent of an optional `ExponentPart`, given from its indicator on. -/
def exponentPart (e : List Char) : Option Int :=
  if e = [] then some 0 else signedInteger e.tail

/-- The Number value for `digits / 10 ^ scale * 10 ^ x`. -/
def decimalNumber (digits : Nat) (scale : Nat) (x : Int) : JSNumber :=
  if 0 ≤ x then JSNumber.ofDecimal (digits * 10 ^ x.toNat : Nat) scale
  else JSNumber.ofDecimal digits (scale + x.natAbs)

/-- Value of `StrUnsignedDecimalLiteral`: `Infinity`, or digits with an optional
fraction and an optional exponent, at least one digit standing before the
exponent. -/
def strUnsignedDecimalLiteral (cs : List Char) : Option JSNumber :=
  if cs = "Infinity".data then some (.infinity false)
  else
    let m := cs.takeWhile fun c => !isExponentIndicator c
    let e := cs.dropWhile fun c => !isExponentIndicator c
    let i := m.takeWhile fun c => c ≠ '.'
    let f := (m.dropWhile fun c => c ≠ '.').tail
    if i = [] ∧ f = [] then none
    else
      (digitsValue i).bind fun n =>
      (digitsValue f).bind fun k =>
      (exponentPart e).map fun x => decimalNumber (n * 10 ^ f.length + k) f.length x

/-- Value of `StrNumericLiteral`: a signed decimal literal, or an unsigned
hexadecimal, octal or binary integer. -/
def strNumericLiteral (cs : List Char) : Option JSNumber :=
  if cs.take 1 = ['+'] then strUnsignedDecimalLiteral (cs.drop 1)
  else if cs.take 1 = ['-'] then (strUnsignedDecimalLiteral (cs.drop 1)).map JSNumber.neg
  else if cs.take 2 = ['0', 'x'] ∨ cs.take 2 = ['0', 'X'] then
    (digitsValueBase 16 (cs.drop 2)).map fun n => JSNumber.ofDecimal n 0
  else if cs.take 2 = ['0', 'o'] ∨ cs.take 2 = ['0', 'O'] then
    (digitsValueBase 8 (cs.drop 2)).map fun n => JSNumber.ofDecimal n 0
  else if cs.take 2 = ['0', 'b'] ∨ cs.take 2 = ['0', 'B'] then
    (digitsValueBase 2 (cs.drop 2)).map fun n => JSNumber.ofDecimal n 0
  else strUnsignedDecimalLiteral cs

/-- ECMA-262 `StringToNumber`: 0 for an empty or blank text, the value of the
numeric literal that the text is once trimmed, and NaN for any other text. -/
def StringToNumber (s : String) : JSNumber :=
  let cs := trimWhiteSpace s.data
  if cs = [] then JSNumber.ofDecimal 0 0 else (strNumericLiteral cs).getD .nan

/-- ECMA-262 `ToNumber` on the value of a row's column: a string, or
`undefined` (`none`) when the row has no such column. -/
def ToNumber : Option String → JSNumber
  | none => .nan
  | some s => StringToNumber s

/-- ECMA-262 `ToString` on the value of a row's column. -/
def ToString : Option String → String
  | none => "undefined"
  | some s => s

/-! ## `readVpts` -/

/-- A row as `d3.csv` hands it to the row callback: the text of each column the
callback reads, `none` (`undefined`) for a column the row does not have.  Other
columns are not read. -/
structure Row where
  datetime : Option String
  height : Option String
  dd : Option String
  ff : Option String
  dens : Option String
  sd_vvp : Option String
  deriving DecidableEq, Repr

/-- The object that the row callback returns.  The field `datetime` is the
Number of `Date.parse`, a time value or NaN (`none`). -/
structure VptsRecord where
  datetime : Option Int
  height : JSNumber
  dd : JSNumber
  ff : JSNumber
  dens : JSNumber
  sd_vvp : Option String
  deriving DecidableEq, Repr

/-- Lines 41 to 50, the row callback `d => ...` of `readVpts`, on a host in zone
`tz`. -/
def readVptsRow (tz : TimeZone) (d : Row) : VptsRecord where
  datetime := DateParse tz (ToString d.datetime)
  height := ToNumber d.height
  dd := ToNumber d.dd
  ff := ToNumber d.ff
  dens := ToNumber d.dens
  sd_vvp := d.sd_vvp

/-- The function `readVpts(file)` on the rows that `d3.csv` reads from `file`:
the row callback applied to each row, in order. -/
def readVpts (tz : TimeZone) (rows : List Row) : List VptsRecord :=
  rows.map (readVptsRow tz)

/-! ## `config.js` -/

/-- An entry of `availableRadars`. -/
structure Radar where
  ODIMCode : String
  location : String
  country : String
  latitude : Decimal
  longitude : Decimal
  timezone : String
  deriving DecidableEq, Repr

/-- Lines 8 to 14: the array literal, in source order. -/
def radarsLiteral : List Radar :=
  [⟨"behel", "Behel?", "Belgium", ⟨51069199, 6⟩, ⟨5406138, 6⟩, "Europe/Brussels"⟩,
   ⟨"bejab", "Jabbeke", "Belgium", ⟨511919, 4⟩, ⟨30641, 4⟩, "Europe/Brussels"⟩,
   ⟨"bezav", "Zaventem", "Belgium", ⟨509054, 4⟩, ⟨44579, 4⟩, "Europe/Brussels"⟩,
   ⟨"bewid", "Wideumont", "Belgium", ⟨499135, 4⟩, ⟨55044, 4⟩, "Europe/Brussels"⟩,
   ⟨"nlhrw", "Herwijnen", "the Netherlands", ⟨5183708, 5⟩, ⟨513797, 5⟩, "Europe/Amsterdam"⟩,
   ⟨"deess", "Essen", "Germany", ⟨514055, 4⟩, ⟨69669, 4⟩, "Europe/Berlin"⟩,
   ⟨"denhb", "Neuheilenbach", "Germany", ⟨501097, 4⟩, ⟨65483, 4⟩, "Europe/Berlin"⟩]

/-- The relation `a > b` on two strings: the order of their code units, which
for these texts is the order of their characters. -/
def stringGt (a b : String) : Bool := decide (b.data < a.data)

/-- Line 15, the comparator `(a, b) => (a.location > b.location) ? 1 : -1`. -/
def compareLocation (a b : Radar) : Int :=
  if stringGt a.location b.location then 1 else -1

/-- The method `Array.prototype.sort(comparefn)`, as an insertion sort: `a` is
put before `b` when `comparefn a b` is not positive.  ECMA-262 leaves the
algorithm to the implementation; `availableRadars_sorted_unique` shows that
for this array the result does not depend on it. -/
def sort (comparefn : Radar → Radar → Int) (l : List Radar) : List Radar :=
  l.insertionSort fun a b => comparefn a b ≤ 0

/-- Lines 5 to 15: `availableRadars`, the literal sorted by location. -/
def availableRadars : List Radar := sort compareLocation radarsLiteral

/-- Line 17. -/
def initialRadarODIMCode : String := "behel"

/-! ## The vocabulary of the specification

The definitions of this section are not translated from the source.  They say
what the specification means by a calendar date, by the days between two dates,
by the stamp `YYYYMMDD` and by reading a stamp back, so that its sentences can
be stated and compared with what `fetchVpts` computes. -/

/-- A finite number is a time value when it lies within 100 000 000 days of the
epoch. -/
def validTime (t : Int) : Prop := -maxTime ≤ t ∧ t ≤ maxTime

instance (t : Int) : Decidable (validTime t) := by
  unfold validTime
  infer_instance

/-- A calendar date of the specification: a time value at midnight UTC. -/
def isCalendarDate (t : Int) : Prop := validTime t ∧ TimeWithinDay t = 0

instance (t : Int) : Decidable (isCalendarDate t) := by
  unfold isCalendarDate
  infer_instance

/-- The number of whole calendar days from `start` to `stop`. -/
def daysBetween (start stop : Int) : Int := Day stop - Day start

/-- The `n` instants that start at `s` and follow each other at 24 hours:
`s`, `s + msPerDay`, and so on. -/
def daysFrom (s : Int) : Nat → List Int
  | 0 => []
  | n + 1 => s :: daysFrom (s + msPerDay) n

/-- The ISO 8601 timestamp in UTC, to the second, of the instant `t`:
`YYYY-MM-DDTHH:mm:ssZ`. -/
def utcTimestamp (t : Int) : String :=
  String.mk (padDigits 4 (YearFromTime t).toNat
    ++ '-' :: padDigits 2 (MonthFromTime t + 1).toNat
    ++ '-' :: padDigits 2 (DateFromTime t).toNat
    ++ 'T' :: padDigits 2 (HourFromTime t).toNat
    ++ ':' :: padDigits 2 (MinFromTime t).toNat
    ++ ':' :: padDigits 2 (SecFromTime t).toNat ++ ['Z'])

/-- The decimal number literal with the integer part `i` written in `wi` digits
and the fraction `f` written in `wf` digits, after a minus sign when
`negative`: it denotes `i + f / 10 ^ wf`, or the opposite. -/
def decimalText (negative : Bool) (wi i wf f : Nat) : String :=
  String.mk ((if negative then ['-'] else []) ++ padDigits wi i ++ '.' :: padDigits wf f)

/-- The decimal number literal without fraction, `i` written in `wi` digits
after a minus sign when `negative`. -/
def integerText (negative : Bool) (wi i : Nat) : String :=
  String.mk ((if negative then ['-'] else []) ++ padDigits wi i)

/-- A decimal number literal: an optional minus sign, an integer part of
`width` digits and an optional fraction, given by its number of digits and its
value. -/
structure DecimalLiteral where
  negative : Bool
  width : Nat
  integer : Nat
  fraction : Option (Nat × Nat)

/-- The text of a decimal number literal. -/
def DecimalLiteral.text (l : DecimalLiteral) : String :=
  match l.fraction with
  | none => integerText l.negative l.width l.integer
  | some (wf, f) => decimalText l.negative l.width l.integer wf f

/-- The number that a decimal number literal denotes. -/
def DecimalLiteral.value (l : DecimalLiteral) : ℚ :=
  (if l.negative then -1 else 1) *
    ((l.integer : ℚ) + match l.fraction with
      | none => 0
      | some (wf, f) => (f : ℚ) / 10 ^ wf)

/-- The digits of a decimal number literal fit their widths, and the integer
part has at least one digit. -/
def DecimalLiteral.WellFormed (l : DecimalLiteral) : Prop :=
  0 < l.width ∧ l.integer < 10 ^ l.width ∧
    match l.fraction with
    | none => True
    | some (wf, f) => f < 10 ^ wf

/-- The values among which the Number value of a real number is chosen
(ECMA-262, 6.1.6.1): the finite values of the Number type, `m * 2 ^ e` with
`m` below `2 ^ 53` in magnitude and `e` from -1074 to 971, and the two values
`2 ^ 1024` and `-2 ^ 1024`. -/
def IsNumberCandidate (y : ℚ) : Prop :=
  ∃ m e : Int, |m| ≤ 2 ^ 53 ∧ -1074 ≤ e ∧ e ≤ 971 ∧ y = m * (2 : ℚ) ^ e

/-- The significand of the candidate `y` is even: `y` is `m * 2 ^ e` with `m`
even and of 53 binary digits, or with the least exponent. -/
def HasEvenSignificand (y : ℚ) : Prop :=
  ∃ m e : Int, Even m ∧ |m| ≤ 2 ^ 53 ∧ (2 ^ 52 ≤ |m| ∨ e = -1074) ∧ -1074 ≤ e ∧ e ≤ 971
    ∧ y = m * (2 : ℚ) ^ e

/-- The candidate `y` is the one chosen for `x`: no candidate is nearer to `x`,
and when another is as near, `y` has the even significand. -/
def IsClosestNumber (x y : ℚ) : Prop :=
  IsNumberCandidate y ∧ (∀ z, IsNumberCandidate z → |x - y| ≤ |x - z|)
    ∧ ∀ z, IsNumberCandidate z → z ≠ y → |x - z| = |x - y| → HasEvenSignificand y

/-- The Number `r` is the Number value for the real number `x` (ECMA-262,
6.1.6.1): the candidate chosen for `x`, an infinity standing for `2 ^ 1024` and
for `-2 ^ 1024`.  The two zeros are not told apart. -/
def IsNumberValueFor (x : ℚ) : JSNumber → Prop
  | .nan => False
  | .infinity negative => IsClosestNumber x (if negative then -2 ^ 1024 else 2 ^ 1024)
  | .finite d => |d.toRat| < 2 ^ 1024 ∧ IsClosestNumber x d.toRat

/-- The grammar `DecimalDigits` of ECMA-262: one decimal digit or more. -/
def IsDecimalDigits (cs : List Char) : Prop := cs ≠ [] ∧ ∀ c ∈ cs, c.isDigit = true

/-- The grammar `SignedInteger`: decimal digits after an optional sign. -/
def IsSignedInteger (cs : List Char) : Prop :=
  ∃ d, IsDecimalDigits d ∧ (cs = d ∨ cs = '+' :: d ∨ cs = '-' :: d)

/-- The grammar `ExponentPart`: `e` or `E` and a signed integer. -/
def IsExponentPart (cs : List Char) : Prop :=
  ∃ n, IsSignedInteger n ∧ (cs = 'e' :: n ∨ cs = 'E' :: n)

/-- The grammar `StrUnsignedDecimalLiteral`: `Infinity`, or one of
`digits . digits? exponent?`, `. digits exponent?` and `digits exponent?`. -/
def IsStrUnsignedDecimalLiteral (cs : List Char) : Prop :=
  cs = "Infinity".data ∨ ∃ x, (x = [] ∨ IsExponentPart x) ∧
    ((∃ i f, IsDecimalDigits i ∧ (f = [] ∨ IsDecimalDigits f) ∧ cs = i ++ '.' :: f ++ x)
      ∨ (∃ f, IsDecimalDigits f ∧ cs = '.' :: f ++ x)
      ∨ ∃ i, IsDecimalDigits i ∧ cs = i ++ x)

/-- The grammar `StrDecimalLiteral`: an unsigned decimal literal after an
optional sign. -/
def IsStrDecimalLiteral (cs : List Char) : Prop :=
  ∃ u, IsStrUnsignedDecimalLiteral u ∧ (cs = u ∨ cs = '+' :: u ∨ cs = '-' :: u)

/-- The digits of base `base`: the first `base` of `0` to `f`, in either
case. -/
def IsDigitOfBase (base : Nat) (c : Char) : Prop :=
  c ∈ "0123456789abcdef".data.take base ∨ c ∈ "0123456789ABCDEF".data.take base

/-- The grammar `NonDecimalIntegerLiteral`: `0b`, `0o` or `0x`, in either case,
and one digit of the base or more. -/
def IsNonDecimalIntegerLiteral (cs : List Char) : Prop :=
  ∃ d, d ≠ [] ∧
    (((∀ c ∈ d, IsDigitOfBase 16 c) ∧ (cs = '0' :: 'x' :: d ∨ cs = '0' :: 'X' :: d))
      ∨ ((∀ c ∈ d, IsDigitOfBase 8 c) ∧ (cs = '0' :: 'o' :: d ∨ cs = '0' :: 'O' :: d))
      ∨ ((∀ c ∈ d, IsDigitOfBase 2 c) ∧ (cs = '0' :: 'b' :: d ∨ cs = '0' :: 'B' :: d)))

/-- The grammar `StrNumericLiteral` of ECMA-262: the texts that are number
literals for `ToNumber`. -/
def IsStrNumericLiteral (cs : List Char) : Prop :=
  IsStrDecimalLiteral cs ∨ IsNonDecimalIntegerLiteral cs

/-- The stamp `YYYYMMDD` of the naming convention: the year in four digits, the
month in two and the day of the month in two, zero-padded, of the UTC date of
`t`. -/
def YYYYMMDD (t : Int) : String :=
  String.mk (padDigits 4 (YearFromTime t).toNat
    ++ padDigits 2 (MonthFromTime t + 1).toNat
    ++ padDigits 2 (DateFromTime t).toNat)

/-- The file name that the naming convention gives the date of `t` under
`directory`. -/
def conventionName (directory : String) (t : Int) : String :=
  directory ++ "example_vpts_" ++ YYYYMMDD t ++ ".csv"

/-- The stamp of a file name: what is left when `directory`, the 13 characters
of `example_vpts_` and the 4 characters of `.csv` are stripped. -/
def stampOfName (directory name : String) : String :=
  String.mk ((name.data.drop (directory.length + 13)).dropLast.dropLast.dropLast.dropLast)

/-- A stamp read back as `YYYYMMDD`: the calendar date (midnight UTC) of year
`YYYY`, month `MM`, day `DD`, when the stamp is eight digits that name an
existing date. -/
def parseYYYYMMDD (stamp : String) : Option Int :=
  (fixedDigits 4 (stamp.data.take 4)).bind fun y =>
  (fixedDigits 2 ((stamp.data.drop 4).take 2)).bind fun m =>
  (fixedDigits 2 (stamp.data.drop 6)).bind fun d =>
  (dayOfCalendarDate y m d).map fun day => MakeDate day 0

/-! ## The calendar -/

theorem DaysInYear_bounds (y : Int) : 365 ≤ DaysInYear y ∧ DaysInYear y ≤ 366 := by
  unfold DaysInYear
  split_ifs <;> omega

theorem DayFromYear_succ (y : Int) :
    DayFromYear (y + 1) = DayFromYear y + DaysInYear y := by
  unfold DayFromYear DaysInYear
  split_ifs <;> omega

theorem DayFromYear_near (y : Int) :
    146097 * (y - 1970) - 146097 < 400 * DayFromYear y ∧
      400 * DayFromYear y < 146097 * (y - 1970) + 146097 := by
  unfold DayFromYear
  omega

theorem DayFromYear_mono (y : Int) : ∀ z, y ≤ z → DayFromYear y ≤ DayFromYear z := by
  intro z hz
  refine Int.le_induction (P := fun z => DayFromYear y ≤ DayFromYear z) (le_refl _)
    (fun z _ ih => ?_) z hz
  have h1 := DayFromYear_succ z
  have h2 := DaysInYear_bounds z
  omega

/-- The year of a day is the one whose first day is the last to begin on or
before it. -/
theorem yearOfDay_spec (d : Int) :
    DayFromYear (yearOfDay d) ≤ d ∧ d < DayFromYear (yearOfDay d + 1) := by
  obtain ⟨y0, hy0⟩ : ∃ y0, y0 = 1970 + (400 * d) / 146097 := ⟨_, rfl⟩
  have hlo := DayFromYear_near (y0 - 1)
  have hhi := DayFromYear_near (y0 + 1 + 1)
  have hy : 146097 * (y0 - 1970) ≤ 400 * d ∧ 400 * d < 146097 * (y0 - 1970) + 146097 := by
    omega
  unfold yearOfDay
  simp only []
  rw [← hy0]
  split_ifs with h1 h2
  · rw [sub_add_cancel]
    exact ⟨by omega, h1⟩
  · exact ⟨by omega, by omega⟩
  · exact ⟨by omega, by omega⟩

/-- The model of `YearFromTime` meets its ECMA-262 definition: it is the largest
year that starts at or before `t`. -/
theorem YearFromTime_greatest (t : Int) :
    TimeFromYear (YearFromTime t) ≤ t ∧ ∀ y, TimeFromYear y ≤ t → y ≤ YearFromTime t := by
  have h := yearOfDay_spec (Day t)
  unfold YearFromTime TimeFromYear
  unfold Day msPerDay at *
  refine ⟨by omega, fun y hy => ?_⟩
  by_contra hlt
  have := DayFromYear_mono (yearOfDay (t / 86400000) + 1) y (by omega)
  omega

theorem DayWithinYear_bounds (t : Int) :
    0 ≤ DayWithinYear t ∧ DayWithinYear t < DaysInYear (YearFromTime t) := by
  have h := yearOfDay_spec (Day t)
  have hs := DayFromYear_succ (YearFromTime t)
  unfold DayWithinYear
  unfold YearFromTime at *
  omega

theorem InLeapYear_eq (t : Int) : InLeapYear t = DaysInYear (YearFromTime t) - 365 := by
  have h := DaysInYear_bounds (YearFromTime t)
  unfold InLeapYear
  split_ifs <;> omega

theorem month_date_of_yearDay (d l : Int) (hl : l = 0 ∨ l = 1) (h0 : 0 ≤ d)
    (h1 : d < 365 + l) :
    daysBeforeMonth (monthOfYearDay d l) l + dateOfYearDay (monthOfYearDay d l) d l - 1 = d
      ∧ 0 ≤ monthOfYearDay d l ∧ monthOfYearDay d l ≤ 11
      ∧ 1 ≤ dateOfYearDay (monthOfYearDay d l) d l
      ∧ dateOfYearDay (monthOfYearDay d l) d l ≤ 31
      ∧ (monthOfYearDay d l ≤ 10 → d < daysBeforeMonth (monthOfYearDay d l + 1) l) := by
  unfold monthOfYearDay
  by_cases c0 : d < 31
  · simp only [if_pos c0, daysBeforeMonth, dateOfYearDay]
    norm_num
    omega
  simp only [if_neg c0]
  by_cases c1 : d < 59 + l
  · simp only [if_pos c1, daysBeforeMonth, dateOfYearDay]
    norm_num
    omega
  simp only [if_neg c1]
  by_cases c2 : d < 90 + l
  · simp only [if_pos c2, daysBeforeMonth, dateOfYearDay]
    norm_num
    omega
  simp only [if_neg c2]
  by_cases c3 : d < 120 + l
  · simp only [if_pos c3, daysBeforeMonth, dateOfYearDay]
    norm_num
    omega
  simp only [if_neg c3]
  by_cases c4 : d < 151 + l
  · simp only [if_pos c4, daysBeforeMonth, dateOfYearDay]
    norm_num
    omega
  simp only [if_neg c4]
  by_cases c5 : d < 181 + l
  · simp only [if_pos c5, daysBeforeMonth, dateOfYearDay]
    norm_num
    omega
  simp only [if_neg c5]
  by_cases c6 : d < 212 + l
  · simp only [if_pos c6, daysBeforeMonth, dateOfYearDay]
    norm_num
    omega
  simp only [if_neg c6]
  by_cases c7 : d < 243 + l
  · simp only [if_pos c7, daysBeforeMonth, dateOfYearDay]
    norm_num
    omega
  simp only [if_neg c7]
  by_cases c8 : d < 273 + l
  · simp only [if_pos c8, daysBeforeMonth, dateOfYearDay]
    norm_num
    omega
  simp only [if_neg c8]
  by_cases c9 : d < 304 + l
  · simp only [if_pos c9, daysBeforeMonth, dateOfYearDay]
    norm_num
    omega
  simp only [if_neg c9]
  by_cases c10 : d < 334 + l
  · simp only [if_pos c10, daysBeforeMonth, dateOfYearDay]
    norm_num
    omega
  simp only [if_neg c10]
  simp only [daysBeforeMonth, dateOfYearDay]
  norm_num
  omega

/-- Month and day of the month determine the day of the year, and lie in their
ranges. -/
theorem month_date_spec (t : Int) :
    daysBeforeMonth (MonthFromTime t) (InLeapYear t) + DateFromTime t - 1 = DayWithinYear t
      ∧ 0 ≤ MonthFromTime t ∧ MonthFromTime t ≤ 11
      ∧ 1 ≤ DateFromTime t ∧ DateFromTime t ≤ 31
      ∧ (MonthFromTime t ≤ 10 →
          DayWithinYear t < daysBeforeMonth (MonthFromTime t + 1) (InLeapYear t)) := by
  have hb := DayWithinYear_bounds t
  have hl := InLeapYear_eq t
  have hy := DaysInYear_bounds (YearFromTime t)
  exact month_date_of_yearDay (DayWithinYear t) (InLeapYear t) (by omega) hb.1 (by omega)

/-- Rebuilding the day number from the year, month and day of the month of a
time value gives its day back; a shift of the day of the month shifts the day
number. -/
theorem MakeDay_of_time (t k : Int) :
    MakeDay (YearFromTime t) (MonthFromTime t) (DateFromTime t + k) = Day t + k := by
  obtain ⟨h1, h2, h3, -⟩ := month_date_spec t
  have hl := InLeapYear_eq t
  have hy := DaysInYear_bounds (YearFromTime t)
  have hq : MonthFromTime t / 12 = 0 := by omega
  have hr : MonthFromTime t % 12 = MonthFromTime t := by omega
  have hf : (if DaysInYear (YearFromTime t) = 366 then (1 : Int) else 0) = InLeapYear t := rfl
  unfold MakeDay
  simp only [hq, hr, add_zero, hf]
  unfold DayWithinYear at h1
  omega

/-- The first day of the month after that of `t` comes after `t`. -/
theorem Day_lt_next_month (t : Int) :
    Day t < MakeDay (YearFromTime t) (MonthFromTime t + 1) 1 := by
  obtain ⟨h1, h2, h3, -, -, h6⟩ := month_date_spec t
  have hl := InLeapYear_eq t
  have hy := DaysInYear_bounds (YearFromTime t)
  have hs := DayFromYear_succ (YearFromTime t)
  have hb := DayWithinYear_bounds t
  have hf : (if DaysInYear (YearFromTime t) = 366 then (1 : Int) else 0) = InLeapYear t := rfl
  unfold DayWithinYear at h6 hb
  unfold MakeDay
  simp only []
  by_cases h11 : MonthFromTime t = 11
  · have hq : (MonthFromTime t + 1) / 12 = 1 := by omega
    have hr : (MonthFromTime t + 1) % 12 = 0 := by omega
    rw [hq, hr]
    simp only [daysBeforeMonth, if_true]
    omega
  · have hq : (MonthFromTime t + 1) / 12 = 0 := by omega
    have hr : (MonthFromTime t + 1) % 12 = MonthFromTime t + 1 := by omega
    rw [hq, hr, add_zero, hf]
    have := h6 (by omega)
    omega

theorem yearOfDay_unique (d y : Int) (h1 : DayFromYear y ≤ d) (h2 : d < DayFromYear (y + 1)) :
    yearOfDay d = y := by
  obtain ⟨h3, h4⟩ := yearOfDay_spec d
  rcases lt_trichotomy (yearOfDay d) y with h | h | h
  · have := DayFromYear_mono (yearOfDay d + 1) y (by omega)
    omega
  · exact h
  · have := DayFromYear_mono (y + 1) (yearOfDay d) (by omega)
    omega

/-- The model of `MakeDay` meets its ECMA-262 definition: the day it gives the
first of month `mn` of year `y` has that year, that month, and 1 as its day of
the month. -/
theorem MakeDay_spec (y mn : Int) (h0 : 0 ≤ mn) (h1 : mn ≤ 11) :
    YearFromTime (MakeDate (MakeDay y mn 1) 0) = y
    ∧ MonthFromTime (MakeDate (MakeDay y mn 1) 0) = mn
    ∧ DateFromTime (MakeDate (MakeDay y mn 1) 0) = 1 := by
  have hq : mn / 12 = 0 := by omega
  have hr : mn % 12 = mn := by omega
  have hb := DaysInYear_bounds y
  have hs := DayFromYear_succ y
  obtain ⟨l, hl⟩ : ∃ l : Int, l = if DaysInYear y = 366 then 1 else 0 := ⟨_, rfl⟩
  have hl1 : l = DaysInYear y - 365 := by
    rw [hl]
    split_ifs <;> omega
  have hday : Day (MakeDate (MakeDay y mn 1) 0) = DayFromYear y + daysBeforeMonth mn l := by
    unfold MakeDate Day MakeDay msPerDay
    simp only [hq, hr, add_zero, ← hl]
    omega
  have hm : 0 ≤ daysBeforeMonth mn l ∧ daysBeforeMonth mn l < 365 + l
      ∧ monthOfYearDay (daysBeforeMonth mn l) l = mn
      ∧ dateOfYearDay mn (daysBeforeMonth mn l) l = 1 := by
    have hl01 : l = 0 ∨ l = 1 := by omega
    have hmn : mn = 0 ∨ mn = 1 ∨ mn = 2 ∨ mn = 3 ∨ mn = 4 ∨ mn = 5 ∨ mn = 6 ∨ mn = 7
        ∨ mn = 8 ∨ mn = 9 ∨ mn = 10 ∨ mn = 11 := by omega
    rcases hl01 with rfl | rfl <;>
      rcases hmn with rfl | rfl | rfl | rfl | rfl | rfl | rfl | rfl | rfl | rfl | rfl | rfl <;>
      decide
  have hy : YearFromTime (MakeDate (MakeDay y mn 1) 0) = y := by
    unfold YearFromTime
    rw [hday]
    exact yearOfDay_unique _ _ (by omega) (by omega)
  have hleap : InLeapYear (MakeDate (MakeDay y mn 1) 0) = l := by
    rw [InLeapYear, hy, hl]
  have hdw : DayWithinYear (MakeDate (MakeDay y mn 1) 0) = daysBeforeMonth mn l := by
    rw [DayWithinYear, hy, hday]
    omega
  have hmonth : MonthFromTime (MakeDate (MakeDay y mn 1) 0) = mn := by
    rw [MonthFromTime, hdw, hleap, hm.2.2.1]
  refine ⟨hy, hmonth, ?_⟩
  rw [DateFromTime, hmonth, hdw, hleap, hm.2.2.2]

/-! ## Checks of the model on known instants -/

/-- The model of `toISOString` on some instants: an ordinary one, the
millisecond before the epoch, leap days, and the first days of the years 10000
and -1, which are written with a sign and six digits. -/
theorem isoString_checks :
    String.mk (isoString 1472688300123) = "2016-09-01T00:05:00.123Z"
    ∧ String.mk (isoString (-1)) = "1969-12-31T23:59:59.999Z"
    ∧ String.mk (isoString 1456704000000) = "2016-02-29T00:00:00.000Z"
    ∧ String.mk (isoString 951782400000) = "2000-02-29T00:00:00.000Z"
    ∧ String.mk (isoString (-2203891200000)) = "1900-03-01T00:00:00.000Z"
    ∧ String.mk (isoString 253402214400000) = "9999-12-31T00:00:00.000Z"
    ∧ String.mk (isoString 253402300800000) = "+010000-01-01T00:00:00.000Z"
    ∧ String.mk (isoString (-62167219200000)) = "0000-01-01T00:00:00.000Z"
    ∧ String.mk (isoString (-62167305600000)) = "-000001-12-31T00:00:00.000Z"
    ∧ String.mk (isoString 8640000000000000) = "+275760-09-13T00:00:00.000Z" := by
  decide

/-- The model of `Date.parse` on some strings: date-only forms are UTC, a
date-time form without offset is local time, and a month that does not exist is
NaN. -/
theorem DateParse_checks :
    DateParse TimeZone.utc "2016-09-01" = some 1472688000000
    ∧ DateParse TimeZone.brussels2016 "2016-09-01" = some 1472688000000
    ∧ DateParse TimeZone.utc "2016-09-01T00:05:00Z" = some 1472688300000
    ∧ DateParse TimeZone.utc "2016-09-01T00:05:00.123+02:00" = some 1472681100123
    ∧ DateParse TimeZone.brussels2016 "2016-09-01T00:05:00" = some 1472681100000
    ∧ DateParse TimeZone.utc "2016-02-29" = some 1456704000000
    ∧ DateParse TimeZone.utc "2016-13-01" = none
    ∧ DateParse TimeZone.utc "+010000-01-01" = some 253402300800000
    ∧ DateParse TimeZone.utc "-000001-12-31" = some (-62167305600000) := by
  decide

/-! ## Digits and text -/

theorem digitChar_spec (d : Nat) (h : d < 10) :
    (digitChar d).isDigit = true ∧ (digitChar d).toNat - 48 = d ∧ digitChar d ≠ 'T' := by
  revert d
  decide

theorem padDigits_length (w n : Nat) : (padDigits w n).length = w := by
  induction w generalizing n with
  | zero => rfl
  | succ w ih => simp [padDigits, ih]

theorem padDigits_isDigit (w n : Nat) : ∀ c ∈ padDigits w n, c.isDigit = true := by
  induction w generalizing n with
  | zero => simp [padDigits]
  | succ w ih =>
    intro c hc
    simp only [padDigits, List.mem_append, List.mem_singleton] at hc
    rcases hc with hc | rfl
    · exact ih _ c hc
    · exact (digitChar_spec _ (Nat.mod_lt _ (by decide))).1

theorem digitsValue_append_singleton (cs : List Char) (c : Char) :
    digitsValue (cs ++ [c]) =
      (digitsValue cs).bind fun n =>
        if c.isDigit then some (10 * n + (c.toNat - 48)) else none := by
  simp [digitsValue, List.foldl_append]

/-- Reading zero-padded digits back gives the number, modulo the width. -/
theorem digitsValue_padDigits (w n : Nat) :
    digitsValue (padDigits w n) = some (n % 10 ^ w) := by
  induction w generalizing n with
  | zero => simp [padDigits, digitsValue, Nat.mod_one]
  | succ w ih =>
    obtain ⟨h1, h2, -⟩ := digitChar_spec (n % 10) (Nat.mod_lt _ (by decide))
    rw [padDigits, digitsValue_append_singleton, ih, Option.some_bind, if_pos h1, h2]
    congr 1
    rw [pow_succ', Nat.mod_mul]
    omega

theorem fixedDigits_padDigits (w n : Nat) (h : n < 10 ^ w) :
    fixedDigits w (padDigits w n) = some n := by
  rw [fixedDigits, if_pos (padDigits_length w n), digitsValue_padDigits, Nat.mod_eq_of_lt h]

/-- The first piece of a split is what stands before the first separator. -/
theorem split_head (sep : Char) (a r : List Char) (h : sep ∉ a) :
    (split sep (a ++ sep :: r)).headD [] = a := by
  induction a with
  | nil => simp [split]
  | cons c a ih =>
    have hc : c ≠ sep := fun e => h (by simp [e])
    have ha : sep ∉ a := fun e => h (by simp [e])
    have := ih ha
    simp only [List.cons_append, split, if_neg hc]
    cases hs : split sep (a ++ sep :: r) with
    | nil => rw [hs] at this; simp at this; simp [this]
    | cons seg rest => rw [hs] at this; simp at this; simp [this]

theorem filter_isDigit_padDigits (w n : Nat) :
    (padDigits w n).filter Char.isDigit = padDigits w n :=
  List.filter_eq_self.mpr (padDigits_isDigit w n)

theorem not_mem_padDigits (c : Char) (hc : c.isDigit = false) (w n : Nat) :
    c ∉ padDigits w n := by
  intro h
  rw [padDigits_isDigit w n c h] at hc
  exact Bool.noConfusion hc

/-- The date stamp of line 32 on a valid date: the digits of the year (four, or
six when `toISOString` writes a signed year), of the month and of the day. -/
theorem stampOfISO_isoString (t : Int) :
    stampOfISO (isoString t) =
      String.mk ((if 0 ≤ YearFromTime t ∧ YearFromTime t ≤ 9999
          then padDigits 4 (YearFromTime t).toNat
          else padDigits 6 (YearFromTime t).natAbs)
        ++ padDigits 2 (MonthFromTime t + 1).toNat
        ++ padDigits 2 (DateFromTime t).toNat) := by
  have hT : ∀ w n, 'T' ∉ padDigits w n := not_mem_padDigits 'T' (by decide)
  have hA : ∃ r, isoString t =
      ((if 0 ≤ YearFromTime t ∧ YearFromTime t ≤ 9999
          then padDigits 4 (YearFromTime t).toNat
          else (if 0 ≤ YearFromTime t then '+' else '-')
            :: padDigits 6 (YearFromTime t).natAbs)
        ++ '-' :: padDigits 2 (MonthFromTime t + 1).toNat
        ++ '-' :: padDigits 2 (DateFromTime t).toNat) ++ 'T' :: r := by
    refine ⟨padDigits 2 (HourFromTime t).toNat ++ ':' :: padDigits 2 (MinFromTime t).toNat
      ++ ':' :: padDigits 2 (SecFromTime t).toNat
      ++ '.' :: padDigits 3 (msFromTime t).toNat ++ ['Z'], ?_⟩
    simp only [isoString, List.append_assoc, List.cons_append]
  obtain ⟨r, hr⟩ := hA
  rw [stampOfISO, hr, split_head]
  · congr 1
    have hm : ('-' : Char).isDigit = false := by decide
    have hp : ('+' : Char).isDigit = false := by decide
    split_ifs <;>
      simp [List.filter_append, List.filter_cons, filter_isDigit_padDigits, hm, hp]
  · have h1 : ('T' : Char) ≠ '-' := by decide
    have h2 : ('T' : Char) ≠ '+' := by decide
    split_ifs <;> simp [hT, h1, h2]

/-- For a year of four digits the date stamp is the `YYYYMMDD` of the naming
convention. -/
theorem stampOfISO_eq_YYYYMMDD (t : Int) (h0 : 0 ≤ YearFromTime t)
    (h1 : YearFromTime t ≤ 9999) : stampOfISO (isoString t) = YYYYMMDD t := by
  rw [stampOfISO_isoString, if_pos ⟨h0, h1⟩, YYYYMMDD]

theorem YYYYMMDD_length (t : Int) : (YYYYMMDD t).length = 8 := by
  simp [YYYYMMDD, String.length, padDigits_length]

theorem YYYYMMDD_digits (t : Int) : ∀ c ∈ (YYYYMMDD t).data, c.isDigit = true := by
  intro c hc
  simp only [YYYYMMDD, List.mem_append] at hc
  rcases hc with (hc | hc) | hc <;> exact padDigits_isDigit _ _ c hc

theorem fileName_valid (directory : String) (t : Int) :
    fileName directory (some t) =
      .ok (directory ++ "example_vpts_" ++ stampOfISO (isoString t) ++ ".csv") := rfl

theorem filenames_valid (directory : String) (ts : List Int) :
    filenames directory (ts.map some) =
      .ok (ts.map fun t =>
        directory ++ "example_vpts_" ++ stampOfISO (isoString t) ++ ".csv") := by
  induction ts with
  | nil => rfl
  | cons t ts ih => simp only [List.map_cons, filenames, fileName_valid, ih]

/-! ## One turn of the loop -/

/-- A turn of the loop moves the date to the same wall-clock time on the next
local calendar day. -/
theorem setDate_next (tz : TimeZone) (t : Int) :
    setDate tz (some t) ((getDate tz (some t)).map (· + 1)) =
      TimeClip (UTC tz (LocalTime tz t + msPerDay)) := by
  simp only [getDate, setDate, Option.map_some']
  rw [MakeDay_of_time]
  congr 2
  unfold MakeDate Day TimeWithinDay msPerDay
  omega

/-- On a host with one offset all year a turn of the loop adds 24 hours. -/
theorem setDate_next_fixed (c t : Int) :
    setDate (TimeZone.fixed c) (some t) ((getDate (TimeZone.fixed c) (some t)).map (· + 1)) =
      TimeClip (t + msPerDay) := by
  rw [setDate_next]
  congr 1
  simp only [UTC, LocalTime, TimeZone.fixed]
  omega

theorem TimeClip_valid (t : Int) (h : validTime t) : TimeClip t = some t := by
  unfold validTime at h
  unfold TimeClip
  rw [if_neg]
  omega

/-! ## The loop -/

theorem daysFrom_length (s : Int) (n : Nat) : (daysFrom s n).length = n := by
  induction n generalizing s with
  | zero => rfl
  | succ n ih => simp [daysFrom, ih]

theorem daysFrom_getElem? (s : Int) (n i : Nat) (h : i < n) :
    (daysFrom s n)[i]? = some (s + i * msPerDay) := by
  induction n generalizing s i with
  | zero => omega
  | succ n ih =>
    cases i with
    | zero => simp [daysFrom]
    | succ i =>
      simp only [daysFrom, List.getElem?_cons_succ]
      rw [ih _ _ (by omega)]
      push_cast
      congr 1
      ring

/-- More fuel does not change a finished loop. -/
theorem collectDates_fuel_mono (tz : TimeZone) (k : Nat) :
    ∀ (fuel : Nat) (a b : Option Int) (acc r : List (Option Int)),
      collectDates tz fuel a b acc = some r → collectDates tz (fuel + k) a b acc = some r := by
  intro fuel
  induction fuel with
  | zero => intro a b acc r h; simp [collectDates] at h
  | succ fuel ih =>
    intro a b acc r h
    rw [Nat.add_right_comm]
    unfold collectDates at h ⊢
    split_ifs at h ⊢ with hlt
    · exact ih _ _ _ _ h
    · exact h

/-- On a host with one offset all year the loop collects the instants that
follow `s` at 24 hours, up to the first one that is not before `e`. -/
theorem collectDates_fixed (c e : Int) :
    ∀ (n : Nat) (s : Int) (acc : List (Option Int)) (fuel : Nat),
      validTime s → s + n * msPerDay ≤ maxTime → e ≤ s + n * msPerDay →
      (0 < n → s + (n - 1) * msPerDay < e) → n < fuel →
      collectDates (TimeZone.fixed c) fuel (some s) (some e) acc =
        some (acc ++ (daysFrom (s + msPerDay) n).map some) := by
  intro n
  induction n with
  | zero =>
    intro s acc fuel _ _ he _ hf
    obtain ⟨f, rfl⟩ : ∃ f, fuel = f + 1 := ⟨fuel - 1, by omega⟩
    have hlt : dateLt (some s) (some e) = false := by
      simp only [dateLt, decide_eq_false_iff_not]
      omega
    simp [collectDates, hlt, daysFrom]
  | succ n ih =>
    intro s acc fuel hs hmax he hlo hf
    obtain ⟨f, rfl⟩ : ∃ f, fuel = f + 1 := ⟨fuel - 1, by omega⟩
    have hms : msPerDay = 86400000 := rfl
    have hn : (0 : Int) ≤ n := Int.ofNat_nonneg n
    have hlo := hlo (by omega)
    push_cast at hmax he hlo
    have hlt : dateLt (some s) (some e) = true := by
      simp only [dateLt, decide_eq_true_eq]
      nlinarith
    have hv : validTime (s + msPerDay) := by
      unfold validTime at hs ⊢
      constructor
      · omega
      · nlinarith
    rw [collectDates, if_pos hlt]
    simp only [setDate_next_fixed, TimeClip_valid _ hv]
    rw [ih (s + msPerDay) _ f hv (by linarith) (by linarith) (fun _ => by linarith) (by omega)]
    simp [daysFrom]

/-- A list of file names is returned only when every date is valid, and then
each name is built from the date stamp of line 32. -/
theorem filenames_ok (directory : String) :
    ∀ (ds : List (Option Int)) (l : List String), filenames directory ds = .ok l →
      ∃ ts : List Int, ds = ts.map some ∧
        l = ts.map fun t =>
          directory ++ "example_vpts_" ++ stampOfISO (isoString t) ++ ".csv" := by
  intro ds
  induction ds with
  | nil =>
    intro l h
    refine ⟨[], rfl, ?_⟩
    simp only [filenames, Except.ok.injEq] at h
    simp [← h]
  | cons d ds ih =>
    intro l h
    cases d with
    | none => simp [filenames, fileName, dateStamp, toISOString] at h
    | some t =>
      simp only [filenames, fileName_valid] at h
      cases hf : filenames directory ds with
      | error e => simp [hf] at h
      | ok fs =>
        rw [hf] at h
        simp only [Except.ok.injEq] at h
        obtain ⟨ts, h1, h2⟩ := ih fs hf
        exact ⟨t :: ts, by simp [h1], by simp [← h, h2]⟩

/-- On a host with one offset all year, for valid `s ≤ e`, `fetchVpts` returns
the names of the instants `s`, `s + 24h`, ... up to the first that is not before
`e`. -/
theorem fetchVpts_fixed (c s e : Int) (n fuel : Nat) (directory : String)
    (hs : validTime s) (hse : s ≤ e) (hmax : s + n * msPerDay ≤ maxTime)
    (he : e ≤ s + n * msPerDay) (hlo : 0 < n → s + (n - 1) * msPerDay < e) (hf : n < fuel) :
    fetchVpts (TimeZone.fixed c) fuel (.time (some s)) (.time (some e)) directory =
      some (.ok ((daysFrom s (n + 1)).map fun t =>
        directory ++ "example_vpts_" ++ stampOfISO (isoString t) ++ ".csv")) := by
  have hev : validTime e := by
    unfold validTime at hs ⊢
    constructor <;> linarith [hs.1]
  have hge : dateLt (some e) (some s) = false := by
    simp only [dateLt, decide_eq_false_iff_not]
    omega
  simp only [fetchVpts, newDate, Option.some_bind, TimeClip_valid _ hs, TimeClip_valid _ hev,
    fetchVptsDates, hge]
  rw [collectDates_fixed c e n s _ fuel hs hmax he hlo hf]
  have : [some s] ++ (daysFrom (s + msPerDay) n).map some = (daysFrom s (n + 1)).map some := by
    simp [daysFrom]
  rw [this]
  simp [filenames_valid]

/-! ## `fetchVpts` -/

/-- More fuel does not change a result of `fetchVpts`. -/
theorem fetchVpts_fuel_mono (tz : TimeZone) (fuel k : Nat) (a b : DateLike)
    (directory : String) (r : Except Thrown (List String))
    (h : fetchVpts tz fuel a b directory = some r) :
    fetchVpts tz (k + fuel) a b directory = some r := by
  rw [Nat.add_comm]
  unfold fetchVpts fetchVptsDates at h ⊢
  split_ifs at h ⊢ with hlt
  · exact h
  · cases hc : collectDates tz fuel (newDate tz a) (newDate tz b) [newDate tz a] with
    | none => simp [hc] at h
    | some dates =>
      rw [collectDates_fuel_mono tz k fuel _ _ _ _ hc]
      rw [hc] at h
      exact h

/-- With the same valid date at both ends the loop does not turn, on any host:
the result is the one name of that date. -/
theorem fetchVpts_same (tz : TimeZone) (fuel : Nat) (t : Int) (directory : String)
    (ht : validTime t) :
    fetchVpts tz (fuel + 1) (.time (some t)) (.time (some t)) directory =
      some (.ok [directory ++ "example_vpts_" ++ stampOfISO (isoString t) ++ ".csv"]) := by
  have hlt : dateLt (some t) (some t) = false := by simp [dateLt]
  simp [fetchVpts, fetchVptsDates, newDate, TimeClip_valid _ ht, hlt, collectDates,
    filenames, fileName_valid]

/-- On a host with one offset all year, `fetchVpts` on two calendar dates
`s ≤ e` returns the names of `s`, `s + 1 day`, ..., `e`: one per calendar date
of the range, `daysBetween s e + 1` of them. -/
theorem fetchVpts_fixed_calendarDates (c s e : Int) (fuel : Nat) (directory : String)
    (hs : isCalendarDate s) (he : isCalendarDate e) (hse : s ≤ e)
    (hf : (daysBetween s e).toNat < fuel) :
    fetchVpts (TimeZone.fixed c) fuel (.time (some s)) (.time (some e)) directory =
      some (.ok ((daysFrom s ((daysBetween s e).toNat + 1)).map fun t =>
        directory ++ "example_vpts_" ++ stampOfISO (isoString t) ++ ".csv")) := by
  obtain ⟨hsv, hsm⟩ := hs
  obtain ⟨hev, hem⟩ := he
  have hn : ((daysBetween s e).toNat : Int) * msPerDay = e - s := by
    have h0 : 0 ≤ daysBetween s e := by
      unfold daysBetween Day msPerDay
      omega
    rw [Int.toNat_of_nonneg h0]
    unfold daysBetween Day TimeWithinDay msPerDay at *
    omega
  have hms : msPerDay = 86400000 := rfl
  refine fetchVpts_fixed c s e _ fuel directory hsv hse ?_ ?_ ?_ hf
  · rw [hn]
    have := hev.2
    omega
  · rw [hn]
    omega
  · intro _
    rw [sub_mul, hn]
    omega

/-! ## A range across a daylight-saving transition

`setDate` and `getDate` work on the local calendar while `toISOString` writes
the UTC date.  On a host whose offset from UTC grows inside the range (the start
of summer time), a local day is 23 hours long, the UTC time of day of `dateMin`
moves one hour back, and when it started at midnight two consecutive dates fall
on the same UTC day. -/

/-- On a host in Europe/Brussels, `fetchVpts("2016-03-26", "2016-03-29", "./")`
returns five names, that of 27 March twice. -/
theorem fetchVpts_brussels_march (k : Nat) :
    fetchVpts TimeZone.brussels2016 (k + 5) (.text "2016-03-26") (.text "2016-03-29") "./" =
      some (.ok ["./example_vpts_20160326.csv", "./example_vpts_20160327.csv",
        "./example_vpts_20160327.csv", "./example_vpts_20160328.csv",
        "./example_vpts_20160329.csv"]) :=
  fetchVpts_fuel_mono _ 5 k _ _ _ _ rfl

/-- On a host on UTC the same call returns the four names of the range. -/
theorem fetchVpts_utc_march (k : Nat) :
    fetchVpts TimeZone.utc (k + 4) (.text "2016-03-26") (.text "2016-03-29") "./" =
      some (.ok ["./example_vpts_20160326.csv", "./example_vpts_20160327.csv",
        "./example_vpts_20160328.csv", "./example_vpts_20160329.csv"]) :=
  fetchVpts_fuel_mono _ 4 k _ _ _ _ rfl

/-- C1, at a failing input.  On a host in Europe/Brussels the call
`fetchVpts("2016-03-26", "2016-03-29", "./")` returns a list of length 5, while
the two dates are 3 whole calendar days apart, so that the claimed length is
4. -/
theorem fetchVpts_length_across_dst :
    newDate TimeZone.brussels2016 (.text "2016-03-26") = some 1458950400000
    ∧ newDate TimeZone.brussels2016 (.text "2016-03-29") = some 1459209600000
    ∧ daysBetween 1458950400000 1459209600000 + 1 = 4
    ∧ ∀ k, ∃ l, fetchVpts TimeZone.brussels2016 (k + 5) (.text "2016-03-26")
        (.text "2016-03-29") "./" = some (.ok l) ∧ l.length = 5 :=
  ⟨rfl, rfl, by decide, fun k => ⟨_, fetchVpts_brussels_march k, rfl⟩⟩

/-- C2, at a failing input.  On a host in Europe/Brussels the entry of index 2
of `fetchVpts("2016-03-26", "2016-03-29", "./")` names 27 March 2016, while the
start plus 2 days is 28 March 2016; the list names 27 March twice instead of
each date of the range once. -/
theorem fetchVpts_entry_across_dst :
    conventionName "./" (1458950400000 + 2 * msPerDay) = "./example_vpts_20160328.csv"
    ∧ ∀ k, ∃ l, fetchVpts TimeZone.brussels2016 (k + 5) (.time (some 1458950400000))
        (.time (some 1459209600000)) "./" = some (.ok l)
      ∧ l[2]? = some "./example_vpts_20160327.csv"
      ∧ l.count "./example_vpts_20160327.csv" = 2 :=
  ⟨by decide, fun k => ⟨_, fetchVpts_fuel_mono _ 5 k _ _ _ _ rfl, rfl, by decide⟩⟩

/-- C3, at a failing input.  On a host in Europe/Brussels the date stamps of
`fetchVpts("2016-03-26", "2016-03-29", "./")` are 20160326, 20160327, 20160327,
20160328, 20160329: the stamp 20160327 occurs twice, so the stamps are not
strictly ascending and a file name is repeated. -/
theorem fetchVpts_stamps_across_dst :
    ∀ k, ∃ l, fetchVpts TimeZone.brussels2016 (k + 5) (.text "2016-03-26")
        (.text "2016-03-29") "./" = some (.ok l)
      ∧ l.map (stampOfName "./") = ["20160326", "20160327", "20160327", "20160328", "20160329"]
      ∧ ¬ (l.map fun n => (stampOfName "./" n).data).Pairwise (· < ·)
      ∧ ¬ l.Nodup :=
  fun k => ⟨_, fetchVpts_brussels_march k, by decide, by decide, by decide⟩

/-! ## The range check -/

/-- C5.  When the start is strictly after the end, `fetchVpts` throws the
string of line 16, the invalid-range error, on every host and before the loop
runs (whatever the fuel): no list is returned. -/
theorem fetchVpts_invalid_range (tz : TimeZone) (fuel : Nat) (s e : Int)
    (directory : String) (hs : validTime s) (he : validTime e) (h : e < s) :
    fetchVpts tz fuel (.time (some s)) (.time (some e)) directory =
      some (.error (.message "dateMin need to be before dateMax")) := by
  have hlt : dateLt (some e) (some s) = true := by simp [dateLt, h]
  simp [fetchVpts, fetchVptsDates, newDate, TimeClip_valid _ hs, TimeClip_valid _ he, hlt]

/-- C5 at the dates 2016-09-03 and 2016-09-01, in this order. -/
theorem fetchVpts_invalid_range_witness :
    validTime 1472860800000 ∧ validTime 1472688000000
    ∧ (1472688000000 : Int) < 1472860800000
    ∧ fetchVpts TimeZone.utc 0 (.time (some 1472860800000)) (.time (some 1472688000000))
        "../public/data/" = some (.error (.message "dateMin need to be before dateMax")) :=
  ⟨by decide, by decide, by decide,
    fetchVpts_invalid_range TimeZone.utc 0 1472860800000 1472688000000 "../public/data/"
      (by decide) (by decide) (by decide)⟩

/-! ## The time of day of the end -/

/-- C6, at a failing input.  On a host on UTC, the ends `2016-09-03T12:00:00Z`
and `2016-09-03` fall on the same UTC calendar date, yet from `2016-09-01` the
first gives four names, the last one stamped 20160904, a day after the end, and
the second gives three. -/
theorem fetchVpts_time_of_day :
    newDate TimeZone.utc (.text "2016-09-03T12:00:00Z") = some 1472904000000
    ∧ newDate TimeZone.utc (.text "2016-09-03") = some 1472860800000
    ∧ Day 1472904000000 = Day 1472860800000
    ∧ ∀ k,
      fetchVpts TimeZone.utc (k + 4) (.text "2016-09-01") (.text "2016-09-03T12:00:00Z") "./" =
        some (.ok ["./example_vpts_20160901.csv", "./example_vpts_20160902.csv",
          "./example_vpts_20160903.csv", "./example_vpts_20160904.csv"])
      ∧ fetchVpts TimeZone.utc (k + 4) (.text "2016-09-01") (.text "2016-09-03") "./" =
        some (.ok ["./example_vpts_20160901.csv", "./example_vpts_20160902.csv",
          "./example_vpts_20160903.csv"]) :=
  ⟨rfl, rfl, by decide, fun k =>
    ⟨fetchVpts_fuel_mono _ 4 k _ _ _ _ rfl, fetchVpts_fuel_mono _ 4 k _ _ _ _ rfl⟩⟩

/-! ## The host's time zone -/

/-- C7, at a failing input.  The calendar dates 2016-03-26 and 2016-03-29, given
at midnight UTC, yield four names on a host on UTC and five on a host in
Europe/Brussels; 2016-03-12 and 2016-03-15 yield four names on UTC and five on a
host in America/New_York.  The result depends on the host's time zone. -/
theorem fetchVpts_host_zone :
    isCalendarDate 1458950400000 ∧ isCalendarDate 1459209600000
    ∧ isCalendarDate 1457740800000 ∧ isCalendarDate 1458000000000
    ∧ ∀ k,
      fetchVpts TimeZone.utc (k + 5) (.time (some 1458950400000))
          (.time (some 1459209600000)) "./" =
        some (.ok ["./example_vpts_20160326.csv", "./example_vpts_20160327.csv",
          "./example_vpts_20160328.csv", "./example_vpts_20160329.csv"])
      ∧ fetchVpts TimeZone.brussels2016 (k + 5) (.time (some 1458950400000))
          (.time (some 1459209600000)) "./" =
        some (.ok ["./example_vpts_20160326.csv", "./example_vpts_20160327.csv",
          "./example_vpts_20160327.csv", "./example_vpts_20160328.csv",
          "./example_vpts_20160329.csv"])
      ∧ fetchVpts TimeZone.utc (k + 5) (.time (some 1457740800000))
          (.time (some 1458000000000)) "./" =
        some (.ok ["./example_vpts_20160312.csv", "./example_vpts_20160313.csv",
          "./example_vpts_20160314.csv", "./example_vpts_20160315.csv"])
      ∧ fetchVpts TimeZone.newYork2016 (k + 5) (.time (some 1457740800000))
          (.time (some 1458000000000)) "./" =
        some (.ok ["./example_vpts_20160312.csv", "./example_vpts_20160313.csv",
          "./example_vpts_20160313.csv", "./example_vpts_20160314.csv",
          "./example_vpts_20160315.csv"]) :=
  ⟨by decide, by decide, by decide, by decide, fun k =>
    ⟨fetchVpts_fuel_mono _ 5 k _ _ _ _ rfl, fetchVpts_fuel_mono _ 5 k _ _ _ _ rfl,
      fetchVpts_fuel_mono _ 5 k _ _ _ _ rfl, fetchVpts_fuel_mono _ 5 k _ _ _ _ rfl⟩⟩

/-! ## The example call of line 38 -/

/-- A turn of the loop adds 24 hours when the host's offset is `c` both at the
instant `t` and at the wall-clock time one day later. -/
theorem setDate_next_of_offset (tz : TimeZone) (c t : Int) (h1 : tz.offsetUTC t = c)
    (h2 : tz.offsetLocal (t + c + msPerDay) = c) (hv : validTime (t + msPerDay)) :
    setDate tz (some t) ((getDate tz (some t)).map (· + 1)) = some (t + msPerDay) := by
  rw [setDate_next, ← TimeClip_valid _ hv]
  congr 1
  simp only [UTC, LocalTime, h1, h2]
  omega

/-- C10.  The call `fetchVpts("2016-09-01", "2016-09-03", "../public/data/")` of
line 38 returns the three names of 1, 2 and 3 September 2016, in this order, on
every host whose offset from UTC is the same, `c`, from 2016-09-01T00:00Z to
2016-09-03T00:00Z, as instants and as wall-clock times (no transition of the
zone inside the range), whenever the loop is given at least 3 turns. -/
theorem fetchVpts_example (tz : TimeZone) (c : Int) (k : Nat)
    (hu : ∀ t, 1472688000000 ≤ t → t ≤ 1472860800000 → tz.offsetUTC t = c)
    (hl : ∀ t, 1472688000000 + c ≤ t → t ≤ 1472860800000 + c → tz.offsetLocal t = c) :
    fetchVpts tz (k + 3) (.text "2016-09-01") (.text "2016-09-03") "../public/data/" =
      some (.ok ["../public/data/example_vpts_20160901.csv",
        "../public/data/example_vpts_20160902.csv",
        "../public/data/example_vpts_20160903.csv"]) := by
  refine fetchVpts_fuel_mono tz 3 k _ _ _ _ ?_
  have h1 := setDate_next_of_offset tz c 1472688000000 (hu _ (by decide) (by decide))
    (hl _ (by unfold msPerDay; omega) (by unfold msPerDay; omega)) (by decide)
  have h2 := setDate_next_of_offset tz c 1472774400000 (hu _ (by decide) (by decide))
    (hl _ (by unfold msPerDay; omega) (by unfold msPerDay; omega)) (by decide)
  have e1 : (1472688000000 : Int) + msPerDay = 1472774400000 := by decide
  have e2 : (1472774400000 : Int) + msPerDay = 1472860800000 := by decide
  rw [e1] at h1
  rw [e2] at h2
  have ha : newDate tz (.text "2016-09-01") = some 1472688000000 := rfl
  have hb : newDate tz (.text "2016-09-03") = some 1472860800000 := rfl
  have hc : collectDates tz 3 (some 1472688000000) (some 1472860800000)
      [some 1472688000000] =
      some [some 1472688000000, some 1472774400000, some 1472860800000] := by
    rw [collectDates, if_pos (by decide), h1, collectDates, if_pos (by decide), h2,
      collectDates, if_neg (by decide)]
    rfl
  have hlt : dateLt (some 1472860800000) (some 1472688000000) = false := by decide
  rw [fetchVpts, fetchVptsDates, ha, hb, hc, hlt]
  rfl

/-- C10 on a host in Europe/Brussels, two hours east of UTC in September
2016. -/
theorem fetchVpts_example_witness :
    (∀ t : Int, 1472688000000 ≤ t → t ≤ 1472860800000 →
      TimeZone.brussels2016.offsetUTC t = 7200000)
    ∧ (∀ t : Int, 1472688000000 + 7200000 ≤ t → t ≤ 1472860800000 + 7200000 →
      TimeZone.brussels2016.offsetLocal t = 7200000)
    ∧ fetchVpts TimeZone.brussels2016 3 (.text "2016-09-01") (.text "2016-09-03")
        "../public/data/" =
      some (.ok ["../public/data/example_vpts_20160901.csv",
        "../public/data/example_vpts_20160902.csv",
        "../public/data/example_vpts_20160903.csv"]) := by
  have hu : ∀ t : Int, 1472688000000 ≤ t → t ≤ 1472860800000 →
      TimeZone.brussels2016.offsetUTC t = 7200000 := by
    intro t h1 h2
    simp only [TimeZone.brussels2016]
    rw [if_neg (by omega), if_pos (by omega)]
  have hl : ∀ t : Int, 1472688000000 + 7200000 ≤ t → t ≤ 1472860800000 + 7200000 →
      TimeZone.brussels2016.offsetLocal t = 7200000 := by
    intro t h1 h2
    simp only [TimeZone.brussels2016]
    rw [if_neg (by omega), if_pos (by omega)]
  exact ⟨hu, hl, fetchVpts_example TimeZone.brussels2016 7200000 0 hu hl⟩

/-! ## The naming convention -/

/-- Stripping the directory, `example_vpts_` and `.csv` from a name built as in
line 33 leaves the stamp. -/
theorem stampOfName_spec (directory stamp : String) :
    stampOfName directory (directory ++ "example_vpts_" ++ stamp ++ ".csv") = stamp := by
  have h13 : "example_vpts_".data.length = 13 := rfl
  have hd : (directory ++ "example_vpts_" ++ stamp ++ ".csv").data =
      (directory.data ++ "example_vpts_".data) ++ (stamp.data ++ ['.', 'c', 's', 'v']) := by
    rw [String.data_append, String.data_append, String.data_append, List.append_assoc]
  have hl : directory.length + 13 = (directory.data ++ "example_vpts_".data).length := by
    rw [List.length_append, h13]
    rfl
  rw [stampOfName, hd, hl, List.drop_left]
  simp [List.dropLast_append_cons]

/-- A name built as in line 33 is as long as its four parts together. -/
theorem name_length (directory stamp : String) :
    (directory ++ "example_vpts_" ++ stamp ++ ".csv").length =
      directory.length + 13 + stamp.length + 4 := by
  simp only [String.length_append]
  rfl

/-- Reading the `YYYYMMDD` of a date with a year of four digits gives the
midnight of its UTC day. -/
theorem parseYYYYMMDD_YYYYMMDD (t : Int) (h0 : 0 ≤ YearFromTime t)
    (h1 : YearFromTime t ≤ 9999) :
    parseYYYYMMDD (YYYYMMDD t) = some (MakeDate (Day t) 0) := by
  obtain ⟨-, hm0, hm1, hd0, hd1, -⟩ := month_date_spec t
  have e4 : ((padDigits 4 (YearFromTime t).toNat
      ++ padDigits 2 (MonthFromTime t + 1).toNat
      ++ padDigits 2 (DateFromTime t).toNat).take 4) = padDigits 4 (YearFromTime t).toNat := by
    rw [List.append_assoc, List.take_left' (padDigits_length _ _)]
  have e2 : (((padDigits 4 (YearFromTime t).toNat
      ++ padDigits 2 (MonthFromTime t + 1).toNat
      ++ padDigits 2 (DateFromTime t).toNat).drop 4).take 2)
        = padDigits 2 (MonthFromTime t + 1).toNat := by
    rw [List.append_assoc, List.drop_left' (padDigits_length _ _),
      List.take_left' (padDigits_length _ _)]
  have e6 : ((padDigits 4 (YearFromTime t).toNat
      ++ padDigits 2 (MonthFromTime t + 1).toNat
      ++ padDigits 2 (DateFromTime t).toNat).drop 6) = padDigits 2 (DateFromTime t).toNat := by
    rw [List.drop_left' (by simp [padDigits_length])]
  have hy : ((YearFromTime t).toNat : Int) = YearFromTime t := Int.toNat_of_nonneg h0
  have hm : ((MonthFromTime t + 1).toNat : Int) = MonthFromTime t + 1 :=
    Int.toNat_of_nonneg (by omega)
  have hd : ((DateFromTime t).toNat : Int) = DateFromTime t := Int.toNat_of_nonneg (by omega)
  have hday := MakeDay_of_time t 0
  have hnext := Day_lt_next_month t
  simp only [add_zero] at hday
  simp only [parseYYYYMMDD, YYYYMMDD, e4, e2, e6]
  rw [fixedDigits_padDigits 4 _ (by omega), fixedDigits_padDigits 2 _ (by omega),
    fixedDigits_padDigits 2 _ (by omega)]
  simp only [Option.some_bind, dayOfCalendarDate, hy, hm, hd, add_sub_cancel_right, hday]
  rw [if_pos ⟨by omega, by omega, by omega, by omega⟩]
  rfl

theorem MakeDate_Day_of_midnight (t : Int) (h : TimeWithinDay t = 0) :
    MakeDate (Day t) 0 = t := by
  unfold MakeDate Day TimeWithinDay msPerDay at *
  omega

/-- C4 as stated fails for a year of more than four digits.  On a host on UTC,
`fetchVpts("+010000-01-01", "+010000-01-01", "./")` returns the one name
`./example_vpts_0100000101.csv`, whose stamp has ten digits: it is not the
directory, `example_vpts_`, a stamp of eight characters and `.csv`. -/
theorem fetchVpts_stamp_year_10000 :
    fetchVpts TimeZone.utc 1 (.text "+010000-01-01") (.text "+010000-01-01") "./" =
      some (.ok ["./example_vpts_0100000101.csv"])
    ∧ ¬ ∃ stamp : String, stamp.length = 8
        ∧ "./example_vpts_0100000101.csv" = "./" ++ "example_vpts_" ++ stamp ++ ".csv" := by
  refine ⟨rfl, ?_⟩
  rintro ⟨stamp, hl, h⟩
  have hlen := congrArg String.length h
  rw [name_length, hl] at hlen
  revert hlen
  decide

/-- C4, amended.  Whenever `fetchVpts` returns a list, on any host and for any
arguments, the list has one entry per date that the loop collected, in order,
and each entry is exactly the directory, prepended verbatim, then
`example_vpts_`, the date stamp and `.csv`; for every entry whose date has a UTC
year from 0 to 9999 the stamp is `YYYYMMDD`, exactly 8 ASCII digits: the year in
4 digits, the month in 2 and the day in 2, zero-padded, of the UTC date. -/
theorem fetchVpts_names_convention (tz : TimeZone) (fuel : Nat) (a b : DateLike)
    (directory : String) (l : List String)
    (h : fetchVpts tz fuel a b directory = some (.ok l)) :
    ∃ ts : List Int,
      collectDates tz fuel (newDate tz a) (newDate tz b) [newDate tz a] = some (ts.map some)
      ∧ l = ts.map (fun t =>
          directory ++ "example_vpts_" ++ stampOfISO (isoString t) ++ ".csv")
      ∧ ∀ t ∈ ts, 0 ≤ YearFromTime t → YearFromTime t ≤ 9999 →
          stampOfISO (isoString t) = YYYYMMDD t
          ∧ (YYYYMMDD t).length = 8
          ∧ ∀ c ∈ (YYYYMMDD t).data, c.isDigit = true := by
  unfold fetchVpts fetchVptsDates at h
  split_ifs at h with hlt
  · simp at h
  · cases hc : collectDates tz fuel (newDate tz a) (newDate tz b) [newDate tz a] with
    | none => simp [hc] at h
    | some dates =>
      rw [hc] at h
      simp only [Option.some.injEq] at h
      obtain ⟨ts, h1, h2⟩ := filenames_ok directory dates l h
      exact ⟨ts, by rw [h1], h2, fun t _ h0 h9 =>
        ⟨stampOfISO_eq_YYYYMMDD t h0 h9, YYYYMMDD_length t, YYYYMMDD_digits t⟩⟩

/-- C4, amended, at the call of line 38 on a host on UTC. -/
theorem fetchVpts_names_convention_witness :
    fetchVpts TimeZone.utc 3 (.text "2016-09-01") (.text "2016-09-03") "../public/data/" =
      some (.ok ["../public/data/example_vpts_20160901.csv",
        "../public/data/example_vpts_20160902.csv",
        "../public/data/example_vpts_20160903.csv"])
    ∧ ∃ ts : List Int,
      collectDates TimeZone.utc 3 (newDate TimeZone.utc (.text "2016-09-01"))
        (newDate TimeZone.utc (.text "2016-09-03"))
        [newDate TimeZone.utc (.text "2016-09-01")] = some (ts.map some)
      ∧ ["../public/data/example_vpts_20160901.csv",
          "../public/data/example_vpts_20160902.csv",
          "../public/data/example_vpts_20160903.csv"] = ts.map (fun t =>
          "../public/data/" ++ "example_vpts_" ++ stampOfISO (isoString t) ++ ".csv")
      ∧ ∀ t ∈ ts, 0 ≤ YearFromTime t → YearFromTime t ≤ 9999 →
          stampOfISO (isoString t) = YYYYMMDD t
          ∧ (YYYYMMDD t).length = 8
          ∧ ∀ c ∈ (YYYYMMDD t).data, c.isDigit = true :=
  ⟨rfl, fetchVpts_names_convention TimeZone.utc 3 (.text "2016-09-01") (.text "2016-09-03")
    "../public/data/" _ rfl⟩

/-! ## A single date -/

/-- C9 as stated fails for a year before 0.  On a host on UTC, for the date
-0001-12-31 at both ends and the directory `./`, `fetchVpts` returns the one
name `./example_vpts_0000011231.csv`, which is not the directory,
`example_vpts_`, a stamp of eight characters and `.csv`. -/
theorem fetchVpts_same_date_negative_year :
    validTime (-62167305600000)
    ∧ YearFromTime (-62167305600000) = -1
    ∧ fetchVpts TimeZone.utc 1 (.time (some (-62167305600000)))
        (.time (some (-62167305600000))) "./" = some (.ok ["./example_vpts_0000011231.csv"])
    ∧ fetchVpts TimeZone.utc 1 (.time (some (-62167305600000)))
        (.time (some (-62167305600000))) "./"
        ≠ some (.ok ["./" ++ "example_vpts_" ++ YYYYMMDD (-62167305600000) ++ ".csv"])
    ∧ ¬ ∃ stamp : String, stamp.length = 8
        ∧ "./example_vpts_0000011231.csv" = "./" ++ "example_vpts_" ++ stamp ++ ".csv" := by
  refine ⟨by decide, by decide, rfl, by decide, ?_⟩
  rintro ⟨stamp, hl, h⟩
  have hlen := congrArg String.length h
  rw [name_length, hl] at hlen
  revert hlen
  decide

/-- C9, amended.  For every date `start` whose UTC year is from 0 to 9999 and
every directory, on any host, `fetchVpts(start, start, directory)` returns a
list of exactly one element, the directory followed by `example_vpts_`, the
`YYYYMMDD` of `start` and `.csv`. -/
theorem fetchVpts_same_date (tz : TimeZone) (fuel : Nat) (start : Int) (directory : String)
    (hs : validTime start) (h0 : 0 ≤ YearFromTime start) (h1 : YearFromTime start ≤ 9999) :
    fetchVpts tz (fuel + 1) (.time (some start)) (.time (some start)) directory =
      some (.ok [directory ++ "example_vpts_" ++ YYYYMMDD start ++ ".csv"]) := by
  rw [fetchVpts_same tz fuel start directory hs, stampOfISO_eq_YYYYMMDD start h0 h1]

/-- C9, amended, at 2016-09-01 on a host in Europe/Brussels. -/
theorem fetchVpts_same_date_witness :
    validTime 1472688000000 ∧ 0 ≤ YearFromTime 1472688000000
    ∧ YearFromTime 1472688000000 ≤ 9999
    ∧ YYYYMMDD 1472688000000 = "20160901"
    ∧ fetchVpts TimeZone.brussels2016 1 (.time (some 1472688000000))
        (.time (some 1472688000000)) "../public/data/" =
      some (.ok ["../public/data/" ++ "example_vpts_" ++ YYYYMMDD 1472688000000 ++ ".csv"]) :=
  ⟨by decide, by decide, by decide, by decide,
    fetchVpts_same_date TimeZone.brussels2016 0 1472688000000 "../public/data/"
      (by decide) (by decide) (by decide)⟩

/-! ## Reading the stamp back -/

/-- C8 as stated fails for a year of more than four digits.  For the calendar
date 12345-06-07 and the directory `./`, on a host on UTC, the one entry of
`fetchVpts(d, d, "./")` is `./example_vpts_0123450607.csv`; its stamp
`0123450607` is not a `YYYYMMDD` and reading it does not give the date back. -/
theorem stamp_roundtrip_year_12345 :
    isCalendarDate 327416947200000
    ∧ fetchVpts TimeZone.utc 1 (.time (some 327416947200000))
        (.time (some 327416947200000)) "./" = some (.ok ["./example_vpts_0123450607.csv"])
    ∧ stampOfName "./" "./example_vpts_0123450607.csv" = "0123450607"
    ∧ parseYYYYMMDD (stampOfName "./" "./example_vpts_0123450607.csv")
        ≠ some 327416947200000 :=
  ⟨by decide, rfl, by decide, by decide⟩

/-- C8, amended.  For every calendar date `d` whose year is from 0 to 9999 and
every directory, on any host, `fetchVpts(d, d, directory)` returns a single
entry, and stripping the directory, `example_vpts_` and `.csv` from it and
reading the remaining stamp as `YYYYMMDD` gives `d` back. -/
theorem stamp_roundtrip (tz : TimeZone) (fuel : Nat) (d : Int) (directory : String)
    (hd : isCalendarDate d) (h0 : 0 ≤ YearFromTime d) (h1 : YearFromTime d ≤ 9999) :
    ∃ name, fetchVpts tz (fuel + 1) (.time (some d)) (.time (some d)) directory =
        some (.ok [name])
      ∧ parseYYYYMMDD (stampOfName directory name) = some d := by
  refine ⟨_, fetchVpts_same tz fuel d directory hd.1, ?_⟩
  rw [stampOfName_spec, stampOfISO_eq_YYYYMMDD d h0 h1, parseYYYYMMDD_YYYYMMDD d h0 h1,
    MakeDate_Day_of_midnight d hd.2]

/-- C8, amended, at 2016-02-29 on a host in America/New_York. -/
theorem stamp_roundtrip_witness :
    isCalendarDate 1456704000000 ∧ 0 ≤ YearFromTime 1456704000000
    ∧ YearFromTime 1456704000000 ≤ 9999
    ∧ ∃ name, fetchVpts TimeZone.newYork2016 1 (.time (some 1456704000000))
        (.time (some 1456704000000)) "./" = some (.ok [name])
      ∧ parseYYYYMMDD (stampOfName "./" name) = some 1456704000000 :=
  ⟨by decide, by decide, by decide,
    stamp_roundtrip TimeZone.newYork2016 0 1456704000000 "./" (by decide) (by decide)
      (by decide)⟩

/-! ## The rows of `readVpts` -/

/-- C13.  For every row and on every host, the field `sd_vvp` of the record is
the row's raw `sd_vvp` text, unchanged and uncoerced (`"1.1"` and `"NaN"` stay
these texts), and it is the same whatever the other columns hold. -/
theorem readVptsRow_sd_vvp (tz : TimeZone) (d : Row) :
    (readVptsRow tz d).sd_vvp = d.sd_vvp
    ∧ (∀ (tz' : TimeZone) (datetime height dd ff dens : Option String),
        (readVptsRow tz' ⟨datetime, height, dd, ff, dens, d.sd_vvp⟩).sd_vvp =
          (readVptsRow tz d).sd_vvp)
    ∧ (readVptsRow tz { d with sd_vvp := some "1.1" }).sd_vvp = some "1.1"
    ∧ (readVptsRow tz { d with sd_vvp := some "NaN" }).sd_vvp = some "NaN" :=
  ⟨rfl, fun _ _ _ _ _ _ => rfl, rfl, rfl⟩

/-- The text `undefined`, which a missing `datetime` column is turned into, is
no date on any host. -/
theorem DateParse_undefined (tz : TimeZone) : DateParse tz "undefined" = none := by
  rfl

/-- C14.  The row callback is total, on every host and for every row, whichever
columns the row lacks: a missing `datetime` and a missing numeric column give
NaN, a missing `sd_vvp` gives `undefined`, and a column that is present is
coerced as usual, by `Date.parse` or by the unary `+`. -/
theorem readVptsRow_missing (tz : TimeZone) (d : Row) :
    readVptsRow tz d =
      { datetime := match d.datetime with
          | none => none
          | some s => DateParse tz s
        height := match d.height with
          | none => JSNumber.nan
          | some s => StringToNumber s
        dd := match d.dd with
          | none => JSNumber.nan
          | some s => StringToNumber s
        ff := match d.ff with
          | none => JSNumber.nan
          | some s => StringToNumber s
        dens := match d.dens with
          | none => JSNumber.nan
          | some s => StringToNumber s
        sd_vvp := d.sd_vvp } := by
  obtain ⟨datetime, height, dd, ff, dens, sd⟩ := d
  cases datetime <;> cases height <;> cases dd <;> cases ff <;> cases dens <;>
    simp [readVptsRow, ToNumber, ToString, DateParse_undefined]

/-- C15, at a failing input.  The timestamp `2016-09-01T00:05:00`, which carries
no zone designator, is read as local time: the row callback gives
1472681100000 on a host in Europe/Brussels and 1472702700000 on a host in
America/New_York, while the text read as UTC is the instant 1472688300000, which
only a host on UTC obtains. -/
theorem readVptsRow_datetime_local :
    (readVptsRow TimeZone.brussels2016
      ⟨some "2016-09-01T00:05:00", some "200", some "45.0", some "3.2", some "12.5",
        some "1.1"⟩).datetime = some 1472681100000
    ∧ (readVptsRow TimeZone.newYork2016
      ⟨some "2016-09-01T00:05:00", some "200", some "45.0", some "3.2", some "12.5",
        some "1.1"⟩).datetime = some 1472702700000
    ∧ (readVptsRow TimeZone.utc
      ⟨some "2016-09-01T00:05:00", some "200", some "45.0", some "3.2", some "12.5",
        some "1.1"⟩).datetime = some 1472688300000
    ∧ DateParse TimeZone.brussels2016 "2016-09-01T00:05:00Z" = some 1472688300000 := by
  decide

/-! ## The radars of `config.js` -/

/-- The model of `>` on strings is the order of `String`. -/
theorem stringGt_iff (a b : String) : stringGt a b = true ↔ b < a := by
  simp [stringGt, String.lt_iff_toList_lt]

/-- C19.  The `ODIMCode` values of `availableRadars` are pairwise distinct, and
`initialRadarODIMCode`, which is `behel`, is the `ODIMCode` of exactly one entry
of `availableRadars`. -/
theorem config_consistent :
    (availableRadars.map (·.ODIMCode)).Nodup
    ∧ initialRadarODIMCode = "behel"
    ∧ (availableRadars.filter fun r => r.ODIMCode = initialRadarODIMCode).length = 1
    ∧ (availableRadars.map (·.ODIMCode)).count initialRadarODIMCode = 1 := by
  decide

theorem availableRadars_perm : availableRadars.Perm radarsLiteral :=
  List.perm_insertionSort _ _

/-- The sorted array does not depend on the sorting algorithm: any arrangement
of the seven entries in which no entry is followed by one that the comparator
puts before it is `availableRadars`. -/
theorem availableRadars_sorted_unique (l : List Radar) (hp : l.Perm radarsLiteral)
    (hc : l.Chain' fun a b => compareLocation a b ≤ 0) : l = availableRadars := by
  have inj : ∀ a ∈ radarsLiteral, ∀ b ∈ radarsLiteral, a.location = b.location → a = b := by
    decide
  have hle : l.Chain' fun a b => a.location.data ≤ b.location.data := by
    refine hc.imp fun a b h => ?_
    unfold compareLocation stringGt at h
    by_cases hlt : b.location.data < a.location.data
    · simp [hlt] at h
    · exact not_lt.mp hlt
  haveI : IsTrans Radar (fun a b => a.location.data ≤ b.location.data) :=
    ⟨fun _ _ _ h1 h2 => le_trans h1 h2⟩
  have hpw : l.Pairwise fun a b => a.location.data ≤ b.location.data :=
    List.chain'_iff_pairwise.mp hle
  have hs : l.Sorted fun a b => a.location.data < b.location.data ∨ a = b := by
    refine hpw.imp_of_mem fun {a b} ha hb h => ?_
    rcases lt_or_eq_of_le h with h | h
    · exact Or.inl h
    · exact Or.inr (inj a (hp.subset ha) b (hp.subset hb) (String.ext h))
  have hs' : availableRadars.Sorted fun a b => a.location.data < b.location.data ∨ a = b := by
    unfold List.Sorted
    decide
  haveI : IsAntisymm Radar (fun a b => a.location.data < b.location.data ∨ a = b) :=
    ⟨fun a b h1 h2 => by
      rcases h1 with h1 | h1
      · rcases h2 with h2 | h2
        · exact absurd h2 (lt_asymm h1)
        · exact h2.symm
      · exact h1⟩
  exact List.eq_of_perm_of_sorted (hp.trans availableRadars_perm.symm) hs hs'

/-- C16.  The exported `availableRadars` is the array of the seven literal
entries sorted by location: it is a permutation of them, its locations are
Behel?, Essen, Herwijnen, Jabbeke, Neuheilenbach, Wideumont, Zaventem, each
less than the next, although the comparator never returns 0. -/
theorem availableRadars_sorted :
    availableRadars.Perm radarsLiteral
    ∧ availableRadars.length = 7
    ∧ availableRadars.map (·.location) =
        ["Behel?", "Essen", "Herwijnen", "Jabbeke", "Neuheilenbach", "Wideumont", "Zaventem"]
    ∧ (availableRadars.map (·.location)).Chain' (· < ·)
    ∧ (availableRadars.map (·.ODIMCode)) =
        ["behel", "deess", "nlhrw", "bejab", "denhb", "bewid", "bezav"]
    ∧ ∀ a b, compareLocation a b ≠ 0 := by
  refine ⟨List.perm_insertionSort _ _, by decide, by decide, ?_, by decide, ?_⟩
  · have h : availableRadars.map (·.location) =
        ["Behel?", "Essen", "Herwijnen", "Jabbeke", "Neuheilenbach", "Wideumont",
          "Zaventem"] := by decide
    rw [h]
    simp only [List.chain'_cons, List.chain'_singleton, String.lt_iff_toList_lt, and_true]
    decide
  · intro a b
    unfold compareLocation
    split_ifs <;> decide

/-! ## An invalid date -/

/-- C18 as stated fails for a year of more than four digits.  On a host on UTC,
`fetchVpts("+010000-01-01", "2016-13-01", "./")`, whose end is an Invalid Date,
returns the one name `./example_vpts_0100000101.csv`, which is not the
directory, `example_vpts_`, a stamp of eight characters and `.csv`. -/
theorem fetchVpts_invalid_end_year_10000 :
    newDate TimeZone.utc (.text "2016-13-01") = none
    ∧ newDate TimeZone.utc (.text "+010000-01-01") = some 253402300800000
    ∧ fetchVpts TimeZone.utc 1 (.text "+010000-01-01") (.text "2016-13-01") "./" =
      some (.ok ["./example_vpts_0100000101.csv"])
    ∧ ¬ ∃ stamp : String, stamp.length = 8
        ∧ "./example_vpts_0100000101.csv" = "./" ++ "example_vpts_" ++ stamp ++ ".csv" := by
  refine ⟨rfl, rfl, rfl, ?_⟩
  rintro ⟨stamp, hl, h⟩
  have hlen := congrArg String.length h
  rw [name_length, hl] at hlen
  revert hlen
  decide

/-- C18, amended.  On every host, when the start is a valid date whose UTC year
is from 0 to 9999 and the end is an Invalid Date, both `dateMin > dateMax` and
`dateMin < dateMax` are false, and `fetchVpts` throws nothing and returns
exactly the one name of the start, the directory followed by `example_vpts_`,
`YYYYMMDD` of the start and `.csv`; and with the Invalid Date as its start,
whatever the end, `fetchVpts` throws the RangeError of `toISOString`, not the
invalid-range error of line 16. -/
theorem fetchVpts_invalid_date (tz : TimeZone) (fuel : Nat) (a b : DateLike) (start : Int)
    (directory : String) (ha : newDate tz a = some start) (hb : newDate tz b = none)
    (h0 : 0 ≤ YearFromTime start) (h1 : YearFromTime start ≤ 9999) :
    dateLt (newDate tz b) (newDate tz a) = false
    ∧ dateLt (newDate tz a) (newDate tz b) = false
    ∧ fetchVpts tz (fuel + 1) a b directory =
        some (.ok [directory ++ "example_vpts_" ++ YYYYMMDD start ++ ".csv"])
    ∧ ∀ stop : DateLike, fetchVpts tz (fuel + 1) b stop directory =
        some (.error .rangeError) := by
  refine ⟨by rw [ha, hb]; rfl, by rw [ha, hb]; rfl, ?_, fun stop => ?_⟩
  · have hlt1 : dateLt none (some start) = false := rfl
    have hlt2 : dateLt (some start) none = false := rfl
    simp [fetchVpts, fetchVptsDates, ha, hb, hlt1, hlt2, collectDates, filenames,
      fileName_valid, stampOfISO_eq_YYYYMMDD start h0 h1]
  · have hlt1 : dateLt (newDate tz stop) none = false := by
      cases newDate tz stop <;> rfl
    have hlt2 : dateLt none (newDate tz stop) = false := rfl
    simp [fetchVpts, fetchVptsDates, hb, hlt1, hlt2, collectDates, filenames, fileName,
      dateStamp, toISOString]

/-- C18, amended, at the start 2016-09-01 and the end `2016-13-01`, which has
no thirteenth month, on a host in Europe/Brussels. -/
theorem fetchVpts_invalid_date_witness :
    newDate TimeZone.brussels2016 (.text "2016-09-01") = some 1472688000000
    ∧ newDate TimeZone.brussels2016 (.text "2016-13-01") = none
    ∧ 0 ≤ YearFromTime 1472688000000 ∧ YearFromTime 1472688000000 ≤ 9999
    ∧ dateLt (newDate TimeZone.brussels2016 (.text "2016-13-01"))
        (newDate TimeZone.brussels2016 (.text "2016-09-01")) = false
    ∧ dateLt (newDate TimeZone.brussels2016 (.text "2016-09-01"))
        (newDate TimeZone.brussels2016 (.text "2016-13-01")) = false
    ∧ fetchVpts TimeZone.brussels2016 1 (.text "2016-09-01") (.text "2016-13-01")
        "../public/data/" =
        some (.ok ["../public/data/" ++ "example_vpts_" ++ YYYYMMDD 1472688000000 ++ ".csv"])
    ∧ ∀ stop : DateLike, fetchVpts TimeZone.brussels2016 1 (.text "2016-13-01") stop
        "../public/data/" = some (.error .rangeError) :=
  ⟨rfl, rfl, by decide, by decide,
    fetchVpts_invalid_date TimeZone.brussels2016 0 (.text "2016-09-01") (.text "2016-13-01")
      1472688000000 "../public/data/" rfl rfl (by decide) (by decide)⟩

/-! ## Termination of the loop -/

/-- A zone whose offsets stay within 24 hours of each other, from `lo` on, and
whose wall-clock times are read with an offset that is not above the one in
force at the instant they give, is regular. -/
theorem regular_of_window (tz : TimeZone) (lo : Int)
    (hw : ∀ t, lo ≤ tz.offsetUTC t ∧ tz.offsetUTC t < lo + msPerDay)
    (h : ∀ x, tz.offsetLocal x ≤ tz.offsetUTC (x - tz.offsetLocal x)) : tz.Regular := by
  refine ⟨-lo, fun t => ?_⟩
  have hmod : ∀ v, tz.offsetInDay (-lo) v = tz.offsetUTC v - lo := by
    intro v
    unfold TimeZone.offsetInDay
    have := hw v
    rw [Int.emod_eq_of_lt (by omega) (by omega)]
    omega
  rw [hmod, hmod]
  have := h (LocalTime tz t + msPerDay)
  unfold UTC LocalTime at *
  omega

theorem regular_fixed (c : Int) : (TimeZone.fixed c).Regular := by
  refine regular_of_window _ c (fun t => ?_) (fun x => le_refl _)
  simp only [TimeZone.fixed, msPerDay]
  omega

theorem regular_brussels2016 : TimeZone.brussels2016.Regular := by
  refine regular_of_window _ 3600000 (fun t => ?_) (fun x => ?_)
  · simp only [TimeZone.brussels2016, msPerDay]
    split_ifs <;> omega
  · simp only [TimeZone.brussels2016]
    split_ifs <;> omega

theorem regular_newYork2016 : TimeZone.newYork2016.Regular := by
  refine regular_of_window _ (-18000000) (fun t => ?_) (fun x => ?_)
  · simp only [TimeZone.newYork2016, msPerDay]
    split_ifs <;> omega
  · simp only [TimeZone.newYork2016]
    split_ifs <;> omega

/-- Pacific/Apia is regular across its move over the date line at the end of
2011, although its offsets are 25 hours apart. -/
theorem regular_apia2011 : TimeZone.apia2011.Regular := by
  refine ⟨39600000, fun t => ?_⟩
  simp only [TimeZone.offsetInDay, UTC, LocalTime, TimeZone.apia2011, msPerDay]
  split_ifs <;> omega

/-- America/Anchorage is regular across the move of Alaska over the date line in
1867. -/
theorem regular_anchorage1867 : TimeZone.anchorage1867.Regular := by
  refine ⟨0, fun t => ?_⟩
  simp only [TimeZone.offsetInDay, UTC, LocalTime, TimeZone.anchorage1867, msPerDay]
  split_ifs <;> omega

/-- Asia/Manila is regular across the move of the Philippines over the date line
at the end of 1844. -/
theorem regular_manila1844 : TimeZone.manila1844.Regular := by
  refine ⟨0, fun t => ?_⟩
  simp only [TimeZone.offsetInDay, UTC, LocalTime, TimeZone.manila1844, msPerDay]
  split_ifs <;> omega

/-- The offset counted modulo 24 hours lies from 0 to 24 hours. -/
theorem offsetInDay_bounds (tz : TimeZone) (c t : Int) :
    0 ≤ tz.offsetInDay c t ∧ tz.offsetInDay c t < msPerDay :=
  ⟨Int.emod_nonneg _ (by decide), Int.emod_lt_of_pos _ (by decide)⟩

/-- In a regular zone a turn of the loop that gives a valid date moves the
instant strictly forward, and by at least 24 hours less what the offset has
gained. -/
theorem setDate_next_increases (tz : TimeZone) (c : Int)
    (hc : ∀ t, t + tz.offsetInDay c t + msPerDay ≤
      UTC tz (LocalTime tz t + msPerDay)
        + tz.offsetInDay c (UTC tz (LocalTime tz t + msPerDay)))
    (t u : Int)
    (h : setDate tz (some t) ((getDate tz (some t)).map (· + 1)) = some u) :
    t < u ∧ t + tz.offsetInDay c t + msPerDay ≤ u + tz.offsetInDay c u := by
  rw [setDate_next] at h
  have hu : UTC tz (LocalTime tz t + msPerDay) = u := by
    unfold TimeClip at h
    split_ifs at h
    exact Option.some.inj h
  have h1 := hc t
  rw [hu] at h1
  have h2 := offsetInDay_bounds tz c t
  have h3 := offsetInDay_bounds tz c u
  constructor <;> omega

/-- In a regular zone the loop that starts at `t` stops after at most `k` turns
once `k` days cover what is left to the end. -/
theorem collectDates_stops (tz : TimeZone) (c : Int)
    (hc : ∀ t, t + tz.offsetInDay c t + msPerDay ≤
      UTC tz (LocalTime tz t + msPerDay)
        + tz.offsetInDay c (UTC tz (LocalTime tz t + msPerDay)))
    (e : Int) :
    ∀ (k fuel : Nat) (t : Int) (acc : List (Option Int)), k < fuel →
      e + msPerDay - (t + tz.offsetInDay c t) ≤ k * msPerDay →
      ∃ dates, collectDates tz fuel (some t) (some e) acc = some dates
        ∧ dates.length ≤ acc.length + k := by
  intro k
  induction k with
  | zero =>
    intro fuel t acc hf hk
    obtain ⟨f, rfl⟩ : ∃ f, fuel = f + 1 := ⟨fuel - 1, by omega⟩
    have := offsetInDay_bounds tz c t
    have hlt : dateLt (some t) (some e) = false := by
      simp only [dateLt, decide_eq_false_iff_not]
      omega
    exact ⟨acc, by simp [collectDates, hlt], by omega⟩
  | succ k ih =>
    intro fuel t acc hf hk
    obtain ⟨f, rfl⟩ : ∃ f, fuel = f + 1 := ⟨fuel - 1, by omega⟩
    by_cases hlt : dateLt (some t) (some e) = true
    · rw [collectDates, if_pos hlt]
      cases hn : setDate tz (some t) ((getDate tz (some t)).map (· + 1)) with
      | none =>
        obtain ⟨g, rfl⟩ : ∃ g, f = g + 1 := ⟨f - 1, by omega⟩
        have hnone : dateLt none (some e) = false := rfl
        exact ⟨acc ++ [none], by simp [collectDates, hnone], by simp⟩
      | some u =>
        obtain ⟨-, hu⟩ := setDate_next_increases tz c hc t u hn
        push_cast at hk
        obtain ⟨dates, h1, h2⟩ := ih f u (acc ++ [some u]) (by omega) (by linarith)
        refine ⟨dates, h1, ?_⟩
        simp only [List.length_append, List.length_singleton] at h2
        omega
    · rw [collectDates, if_neg hlt]
      exact ⟨acc, rfl, by omega⟩

/-- C17 as stated fails at the end of the range of time values.  On a host on
UTC, from 8639999999999999 to 8640000000000000, two valid dates of which the
first is the earlier, the one turn of the loop makes `dateMin` the Invalid Date:
its time value is NaN, not a greater time value.  The loop stops there, with the
Invalid Date collected, and `fetchVpts` throws the RangeError of
`toISOString`. -/
theorem fetchVpts_turn_invalid :
    validTime 8639999999999999 ∧ validTime 8640000000000000
    ∧ dateLt (some 8639999999999999) (some 8640000000000000) = true
    ∧ setDate TimeZone.utc (some 8639999999999999)
        ((getDate TimeZone.utc (some 8639999999999999)).map (· + 1)) = none
    ∧ (¬ ∃ u, setDate TimeZone.utc (some 8639999999999999)
        ((getDate TimeZone.utc (some 8639999999999999)).map (· + 1)) = some u
        ∧ 8639999999999999 < u)
    ∧ collectDates TimeZone.utc 2 (some 8639999999999999) (some 8640000000000000)
        [some 8639999999999999] = some [some 8639999999999999, none]
    ∧ fetchVpts TimeZone.utc 2 (.time (some 8639999999999999))
        (.time (some 8640000000000000)) "./" = some (.error .rangeError) := by
  have hnone : setDate TimeZone.utc (some 8639999999999999)
      ((getDate TimeZone.utc (some 8639999999999999)).map (· + 1)) = none := by
    rw [setDate_next]
    decide
  refine ⟨by decide, by decide, by decide, hnone, ?_, ?_, ?_⟩
  · rintro ⟨u, h, -⟩
    rw [hnone] at h
    cases h
  · simp only [collectDates, hnone]
    decide
  · simp only [fetchVpts, newDate, fetchVptsDates, collectDates, hnone]
    decide

/-- C17, amended.  On every host whose zone is regular, for every pair of valid
dates `start ≤ stop`, whatever their time of day: each turn of the loop either
strictly increases the time value of `dateMin` or, when the next day lies past
the last time value, makes `dateMin` the Invalid Date; the loop stops after at
most `daysBetween start stop + 2` turns, that is with any fuel of at least
`daysBetween start stop + 3` tests of `dateMin < dateMax`, having collected at
most `daysBetween start stop + 3` dates; and `fetchVpts` gives a result. -/
theorem fetchVpts_terminates (tz : TimeZone) (hreg : tz.Regular) (start stop : Int)
    (directory : String) (hs : validTime start) (he : validTime stop) (hse : start ≤ stop) :
    (∀ t, validTime t →
      (∃ u, setDate tz (some t) ((getDate tz (some t)).map (· + 1)) = some u ∧ t < u)
      ∨ (setDate tz (some t) ((getDate tz (some t)).map (· + 1)) = none
        ∧ maxTime < UTC tz (LocalTime tz t + msPerDay)))
    ∧ (∀ k, ∃ dates, collectDates tz (k + ((daysBetween start stop).toNat + 3)) (some start)
          (some stop) [some start] = some dates
        ∧ dates.length ≤ (daysBetween start stop).toNat + 3)
    ∧ ∀ k, ∃ r, fetchVpts tz (k + ((daysBetween start stop).toNat + 3))
        (.time (some start)) (.time (some stop)) directory = some r := by
  obtain ⟨c, hc⟩ := hreg
  have hdb : ((daysBetween start stop).toNat : Int) = daysBetween start stop := by
    apply Int.toNat_of_nonneg
    unfold daysBetween Day msPerDay
    omega
  have hstop : ∃ dates, collectDates tz ((daysBetween start stop).toNat + 3) (some start)
      (some stop) [some start] = some dates
      ∧ dates.length ≤ (daysBetween start stop).toNat + 3 := by
    have hw := offsetInDay_bounds tz c start
    obtain ⟨dates, h1, h2⟩ := collectDates_stops tz c hc stop
      ((daysBetween start stop).toNat + 2) ((daysBetween start stop).toNat + 3) start
      [some start] (by omega) (by
        push_cast
        rw [hdb]
        unfold daysBetween Day msPerDay at *
        omega)
    refine ⟨dates, h1, ?_⟩
    simp only [List.length_singleton] at h2
    omega
  obtain ⟨dates, h1, h2⟩ := hstop
  refine ⟨fun t ht => ?_, fun k => ⟨dates, ?_, h2⟩, fun k => ⟨filenames directory dates, ?_⟩⟩
  · cases hn : setDate tz (some t) ((getDate tz (some t)).map (· + 1)) with
    | some u => exact Or.inl ⟨u, rfl, (setDate_next_increases tz c hc t u hn).1⟩
    | none =>
      refine Or.inr ⟨rfl, ?_⟩
      rw [setDate_next] at hn
      have h3 := hc t
      have h4 := offsetInDay_bounds tz c t
      have h5 := offsetInDay_bounds tz c (UTC tz (LocalTime tz t + msPerDay))
      unfold TimeClip at hn
      split_ifs at hn with hout
      unfold validTime at ht
      omega
  · rw [Nat.add_comm]
    exact collectDates_fuel_mono tz k _ _ _ _ _ h1
  · have hge : dateLt (some stop) (some start) = false := by
      simp only [dateLt, decide_eq_false_iff_not]
      omega
    have h1' := collectDates_fuel_mono tz k _ _ _ _ _ h1
    rw [Nat.add_comm] at h1'
    simp only [fetchVpts, newDate, Option.some_bind, TimeClip_valid _ hs, TimeClip_valid _ he,
      fetchVptsDates, hge, h1']
    rfl

/-- C17, amended, on a host in Europe/Brussels, from 2016-03-26T00:00Z to
2016-03-29T23:59Z, 3 days apart: the loop takes 5 turns, the most that the
bound allows, and collects 6 dates. -/
theorem fetchVpts_terminates_witness :
    TimeZone.brussels2016.Regular ∧ validTime 1458950400000 ∧ validTime 1459295940000
    ∧ (1458950400000 : Int) ≤ 1459295940000
    ∧ daysBetween 1458950400000 1459295940000 = 3
    ∧ collectDates TimeZone.brussels2016 6 (some 1458950400000) (some 1459295940000)
        [some 1458950400000] =
      some [some 1458950400000, some 1459036800000, some 1459119600000, some 1459206000000,
        some 1459292400000, some 1459378800000]
    ∧ collectDates TimeZone.brussels2016 5 (some 1458950400000) (some 1459295940000)
        [some 1458950400000] = none
    ∧ ((∀ t, validTime t →
        (∃ u, setDate TimeZone.brussels2016 (some t)
          ((getDate TimeZone.brussels2016 (some t)).map (· + 1)) = some u ∧ t < u)
        ∨ (setDate TimeZone.brussels2016 (some t)
            ((getDate TimeZone.brussels2016 (some t)).map (· + 1)) = none
          ∧ maxTime < UTC TimeZone.brussels2016
              (LocalTime TimeZone.brussels2016 t + msPerDay)))
      ∧ (∀ k, ∃ dates, collectDates TimeZone.brussels2016
            (k + ((daysBetween 1458950400000 1459295940000).toNat + 3)) (some 1458950400000)
            (some 1459295940000) [some 1458950400000] = some dates
          ∧ dates.length ≤ (daysBetween 1458950400000 1459295940000).toNat + 3)
      ∧ ∀ k, ∃ r, fetchVpts TimeZone.brussels2016
          (k + ((daysBetween 1458950400000 1459295940000).toNat + 3))
          (.time (some 1458950400000)) (.time (some 1459295940000)) "./" = some r) :=
  ⟨regular_brussels2016, by decide, by decide, by decide, by decide, by rfl, by rfl,
    fetchVpts_terminates TimeZone.brussels2016 regular_brussels2016 1458950400000
      1459295940000 "./" (by decide) (by decide) (by decide)⟩

/-- The loop on a host in Pacific/Apia across the day that the zone skipped,
from local midnight of 28 December 2011 to 2012-01-01T10:00Z, 4 days apart: 4
turns of 24 hours each, the local dates being 28, 29 and 31 December and 1 and
2 January. -/
theorem collectDates_apia_date_line :
    collectDates TimeZone.apia2011 5 (some 1325066400000) (some 1325412000000)
        [some 1325066400000] =
      some [some 1325066400000, some 1325152800000, some 1325239200000, some 1325325600000,
        some 1325412000000]
    ∧ [1325066400000, 1325152800000, 1325239200000, 1325325600000, 1325412000000].map
        (fun t => DateFromTime (LocalTime TimeZone.apia2011 t)) = [28, 29, 31, 1, 2] := by
  constructor
  · rfl
  · decide

/-! ## Reading a timestamp -/

theorem split_append_sep (sep : Char) (a b : List Char) (h : sep ∉ a) :
    split sep (a ++ sep :: b) = a :: split sep b := by
  induction a with
  | nil => simp [split]
  | cons c a ih =>
    have hc : c ≠ sep := fun e => h (by simp [e])
    have ha : sep ∉ a := fun e => h (by simp [e])
    rw [List.cons_append, split, if_neg hc, ih ha]

theorem split_of_not_mem (sep : Char) (a : List Char) (h : sep ∉ a) : split sep a = [a] := by
  induction a with
  | nil => rfl
  | cons c a ih =>
    have hc : c ≠ sep := fun e => h (by simp [e])
    have ha : sep ∉ a := fun e => h (by simp [e])
    rw [split, if_neg hc, ih ha]

theorem parseYear_of_digits (cs : List Char) (h : ∀ c ∈ cs, c.isDigit = true) :
    parseYear cs = (fixedDigits 4 cs).map Int.ofNat := by
  unfold parseYear
  split
  · exact absurd (h '+' (by simp)) (by decide)
  · exact absurd (h '-' (by simp)) (by decide)
  · rfl

/-- The calendar date made of the year, month and day of the month of `t` is
the day of `t`. -/
theorem dayOfCalendarDate_of_time (t : Int) :
    dayOfCalendarDate (YearFromTime t) (MonthFromTime t + 1).toNat (DateFromTime t).toNat =
      some (Day t) := by
  obtain ⟨-, hm0, hm1, hd0, hd1, -⟩ := month_date_spec t
  have hm : ((MonthFromTime t + 1).toNat : Int) = MonthFromTime t + 1 :=
    Int.toNat_of_nonneg (by omega)
  have hd : ((DateFromTime t).toNat : Int) = DateFromTime t := Int.toNat_of_nonneg (by omega)
  have hday := MakeDay_of_time t 0
  have hnext := Day_lt_next_month t
  simp only [add_zero] at hday
  simp only [dayOfCalendarDate, hm, hd, add_sub_cancel_right, hday]
  rw [if_pos ⟨by omega, by omega, by omega, by omega⟩]

/-- The date part `YYYY-MM-DD` of an instant with a year of four digits is read
as the day of the instant. -/
theorem parseDatePart_of_time (t : Int) (h0 : 0 ≤ YearFromTime t)
    (h1 : YearFromTime t ≤ 9999) :
    parseDatePart (padDigits 4 (YearFromTime t).toNat
      ++ '-' :: padDigits 2 (MonthFromTime t + 1).toNat
      ++ '-' :: padDigits 2 (DateFromTime t).toNat) = some (Day t) := by
  obtain ⟨-, hm0, hm1, hd0, hd1, -⟩ := month_date_spec t
  have hdash : ∀ w n, '-' ∉ padDigits w n := not_mem_padDigits '-' (by decide)
  have hy : ((YearFromTime t).toNat : Int) = YearFromTime t := Int.toNat_of_nonneg h0
  obtain ⟨c, r, hcr⟩ : ∃ c r, padDigits 4 (YearFromTime t).toNat = c :: r := by
    have := padDigits_length 4 (YearFromTime t).toNat
    cases hp : padDigits 4 (YearFromTime t).toNat with
    | nil => rw [hp] at this; simp at this
    | cons c r => exact ⟨c, r, rfl⟩
  have hc : c.isDigit = true := padDigits_isDigit 4 _ c (by rw [hcr]; simp)
  have hsign : ((padDigits 4 (YearFromTime t).toNat
      ++ '-' :: padDigits 2 (MonthFromTime t + 1).toNat
      ++ '-' :: padDigits 2 (DateFromTime t).toNat).take 1).filter
        (fun c => c = '+' ∨ c = '-') = [] := by
    have h1 : c ≠ '+' := fun e => by rw [e] at hc; exact absurd hc (by decide)
    have h2 : c ≠ '-' := fun e => by rw [e] at hc; exact absurd hc (by decide)
    simp [hcr, h1, h2]
  unfold parseDatePart
  simp only [List.append_assoc, List.cons_append] at hsign ⊢
  simp only [hsign, List.length_nil, List.drop_zero, List.nil_append]
  rw [split_append_sep _ _ _ (hdash _ _), split_append_sep _ _ _ (hdash _ _),
    split_of_not_mem _ _ (hdash _ _)]
  simp only []
  rw [parseYear_of_digits _ (padDigits_isDigit _ _), fixedDigits_padDigits 4 _ (by omega),
    fixedDigits_padDigits 2 _ (by omega), fixedDigits_padDigits 2 _ (by omega)]
  simp only [Option.map_some', Option.some_bind, Int.ofNat_eq_coe, hy]
  exact dayOfCalendarDate_of_time t

theorem parseSeconds_ss (sec : Nat) (hs : sec < 60) :
    parseSeconds (padDigits 2 sec) = some (1000 * sec) := by
  have hdot : ∀ w n, '.' ∉ padDigits w n := not_mem_padDigits '.' (by decide)
  unfold parseSeconds
  rw [split_of_not_mem _ _ (hdot _ _)]
  simp only []
  rw [fixedDigits_padDigits 2 _ (by omega)]
  simp [hs]

theorem parseSeconds_ss_sss (sec ms : Nat) (hs : sec < 60) (hm : ms < 1000) :
    parseSeconds (padDigits 2 sec ++ '.' :: padDigits 3 ms) = some (1000 * sec + ms) := by
  have hdot : ∀ w n, '.' ∉ padDigits w n := not_mem_padDigits '.' (by decide)
  unfold parseSeconds
  rw [split_append_sep _ _ _ (hdot _ _), split_of_not_mem _ _ (hdot _ _)]
  simp only []
  rw [fixedDigits_padDigits 2 _ (by omega), fixedDigits_padDigits 3 _ (by omega)]
  simp [hs]

/-- The time part `HH:mm:` followed by seconds that are read as `s`
milliseconds is read as the milliseconds of that time of day. -/
theorem parseTimePart_of_seconds (h m : Nat) (sec : List Char) (s : Nat) (hh : h < 24)
    (hm : m < 60) (hsec : parseSeconds sec = some s) (hc : ':' ∉ sec) :
    parseTimePart (padDigits 2 h ++ ':' :: (padDigits 2 m ++ ':' :: sec)) =
      some (MakeTime h m 0 s) := by
  have hcolon : ∀ w n, ':' ∉ padDigits w n := not_mem_padDigits ':' (by decide)
  unfold parseTimePart
  rw [split_append_sep _ _ _ (hcolon _ _), split_append_sep _ _ _ (hcolon _ _),
    split_of_not_mem _ _ hc]
  simp only []
  rw [hsec, fixedDigits_padDigits 2 _ (by omega), fixedDigits_padDigits 2 _ (by omega)]
  simp [hh, hm]

theorem parseTimeAndOffset_Z (x : List Char) :
    parseTimeAndOffset (x ++ ['Z']) = (parseTimePart x).map fun t => (t, some 0) := by
  unfold parseTimeAndOffset
  rw [if_pos (by simp), List.dropLast_concat]

/-- The parts of the time of day of an instant make its time within the day. -/
theorem MakeTime_of_time (t : Int) :
    MakeTime (HourFromTime t).toNat (MinFromTime t).toNat 0
        ((1000 * (SecFromTime t).toNat + (msFromTime t).toNat : Nat) : Int) = TimeWithinDay t
    ∧ (HourFromTime t).toNat < 24 ∧ (MinFromTime t).toNat < 60
    ∧ (SecFromTime t).toNat < 60 ∧ (msFromTime t).toNat < 1000 := by
  unfold MakeTime HourFromTime MinFromTime SecFromTime msFromTime TimeWithinDay msPerHour
    msPerMinute msPerSecond msPerDay
  omega

/-- A date-time text `dateTtimeZ` is read, on any host, as the instant of its
date and time in UTC. -/
theorem DateParse_date_time_Z (tz : TimeZone) (date time : List Char) (day ms : Int)
    (hd : parseDatePart date = some day) (ht : parseTimePart time = some ms)
    (h1 : 'T' ∉ date) (h2 : 'T' ∉ time) :
    DateParse tz (String.mk (date ++ 'T' :: (time ++ ['Z']))) = TimeClip (MakeDate day ms) := by
  have h3 : 'T' ∉ time ++ ['Z'] := by
    simp only [List.mem_append, List.mem_singleton, not_or]
    exact ⟨h2, by decide⟩
  unfold DateParse
  simp only []
  rw [split_append_sep _ _ _ h1, split_of_not_mem _ _ h3]
  simp only []
  rw [hd, parseTimeAndOffset_Z, ht]
  simp

theorem MakeDate_Day_TimeWithinDay (t : Int) : MakeDate (Day t) (TimeWithinDay t) = t := by
  unfold MakeDate Day TimeWithinDay msPerDay
  omega

theorem not_mem_date_part (c : Char) (hc : c.isDigit = false) (h : c ≠ '-') (t : Int) :
    c ∉ padDigits 4 (YearFromTime t).toNat
      ++ '-' :: padDigits 2 (MonthFromTime t + 1).toNat
      ++ '-' :: padDigits 2 (DateFromTime t).toNat := by
  have hp : ∀ w n, c ∉ padDigits w n := not_mem_padDigits c hc
  simp [hp, h]

/-- The text that `toISOString` gives an instant whose year has four digits is
read back, on any host, as that instant. -/
theorem DateParse_isoString (tz : TimeZone) (t : Int) (hv : validTime t)
    (h0 : 0 ≤ YearFromTime t) (h1 : YearFromTime t ≤ 9999) :
    DateParse tz (String.mk (isoString t)) = some t := by
  obtain ⟨hmt, hh, hm, hs, hms⟩ := MakeTime_of_time t
  have hT : ∀ w n, 'T' ∉ padDigits w n := not_mem_padDigits 'T' (by decide)
  have hcolon : ∀ w n, ':' ∉ padDigits w n := not_mem_padDigits ':' (by decide)
  have htext : isoString t =
      (padDigits 4 (YearFromTime t).toNat
        ++ '-' :: padDigits 2 (MonthFromTime t + 1).toNat
        ++ '-' :: padDigits 2 (DateFromTime t).toNat)
      ++ 'T' :: ((padDigits 2 (HourFromTime t).toNat ++ ':' :: (padDigits 2 (MinFromTime t).toNat
        ++ ':' :: (padDigits 2 (SecFromTime t).toNat
          ++ '.' :: padDigits 3 (msFromTime t).toNat))) ++ ['Z']) := by
    simp only [isoString, if_pos (And.intro h0 h1), List.append_assoc, List.cons_append]
  have htime := parseTimePart_of_seconds (HourFromTime t).toNat (MinFromTime t).toNat
    (padDigits 2 (SecFromTime t).toNat ++ '.' :: padDigits 3 (msFromTime t).toNat) _ hh hm
    (parseSeconds_ss_sss _ _ hs hms) (by simp [hcolon])
  rw [htext, DateParse_date_time_Z tz _ _ _ _ (parseDatePart_of_time t h0 h1) htime
    (not_mem_date_part 'T' (by decide) (by decide) t) (by simp [hT]),
    hmt, MakeDate_Day_TimeWithinDay, TimeClip_valid t hv]

/-- The ISO 8601 timestamp in UTC
`YYYY-MM-DDTHH:mm:ssZ` of an instant of a whole number of seconds, with a year
of four digits, is read back, on any host, as that instant. -/
theorem DateParse_utcTimestamp (tz : TimeZone) (t : Int) (hv : validTime t)
    (h0 : 0 ≤ YearFromTime t) (h1 : YearFromTime t ≤ 9999) (hsec : msFromTime t = 0) :
    DateParse tz (utcTimestamp t) = some t := by
  obtain ⟨hmt, hh, hm, hs, hms⟩ := MakeTime_of_time t
  have hT : ∀ w n, 'T' ∉ padDigits w n := not_mem_padDigits 'T' (by decide)
  have hcolon : ∀ w n, ':' ∉ padDigits w n := not_mem_padDigits ':' (by decide)
  have htext : utcTimestamp t = String.mk (
      (padDigits 4 (YearFromTime t).toNat
        ++ '-' :: padDigits 2 (MonthFromTime t + 1).toNat
        ++ '-' :: padDigits 2 (DateFromTime t).toNat)
      ++ 'T' :: ((padDigits 2 (HourFromTime t).toNat ++ ':' :: (padDigits 2 (MinFromTime t).toNat
        ++ ':' :: padDigits 2 (SecFromTime t).toNat)) ++ ['Z'])) := by
    simp only [utcTimestamp, List.append_assoc, List.cons_append]
  have htime := parseTimePart_of_seconds (HourFromTime t).toNat (MinFromTime t).toNat
    (padDigits 2 (SecFromTime t).toNat) _ hh hm (parseSeconds_ss _ hs) (hcolon _ _)
  rw [hsec] at hmt
  simp only [Int.toNat_zero, add_zero] at hmt
  rw [htext, DateParse_date_time_Z tz _ _ _ _ (parseDatePart_of_time t h0 h1) htime
    (not_mem_date_part 'T' (by decide) (by decide) t) (by simp [hT]),
    hmt, MakeDate_Day_TimeWithinDay, TimeClip_valid t hv]

/-! ## Reading a number -/

theorem normalizeDecimal_toRat (s : Nat) : ∀ d : Int,
    (normalizeDecimal d s).toRat = (d : ℚ) / 10 ^ s := by
  induction s with
  | zero => intro d; rfl
  | succ s ih =>
    intro d
    unfold normalizeDecimal
    split_ifs with h
    · rw [ih]
      have hd : d = 10 * (d / 10) := by omega
      conv_rhs => rw [hd]
      push_cast
      rw [pow_succ]
      field_simp
      ring
    · rfl

theorem mem_padDigits (w n : Nat) (c : Char) (h : c ∈ padDigits w n) :
    ∃ d, d < 10 ∧ c = digitChar d := by
  induction w generalizing n with
  | zero => simp [padDigits] at h
  | succ w ih =>
    simp only [padDigits, List.mem_append, List.mem_singleton] at h
    rcases h with h | h
    · exact ih _ h
    · exact ⟨n % 10, Nat.mod_lt _ (by decide), h⟩

/-- What the reading of a number needs to know of a decimal digit: it is no
white space, no exponent indicator, no point and no sign, and it does not occur
in `Infinity` nor after the `0` of a hexadecimal, octal or binary literal. -/
theorem digitChar_plain : ∀ d, d < 10 →
    isStrWhiteSpace (digitChar d) = false ∧ isExponentIndicator (digitChar d) = false
    ∧ digitChar d ≠ '.' ∧ digitChar d ≠ '+' ∧ digitChar d ≠ '-' ∧ digitChar d ≠ 'I'
    ∧ digitChar d ≠ 'x' ∧ digitChar d ≠ 'X' ∧ digitChar d ≠ 'o' ∧ digitChar d ≠ 'O'
    ∧ digitChar d ≠ 'b' ∧ digitChar d ≠ 'B' := by
  decide

theorem padDigits_ne_nil (w n : Nat) (h : 0 < w) : padDigits w n ≠ [] := by
  intro e
  have := padDigits_length w n
  rw [e] at this
  simp at this
  omega

/-- Trimming leaves a text that neither starts nor ends with white space. -/
theorem trimWhiteSpace_eq_self (c z : Char) (r m : List Char)
    (hc : isStrWhiteSpace c = false) (hz : isStrWhiteSpace z = false)
    (h : c :: r = m ++ [z]) : trimWhiteSpace (c :: r) = c :: r := by
  unfold trimWhiteSpace
  rw [List.dropWhile_cons_of_neg (by simp [hc]), h, List.reverse_append, List.reverse_singleton,
    List.singleton_append, List.dropWhile_cons_of_neg (by simp [hz])]
  simp

theorem mem_decimal_chars (wi i wf f : Nat) (c : Char)
    (h : c ∈ padDigits wi i ++ '.' :: padDigits wf f) :
    (∃ d, d < 10 ∧ c = digitChar d) ∨ c = '.' := by
  simp only [List.mem_append, List.mem_cons] at h
  rcases h with h | h | h
  · exact Or.inl (mem_padDigits _ _ c h)
  · exact Or.inr h
  · exact Or.inl (mem_padDigits _ _ c h)

/-- Digits, a point and digits are read as the decimal fraction they write. -/
theorem strUnsignedDecimalLiteral_decimal (wi i wf f : Nat) (hwi : 0 < wi) (hi : i < 10 ^ wi)
    (hf : f < 10 ^ wf) :
    strUnsignedDecimalLiteral (padDigits wi i ++ '.' :: padDigits wf f) =
      some (JSNumber.ofDecimal ((i * 10 ^ wf + f : Nat) : Int) wf) := by
  have hne : padDigits wi i ++ '.' :: padDigits wf f ≠ "Infinity".data := by
    intro e
    have hI : 'I' ∈ padDigits wi i ++ '.' :: padDigits wf f := by rw [e]; decide
    rcases mem_decimal_chars _ _ _ _ _ hI with ⟨d, hd, hc⟩ | hc
    · exact (digitChar_plain d hd).2.2.2.2.2.1 hc.symm
    · exact absurd hc (by decide)
  have hexp : ∀ c ∈ padDigits wi i ++ '.' :: padDigits wf f,
      (!isExponentIndicator c) = true := by
    intro c hc
    rcases mem_decimal_chars _ _ _ _ _ hc with ⟨d, hd, rfl⟩ | rfl
    · rw [(digitChar_plain d hd).2.1]; rfl
    · decide
  have hpt : ∀ c ∈ padDigits wi i, decide (c ≠ '.') = true := by
    intro c hc
    obtain ⟨d, hd, rfl⟩ := mem_padDigits _ _ c hc
    simpa using (digitChar_plain d hd).2.2.1
  have hm : (padDigits wi i ++ '.' :: padDigits wf f).takeWhile
      (fun c => !isExponentIndicator c) = padDigits wi i ++ '.' :: padDigits wf f :=
    List.takeWhile_eq_self_iff.mpr hexp
  have he : (padDigits wi i ++ '.' :: padDigits wf f).dropWhile
      (fun c => !isExponentIndicator c) = [] :=
    List.dropWhile_eq_nil_iff.mpr hexp
  have hint : (padDigits wi i ++ '.' :: padDigits wf f).takeWhile (fun c => decide (c ≠ '.'))
      = padDigits wi i := by
    rw [List.takeWhile_append_of_pos hpt]
    simp
  have hfrac : ((padDigits wi i ++ '.' :: padDigits wf f).dropWhile
      (fun c => decide (c ≠ '.'))).tail = padDigits wf f := by
    rw [List.dropWhile_append_of_pos hpt]
    simp
  unfold strUnsignedDecimalLiteral
  rw [if_neg hne]
  simp only [hm, he, hint, hfrac]
  rw [if_neg (fun h => padDigits_ne_nil wi i hwi h.1), digitsValue_padDigits,
    digitsValue_padDigits, Nat.mod_eq_of_lt hi, Nat.mod_eq_of_lt hf]
  simp [exponentPart, decimalNumber, padDigits_length]

/-- Digits alone are read as the integer they write. -/
theorem strUnsignedDecimalLiteral_integer (wi i : Nat) (hwi : 0 < wi) (hi : i < 10 ^ wi) :
    strUnsignedDecimalLiteral (padDigits wi i) = some (JSNumber.ofDecimal (i : Int) 0) := by
  have hne : padDigits wi i ≠ "Infinity".data := by
    intro e
    have hI : 'I' ∈ padDigits wi i := by rw [e]; decide
    obtain ⟨d, hd, hc⟩ := mem_padDigits _ _ _ hI
    exact (digitChar_plain d hd).2.2.2.2.2.1 hc.symm
  have hexp : ∀ c ∈ padDigits wi i, (!isExponentIndicator c) = true := by
    intro c hc
    obtain ⟨d, hd, rfl⟩ := mem_padDigits _ _ c hc
    rw [(digitChar_plain d hd).2.1]; rfl
  have hpt : ∀ c ∈ padDigits wi i, decide (c ≠ '.') = true := by
    intro c hc
    obtain ⟨d, hd, rfl⟩ := mem_padDigits _ _ c hc
    simpa using (digitChar_plain d hd).2.2.1
  have hm : (padDigits wi i).takeWhile (fun c => !isExponentIndicator c) = padDigits wi i :=
    List.takeWhile_eq_self_iff.mpr hexp
  have he : (padDigits wi i).dropWhile (fun c => !isExponentIndicator c) = [] :=
    List.dropWhile_eq_nil_iff.mpr hexp
  have hint : (padDigits wi i).takeWhile (fun c => decide (c ≠ '.')) = padDigits wi i :=
    List.takeWhile_eq_self_iff.mpr hpt
  have hfrac : ((padDigits wi i).dropWhile (fun c => decide (c ≠ '.'))).tail = [] := by
    rw [List.dropWhile_eq_nil_iff.mpr hpt]
    rfl
  unfold strUnsignedDecimalLiteral
  rw [if_neg hne]
  simp only [hm, he, hint, hfrac]
  rw [if_neg (fun h => padDigits_ne_nil wi i hwi h.1), digitsValue_padDigits,
    Nat.mod_eq_of_lt hi]
  simp [exponentPart, decimalNumber, digitsValue]

theorem trimWhiteSpace_of_plain (cs : List Char) (hne : cs ≠ [])
    (h : ∀ c ∈ cs, isStrWhiteSpace c = false) : trimWhiteSpace cs = cs := by
  obtain ⟨c, r, rfl⟩ : ∃ c r, cs = c :: r := by
    cases cs with
    | nil => exact absurd rfl hne
    | cons c r => exact ⟨c, r, rfl⟩
  rcases List.eq_nil_or_concat (c :: r) with he | ⟨m, z, he⟩
  · exact absurd he hne
  · rw [List.concat_eq_append] at he
    refine trimWhiteSpace_eq_self c z r m (h c (by simp)) (h z ?_) he
    rw [he]
    simp

/-- A text of digits and points is read as an unsigned decimal literal, and
after a minus sign as the opposite number. -/
theorem strNumericLiteral_of_plain (cs : List Char)
    (h : ∀ c ∈ cs, (∃ d, d < 10 ∧ c = digitChar d) ∨ c = '.') :
    strNumericLiteral cs = strUnsignedDecimalLiteral cs
    ∧ strNumericLiteral ('-' :: cs) = (strUnsignedDecimalLiteral cs).map JSNumber.neg := by
  have hnot : ∀ c, c ∈ ['+', '-', 'x', 'X', 'o', 'O', 'b', 'B'] → ∀ k, c ∉ cs.take k := by
    intro c hc k hmem
    rcases h c (List.mem_of_mem_take hmem) with ⟨d, hd, rfl⟩ | rfl
    · obtain ⟨-, -, -, h1, h2, -, h3, h4, h5, h6, h7, h8⟩ := digitChar_plain d hd
      simp only [List.mem_cons, List.mem_singleton, List.not_mem_nil, or_false] at hc
      rcases hc with e | e | e | e | e | e | e | e
      · exact h1 e
      · exact h2 e
      · exact h3 e
      · exact h4 e
      · exact h5 e
      · exact h6 e
      · exact h7 e
      · exact h8 e
    · revert hc
      decide
  have c1 : cs.take 1 ≠ ['+'] := fun e => hnot '+' (by decide) 1 (by rw [e]; decide)
  have c2 : cs.take 1 ≠ ['-'] := fun e => hnot '-' (by decide) 1 (by rw [e]; decide)
  have c3 : ¬ (cs.take 2 = ['0', 'x'] ∨ cs.take 2 = ['0', 'X']) := by
    rintro (e | e)
    · exact hnot 'x' (by decide) 2 (by rw [e]; decide)
    · exact hnot 'X' (by decide) 2 (by rw [e]; decide)
  have c4 : ¬ (cs.take 2 = ['0', 'o'] ∨ cs.take 2 = ['0', 'O']) := by
    rintro (e | e)
    · exact hnot 'o' (by decide) 2 (by rw [e]; decide)
    · exact hnot 'O' (by decide) 2 (by rw [e]; decide)
  have c5 : ¬ (cs.take 2 = ['0', 'b'] ∨ cs.take 2 = ['0', 'B']) := by
    rintro (e | e)
    · exact hnot 'b' (by decide) 2 (by rw [e]; decide)
    · exact hnot 'B' (by decide) 2 (by rw [e]; decide)
  constructor
  · unfold strNumericLiteral
    rw [if_neg c1, if_neg c2, if_neg c3, if_neg c4, if_neg c5]
  · unfold strNumericLiteral
    rw [if_neg (by simp), if_pos (by simp)]
    simp

theorem toRat_neg (d : Decimal) : (Decimal.mk (-d.digits) d.scale).toRat = -d.toRat := by
  simp [Decimal.toRat, neg_div]

/-! ## The Number value of a fraction -/

theorem log2Fuel_spec : ∀ (fuel n : Nat), n ≤ fuel → 0 < n →
    2 ^ log2Fuel fuel n ≤ n ∧ n < 2 ^ (log2Fuel fuel n + 1) := by
  intro fuel
  induction fuel with
  | zero => intro n h1 h2; omega
  | succ fuel ih =>
    intro n h1 h2
    unfold log2Fuel
    by_cases h : n < 2
    · rw [if_pos h]
      constructor <;> simp <;> omega
    · rw [if_neg h]
      obtain ⟨i1, i2⟩ := ih (n / 2) (by omega) (by omega)
      rw [pow_succ, pow_succ]
      constructor <;> omega

theorem two_zpow_nonneg (e : Int) (h : 0 ≤ e) : (2 : ℚ) ^ e = ((2 ^ e.toNat : Nat) : ℚ) := by
  obtain ⟨j, rfl⟩ := Int.eq_ofNat_of_zero_le h
  simp

theorem two_zpow_neg (e : Int) (h : e < 0) :
    (2 : ℚ) ^ e = 1 / ((2 ^ (-e).toNat : Nat) : ℚ) := by
  obtain ⟨j, hj⟩ := Int.eq_ofNat_of_zero_le (by omega : 0 ≤ -e)
  have he : e = -(j : Int) := by omega
  subst he
  simp

/-- The quotient that is rounded is `n / d` over `2 ^ e`. -/
theorem scaled_eq (n d : Nat) (e : Int) (hd : 0 < d) :
    (((if 0 ≤ e then n else n <<< (-e).toNat : Nat) : ℚ)
      / ((if 0 ≤ e then d <<< e.toNat else d : Nat) : ℚ)) = (n : ℚ) / d / (2 : ℚ) ^ e := by
  have hd' : (d : ℚ) ≠ 0 := by positivity
  by_cases h : 0 ≤ e
  · rw [if_pos h, if_pos h, two_zpow_nonneg e h, Nat.shiftLeft_eq]
    push_cast
    field_simp
  · rw [if_neg h, if_neg h, two_zpow_neg e (by omega), Nat.shiftLeft_eq]
    push_cast
    field_simp

theorem floorLog2_spec (n d : Nat) (hn : 0 < n) (hd : 0 < d) :
    (2 : ℚ) ^ floorLog2 n d ≤ (n : ℚ) / d ∧ (n : ℚ) / d < (2 : ℚ) ^ (floorLog2 n d + 1) := by
  obtain ⟨a1, a2⟩ := log2Fuel_spec n n le_rfl hn
  obtain ⟨b1, b2⟩ := log2Fuel_spec d d le_rfl hd
  have hd' : (0 : ℚ) < d := by positivity
  have a1' : (2 : ℚ) ^ (log2Fuel n n : Int) ≤ n := by
    rw [zpow_natCast]; exact_mod_cast a1
  have a2' : (n : ℚ) < 2 * (2 : ℚ) ^ (log2Fuel n n : Int) := by
    rw [zpow_natCast]
    have : n < 2 * 2 ^ log2Fuel n n := by rw [pow_succ] at a2; omega
    exact_mod_cast this
  have b1' : (2 : ℚ) ^ (log2Fuel d d : Int) ≤ d := by
    rw [zpow_natCast]; exact_mod_cast b1
  have b2' : (d : ℚ) < 2 * (2 : ℚ) ^ (log2Fuel d d : Int) := by
    rw [zpow_natCast]
    have : d < 2 * 2 ^ log2Fuel d d := by rw [pow_succ] at b2; omega
    exact_mod_cast this
  set k : Int := (log2Fuel n n : Int) - (log2Fuel d d : Int) with hk
  have hA : (2 : ℚ) ^ (log2Fuel n n : Int) = (2 : ℚ) ^ k * (2 : ℚ) ^ (log2Fuel d d : Int) := by
    rw [← zpow_add₀ (by norm_num : (2 : ℚ) ≠ 0)]
    congr 1
    omega
  have hkpos : (0 : ℚ) < (2 : ℚ) ^ k := by positivity
  have hbpos : (0 : ℚ) < (2 : ℚ) ^ (log2Fuel d d : Int) := by positivity
  have hk1 : (2 : ℚ) ^ (k + 1) = 2 * (2 : ℚ) ^ k := by
    rw [zpow_add₀ (by norm_num : (2 : ℚ) ≠ 0)]; simp [mul_comm]
  have hk0 : (2 : ℚ) ^ k = 2 * (2 : ℚ) ^ (k - 1) := by
    rw [show k = (k - 1) + 1 by omega, zpow_add₀ (by norm_num : (2 : ℚ) ≠ 0)]
    simp [mul_comm]
  have hup : (n : ℚ) / d < 2 * (2 : ℚ) ^ k := by
    rw [div_lt_iff₀ hd']
    nlinarith
  have hlo : (2 : ℚ) ^ (k - 1) ≤ (n : ℚ) / d := by
    rw [le_div_iff₀ hd']
    nlinarith
  have htest : (if 0 ≤ k then d <<< k.toNat ≤ n else d ≤ n <<< (-k).toNat)
      ↔ (2 : ℚ) ^ k ≤ (n : ℚ) / d := by
    rw [le_div_iff₀ hd']
    by_cases h : 0 ≤ k
    · rw [if_pos h, two_zpow_nonneg k h, Nat.shiftLeft_eq]
      constructor
      · intro h'
        have : ((d * 2 ^ k.toNat : Nat) : ℚ) ≤ n := by exact_mod_cast h'
        push_cast at this ⊢
        linarith
      · intro h'
        have : ((d * 2 ^ k.toNat : Nat) : ℚ) ≤ n := by push_cast at h' ⊢; linarith
        exact_mod_cast this
    · rw [if_neg h, two_zpow_neg k (by omega), Nat.shiftLeft_eq]
      have hp : (0 : ℚ) < ((2 ^ (-k).toNat : Nat) : ℚ) := by positivity
      rw [one_div, inv_mul_le_iff₀ hp]
      constructor
      · intro h'
        have : ((d : Nat) : ℚ) ≤ ((n * 2 ^ (-k).toNat : Nat) : ℚ) := by exact_mod_cast h'
        push_cast at this ⊢
        linarith
      · intro h'
        have : ((d : Nat) : ℚ) ≤ ((n * 2 ^ (-k).toNat : Nat) : ℚ) := by
          push_cast at h' ⊢; linarith
        exact_mod_cast this
  unfold floorLog2
  simp only [← hk]
  by_cases ht : (if 0 ≤ k then d <<< k.toNat ≤ n else d ≤ n <<< (-k).toNat)
  · rw [if_pos ht]
    exact ⟨htest.mp ht, by rw [hk1]; exact hup⟩
  · rw [if_neg ht]
    refine ⟨hlo, ?_⟩
    rw [sub_add_cancel]
    exact lt_of_not_le fun h => ht (htest.mpr h)

theorem roundHalfEven_spec (num den : Nat) (h : 0 < den) :
    |(num : ℚ) / den - roundHalfEven num den| ≤ 1 / 2
    ∧ (|(num : ℚ) / den - roundHalfEven num den| = 1 / 2 → Even (roundHalfEven num den)) := by
  have hden : (0 : ℚ) < den := by positivity
  have hdiv : (num : ℚ) / den = (num / den : Nat) + ((num % den : Nat) : ℚ) / den := by
    have := Nat.div_add_mod num den
    have h' : ((den * (num / den) + num % den : Nat) : ℚ) = num := by exact_mod_cast this
    push_cast at h'
    field_simp
    linarith
  have hr : ((num % den : Nat) : ℚ) < den := by exact_mod_cast Nat.mod_lt num h
  have hr0 : (0 : ℚ) ≤ ((num % den : Nat) : ℚ) := by positivity
  set q := num / den with hq
  set r := num % den with hrdef
  unfold roundHalfEven
  simp only [← hq, ← hrdef]
  by_cases c1 : 2 * r < den
  · rw [if_pos c1]
    have c1' : 2 * (r : ℚ) < den := by exact_mod_cast c1
    have e1 : (num : ℚ) / den - q = (r : ℚ) / den := by rw [hdiv]; ring
    have hlt : (r : ℚ) / den < 1 / 2 := by rw [div_lt_iff₀ hden]; linarith
    have hge : (0 : ℚ) ≤ (r : ℚ) / den := by positivity
    rw [e1, abs_of_nonneg hge]
    exact ⟨le_of_lt hlt, fun h => absurd h (ne_of_lt hlt)⟩
  · rw [if_neg c1]
    by_cases c2 : den < 2 * r
    · rw [if_pos c2]
      have c2' : (den : ℚ) < 2 * r := by exact_mod_cast c2
      have e1 : (num : ℚ) / den - ((q + 1 : Nat) : ℚ) = -((den - (r : ℚ)) / den) := by
        rw [hdiv]; push_cast; field_simp; ring
      have hlt : (den - (r : ℚ)) / den < 1 / 2 := by rw [div_lt_iff₀ hden]; linarith
      have hge : (0 : ℚ) ≤ (den - (r : ℚ)) / den := by
        apply div_nonneg _ hden.le; linarith
      rw [e1, abs_neg, abs_of_nonneg hge]
      exact ⟨le_of_lt hlt, fun h => absurd h (ne_of_lt hlt)⟩
    · rw [if_neg c2]
      have c3 : 2 * r = den := by omega
      have c3' : 2 * (r : ℚ) = den := by exact_mod_cast c3
      have hhalf : (r : ℚ) / den = 1 / 2 := by
        rw [div_eq_iff (ne_of_gt hden)]; linarith
      by_cases c4 : q % 2 = 0
      · rw [if_pos c4]
        have e1 : (num : ℚ) / den - q = 1 / 2 := by rw [hdiv, ← hhalf]; ring
        rw [e1, abs_of_pos (by norm_num)]
        exact ⟨le_rfl, fun _ => Nat.even_iff.mpr c4⟩
      · rw [if_neg c4]
        have e1 : (num : ℚ) / den - ((q + 1 : Nat) : ℚ) = -(1 / 2) := by
          rw [hdiv, hhalf]; push_cast; ring
        rw [e1, abs_neg, abs_of_pos (by norm_num)]
        exact ⟨le_rfl, fun _ => by rw [Nat.even_iff]; omega⟩

/-- Among the integers, one within a half of `s` is nearest to `s`, and another
is as near only when both are a half away. -/
theorem int_nearest (s : ℚ) (m k : Int) (hr : |s - m| ≤ 1 / 2) :
    |s - m| ≤ |s - k| ∧ (k ≠ m → |s - k| = |s - m| → |s - m| = 1 / 2) := by
  by_cases h : k = m
  · subst h
    exact ⟨le_rfl, fun h => absurd rfl h⟩
  · have h1 : (1 : ℚ) ≤ |(k : ℚ) - m| := by
      have := Int.one_le_abs (sub_ne_zero.mpr h)
      have h' : ((1 : Int) : ℚ) ≤ ((|k - m| : Int) : ℚ) := by exact_mod_cast this
      simpa using h'
    have h2 : |(k : ℚ) - m| ≤ |s - m| + |s - k| := by
      have : (k : ℚ) - m = (s - m) - (s - k) := by ring
      rw [this]
      exact abs_sub _ _
    constructor
    · linarith
    · intro _ he
      linarith

/-- A candidate is at most `2 ^ 1024` in magnitude. -/
theorem candidate_abs_le (z : ℚ) (h : IsNumberCandidate z) : |z| ≤ 2 ^ 1024 := by
  obtain ⟨m, f, hm, hf1, hf2, rfl⟩ := h
  have hm' : |(m : ℚ)| ≤ 2 ^ 53 := by
    have : ((|m| : Int) : ℚ) ≤ ((2 ^ 53 : Int) : ℚ) := by exact_mod_cast hm
    simpa using this
  have hp : (2 : ℚ) ^ f ≤ (2 : ℚ) ^ (971 : Int) :=
    zpow_le_zpow_right₀ (by norm_num) hf2
  have hpos : (0 : ℚ) < (2 : ℚ) ^ f := by positivity
  rw [abs_mul, abs_of_pos hpos]
  calc |(m : ℚ)| * (2 : ℚ) ^ f ≤ 2 ^ 53 * (2 : ℚ) ^ (971 : Int) := by
        apply mul_le_mul hm' hp hpos.le (by positivity)
    _ = 2 ^ 1024 := by
        rw [show (971 : Int) = ((971 : Nat) : Int) by rfl, zpow_natCast, ← pow_add]

/-- The integer nearest to `x` over `2 ^ e`, times `2 ^ e`, is the candidate
chosen for `x`, when `e` is the exponent that `x` calls for. -/
theorem closest_of_rounded (x : ℚ) (e : Int) (m : Nat) (he1 : -1074 ≤ e) (he2 : e ≤ 971)
    (hm : m ≤ 2 ^ 53) (hr : |x / (2 : ℚ) ^ e - m| ≤ 1 / 2)
    (ht : |x / (2 : ℚ) ^ e - m| = 1 / 2 → Even m)
    (hn : e ≠ -1074 → 2 ^ 52 ≤ x / (2 : ℚ) ^ e) :
    IsClosestNumber x (m * (2 : ℚ) ^ e) := by
  have hP : (0 : ℚ) < (2 : ℚ) ^ e := by positivity
  set P : ℚ := (2 : ℚ) ^ e with hPdef
  set s : ℚ := x / P with hs
  have hr' : |s - ((m : Int) : ℚ)| ≤ 1 / 2 := by simpa using hr
  have hscale : ∀ z : ℚ, |x - z| = P * |s - z / P| := by
    intro z
    have : x - z = P * (s - z / P) := by rw [hs]; field_simp
    rw [this, abs_mul, abs_of_pos hP]
  have hmP : (m : ℚ) * P / P = m := by field_simp
  have key : ∀ z, IsNumberCandidate z →
      |s - m| ≤ |s - z / P| ∧ (z ≠ m * P → |s - z / P| = |s - m| → |s - m| = 1 / 2) := by
    rintro z ⟨m', f, hm', hf1, hf2, rfl⟩
    by_cases hfe : e ≤ f
    · have hz : (m' : ℚ) * (2 : ℚ) ^ f / P = ((m' * 2 ^ (f - e).toNat : Int) : ℚ) := by
        have : (2 : ℚ) ^ f = (2 : ℚ) ^ (f - e) * P := by
          rw [hPdef, ← zpow_add₀ (by norm_num : (2 : ℚ) ≠ 0)]
          congr 1
          omega
        rw [this, two_zpow_nonneg (f - e) (by omega)]
        push_cast
        field_simp
        ring
      rw [hz]
      obtain ⟨k1, k2⟩ := int_nearest s m (m' * 2 ^ (f - e).toNat) hr'
      refine ⟨by simpa using k1, fun hne heq => ?_⟩
      have hne' : m' * 2 ^ (f - e).toNat ≠ (m : Int) := by
        intro h
        apply hne
        have h2 : (m' : ℚ) * (2 : ℚ) ^ f / P * P = (m : ℚ) * P := by
          rw [hz, h]
          simp
        rw [← h2]
        field_simp
      simpa using k2 hne' (by simpa using heq)
    · have hne : e ≠ -1074 := by omega
      have hs52 : (2 : ℚ) ^ 52 ≤ s := hn hne
      have hz : (m' : ℚ) * (2 : ℚ) ^ f / P ≤ 2 ^ 52 := by
        have h1 : (m' : ℚ) * (2 : ℚ) ^ f / P = (m' : ℚ) * (2 : ℚ) ^ (f - e) := by
          rw [hPdef, zpow_sub₀ (by norm_num : (2 : ℚ) ≠ 0)]
          ring
        have h2 : (2 : ℚ) ^ (f - e) ≤ (2 : ℚ) ^ (-1 : Int) :=
          zpow_le_zpow_right₀ (by norm_num) (by omega)
        have h3 : (m' : ℚ) ≤ 2 ^ 53 := by
          have : ((|m'| : Int) : ℚ) ≤ ((2 ^ 53 : Int) : ℚ) := by exact_mod_cast hm'
          have h4 : |(m' : ℚ)| ≤ 2 ^ 53 := by simpa using this
          exact (le_abs_self _).trans h4
        have h5 : (0 : ℚ) < (2 : ℚ) ^ (f - e) := by positivity
        rw [h1]
        by_cases hneg : (m' : ℚ) ≤ 0
        · have : (m' : ℚ) * (2 : ℚ) ^ (f - e) ≤ 0 := mul_nonpos_of_nonpos_of_nonneg hneg h5.le
          linarith [show (0 : ℚ) ≤ 2 ^ 52 by positivity]
        · calc (m' : ℚ) * (2 : ℚ) ^ (f - e) ≤ 2 ^ 53 * (2 : ℚ) ^ (-1 : Int) := by
                apply mul_le_mul h3 h2 h5.le (by positivity)
            _ = 2 ^ 52 := by norm_num
      obtain ⟨k1, k2⟩ := int_nearest s m (2 ^ 52) hr'
      have h52 : |s - ((2 ^ 52 : Int) : ℚ)| = s - 2 ^ 52 := by
        have : ((2 ^ 52 : Int) : ℚ) = 2 ^ 52 := by norm_num
        rw [this]
        exact abs_of_nonneg (by linarith)
      have hmm : |s - ((m : Int) : ℚ)| = |s - (m : ℚ)| := by simp
      rw [h52, hmm] at k1 k2
      have habs : |s - (m' : ℚ) * (2 : ℚ) ^ f / P| = s - (m' : ℚ) * (2 : ℚ) ^ f / P :=
        abs_of_nonneg (by linarith)
      refine ⟨by rw [habs]; linarith, fun hzne heq => ?_⟩
      rw [habs] at heq
      have hz2 : (m' : ℚ) * (2 : ℚ) ^ f / P = 2 ^ 52 := by linarith
      have hm52 : (m : Int) ≠ 2 ^ 52 := by
        intro h
        apply hzne
        have h2 : ((m : Int) : ℚ) = (2 : ℚ) ^ 52 := by rw [h]; norm_num
        have h3 : (m : ℚ) = (2 : ℚ) ^ 52 := by simpa using h2
        rw [h3, ← hz2]
        field_simp
      exact k2 (fun h => hm52 h.symm) (by linarith)
  refine ⟨⟨m, e, ?_, he1, he2, by simp⟩, fun z hz => ?_, fun z hz hne heq => ?_⟩
  · have : |(m : Int)| = (m : Int) := abs_of_nonneg (by positivity)
    rw [this]
    exact_mod_cast hm
  · rw [hscale, hscale, hmP]
    exact mul_le_mul_of_nonneg_left (key z hz).1 hP.le
  · rw [hscale, hscale, hmP] at heq
    have heq' : |s - z / P| = |s - m| := by
      have := mul_left_cancel₀ (ne_of_gt hP) heq
      exact this
    have hhalf := (key z hz).2 hne heq'
    have hev : Even m := ht hhalf
    refine ⟨m, e, by exact_mod_cast hev, ?_, ?_, he1, he2, by simp⟩
    · have : |(m : Int)| = (m : Int) := abs_of_nonneg (by positivity)
      rw [this]
      exact_mod_cast hm
    · by_cases h74 : e = -1074
      · exact Or.inr h74
      · left
        have hs52 : (2 : ℚ) ^ 52 ≤ s := hn h74
        have hlow : s - 1 / 2 ≤ m := by
          have := abs_le.mp hr
          linarith [this.2]
        have : |(m : Int)| = (m : Int) := abs_of_nonneg (by positivity)
        rw [this]
        by_contra hlt
        have hlt' : (m : Int) + 1 ≤ 2 ^ 52 := by omega
        have hq : ((m : Int) : ℚ) + 1 ≤ 2 ^ 52 := by exact_mod_cast hlt'
        have hq' : (m : ℚ) + 1 ≤ 2 ^ 52 := by simpa using hq
        linarith

theorem ofDyadic_toRat (m : Nat) (e : Int) :
    (Decimal.ofDyadic m e).toRat = m * (2 : ℚ) ^ e := by
  unfold Decimal.ofDyadic
  by_cases h0 : m = 0
  · rw [if_pos h0, h0]
    simp [Decimal.toRat]
  · rw [if_neg h0]
    by_cases h : 0 ≤ e
    · rw [if_pos h, two_zpow_nonneg e h, Nat.shiftLeft_eq]
      simp [Decimal.toRat]
    · rw [if_neg h, normalizeDecimal_toRat, two_zpow_neg e (by omega)]
      have h10 : (10 : ℚ) ^ (-e).toNat = 2 ^ (-e).toNat * 5 ^ (-e).toNat := by
        rw [← mul_pow]; norm_num
      rw [h10]
      push_cast
      field_simp
      ring

/-- The Number value that the model computes for `n / d` is the one that
ECMA-262 defines. -/
theorem numberValue_spec (n d : Nat) (hd : 0 < d) :
    IsNumberValueFor ((n : ℚ) / d) (numberValue n d) := by
  unfold numberValue
  by_cases hn0 : n = 0
  · rw [if_pos hn0, hn0]
    have h0 : (Decimal.mk 0 0).toRat = 0 := by simp [Decimal.toRat]
    simp only [IsNumberValueFor, h0, Nat.cast_zero, zero_div]
    refine ⟨by simp, ⟨0, 0, by simp, by omega, by omega, by simp⟩, fun z _ => ?_,
      fun z _ hne heq => ?_⟩
    · simp
    · simp only [sub_self, abs_zero, zero_sub, abs_neg, abs_eq_zero] at heq
      exact absurd heq hne
  · rw [if_neg hn0]
    have hn : 0 < n := Nat.pos_of_ne_zero hn0
    obtain ⟨hL1, hL2⟩ := floorLog2_spec n d hn hd
    set L := floorLog2 n d with hLdef
    set x : ℚ := (n : ℚ) / d with hx
    set e : Int := max (-1074) (L - 52) with he
    have he1 : -1074 ≤ e := le_max_left _ _
    have he3 : L - 52 ≤ e := le_max_right _ _
    have he4 : e ≠ -1074 → e = L - 52 := by
      intro h
      rcases max_choice (-1074 : Int) (L - 52) with h' | h'
      · exact absurd (he.trans h') h
      · exact he.trans h'
    have hP : (0 : ℚ) < (2 : ℚ) ^ e := by positivity
    have hm_eq : (if 0 ≤ e then roundHalfEven n (d <<< e.toNat)
        else roundHalfEven (n <<< (-e).toNat) d) =
        roundHalfEven (if 0 ≤ e then n else n <<< (-e).toNat)
          (if 0 ≤ e then d <<< e.toNat else d) := by
      split_ifs <;> rfl
    have hden : 0 < (if 0 ≤ e then d <<< e.toNat else d) := by
      split_ifs
      · rw [Nat.shiftLeft_eq]; positivity
      · exact hd
    obtain ⟨hr, ht⟩ := roundHalfEven_spec (if 0 ≤ e then n else n <<< (-e).toNat)
      (if 0 ≤ e then d <<< e.toNat else d) hden
    rw [scaled_eq n d e hd] at hr ht
    simp only [hm_eq]
    set m := roundHalfEven (if 0 ≤ e then n else n <<< (-e).toNat)
      (if 0 ≤ e then d <<< e.toNat else d) with hm
    have hs53 : x / (2 : ℚ) ^ e < 2 ^ 53 := by
      rw [div_lt_iff₀ hP]
      calc x < (2 : ℚ) ^ (L + 1) := hL2
        _ ≤ (2 : ℚ) ^ (e + 53) := zpow_le_zpow_right₀ (by norm_num) (by omega)
        _ = 2 ^ 53 * (2 : ℚ) ^ e := by
          rw [zpow_add₀ (by norm_num : (2 : ℚ) ≠ 0)]
          norm_num [mul_comm]
    have hm53 : m ≤ 2 ^ 53 := by
      by_contra hlt
      have h1 : 2 ^ 53 + 1 ≤ m := by omega
      have h2 : ((2 ^ 53 + 1 : Nat) : ℚ) ≤ m := by exact_mod_cast h1
      have h3 := (abs_le.mp hr).1
      push_cast at h2
      linarith
    have hnorm : e ≠ -1074 → 2 ^ 52 ≤ x / (2 : ℚ) ^ e := by
      intro h
      rw [le_div_iff₀ hP]
      calc (2 : ℚ) ^ 52 * (2 : ℚ) ^ e = (2 : ℚ) ^ L := by
            rw [he4 h, show L = (L - 52) + 52 by omega,
              zpow_add₀ (by norm_num : (2 : ℚ) ≠ 0)]
            simp only [add_sub_cancel_right]
            norm_num [mul_comm]
        _ ≤ x := hL1
    by_cases hbig : 971 < e
    · rw [if_pos (Or.inl hbig)]
      simp only [IsNumberValueFor, Bool.false_eq_true, if_false]
      have hx1024 : (2 : ℚ) ^ 1024 ≤ x := by
        have : e = L - 52 := he4 (by omega)
        calc (2 : ℚ) ^ 1024 = (2 : ℚ) ^ (1024 : Int) := by norm_num
          _ ≤ (2 : ℚ) ^ L := zpow_le_zpow_right₀ (by norm_num) (by omega)
          _ ≤ x := hL1
      refine ⟨⟨2 ^ 53, 971, by norm_num, by omega, by omega, by norm_num⟩, fun z hz => ?_,
        fun z hz hne heq => ?_⟩
      · have hz' := (le_abs_self z).trans (candidate_abs_le z hz)
        rw [abs_of_nonneg (by linarith), abs_of_nonneg (by linarith)]
        linarith
      · have hz' := (le_abs_self z).trans (candidate_abs_le z hz)
        rw [abs_of_nonneg (by linarith), abs_of_nonneg (by linarith)] at heq
        exact absurd (by linarith) hne
    · have he2 : e ≤ 971 := by omega
      have hclosest := closest_of_rounded x e m he1 he2 hm53 hr ht hnorm
      by_cases hover : e = 971 ∧ 2 ^ 53 ≤ m
      · rw [if_pos (Or.inr hover)]
        simp only [IsNumberValueFor, Bool.false_eq_true, if_false]
        have hm' : m = 2 ^ 53 := le_antisymm hm53 hover.2
        rw [hm', hover.1] at hclosest
        have : ((2 ^ 53 : Nat) : ℚ) * (2 : ℚ) ^ (971 : Int) = 2 ^ 1024 := by norm_num
        rw [this] at hclosest
        exact hclosest
      · rw [if_neg (by rintro (h | h); exacts [hbig h, hover h])]
        simp only [IsNumberValueFor, ofDyadic_toRat]
        refine ⟨?_, hclosest⟩
        rw [abs_of_nonneg (by positivity)]
        by_cases h971 : e = 971
        · have hm' : m < 2 ^ 53 := by
            by_contra h
            exact hover ⟨h971, by omega⟩
          have hq : (m : ℚ) < 2 ^ 53 := by exact_mod_cast hm'
          rw [h971]
          calc (m : ℚ) * (2 : ℚ) ^ (971 : Int) < 2 ^ 53 * (2 : ℚ) ^ (971 : Int) := by
                apply mul_lt_mul_of_pos_right hq (by positivity)
            _ = 2 ^ 1024 := by norm_num
        · have hq : (m : ℚ) ≤ 2 ^ 53 := by exact_mod_cast hm53
          calc (m : ℚ) * (2 : ℚ) ^ e ≤ 2 ^ 53 * (2 : ℚ) ^ (970 : Int) := by
                apply mul_le_mul hq (zpow_le_zpow_right₀ (by norm_num) (by omega))
                  hP.le (by positivity)
            _ < 2 ^ 1024 := by norm_num

theorem candidate_neg (z : ℚ) (h : IsNumberCandidate z) : IsNumberCandidate (-z) := by
  obtain ⟨m, e, hm, h1, h2, rfl⟩ := h
  exact ⟨-m, e, by rwa [abs_neg], h1, h2, by push_cast; ring⟩

theorem closest_neg (x y : ℚ) (h : IsClosestNumber x y) : IsClosestNumber (-x) (-y) := by
  obtain ⟨h1, h2, h3⟩ := h
  have hxy : |(-x) - (-y)| = |x - y| := by rw [neg_sub_neg, abs_sub_comm]
  have hxz : ∀ z : ℚ, |(-x) - z| = |x - (-z)| := by
    intro z
    rw [show (-x) - z = -(x - (-z)) by ring, abs_neg]
  refine ⟨candidate_neg y h1, fun z hz => ?_, fun z hz hne heq => ?_⟩
  · rw [hxy, hxz]
    exact h2 (-z) (candidate_neg z hz)
  · rw [hxy, hxz] at heq
    obtain ⟨m, e, g1, g2, g3, g4, g5, g6⟩ :=
      h3 (-z) (candidate_neg z hz) (fun h => hne (by rw [← h, neg_neg])) heq
    exact ⟨-m, e, g1.neg, by rwa [abs_neg], by rwa [abs_neg], g4, g5,
      by rw [g6]; push_cast; ring⟩

/-- The Number value for the opposite of `x` is the opposite Number. -/
theorem IsNumberValueFor_neg (x : ℚ) (r : JSNumber) (h : IsNumberValueFor x r) :
    IsNumberValueFor (-x) r.neg := by
  cases r with
  | nan => exact h
  | infinity b =>
    cases b
    · simpa [IsNumberValueFor, JSNumber.neg] using closest_neg _ _ h
    · have := closest_neg _ _ h
      simpa [IsNumberValueFor, JSNumber.neg] using this
  | finite d =>
    obtain ⟨h1, h2⟩ := h
    simp only [IsNumberValueFor, JSNumber.neg, toRat_neg, abs_neg]
    exact ⟨h1, closest_neg _ _ h2⟩

/-- The Number that the model gives `digits / 10 ^ scale` is its Number value as
ECMA-262 defines it. -/
theorem ofDecimal_spec (digits : Int) (scale : Nat) :
    IsNumberValueFor ((digits : ℚ) / 10 ^ scale) (JSNumber.ofDecimal digits scale) := by
  have h := numberValue_spec digits.natAbs (10 ^ scale) (by positivity)
  have hc : ((10 ^ scale : Nat) : ℚ) = 10 ^ scale := by push_cast; rfl
  rw [hc] at h
  unfold JSNumber.ofDecimal
  by_cases hneg : digits < 0
  · rw [if_pos hneg]
    have hd : (digits : ℚ) = -((digits.natAbs : Nat) : ℚ) := by
      rw [Nat.cast_natAbs, abs_of_neg hneg]
      push_cast
      ring
    rw [hd, neg_div]
    exact IsNumberValueFor_neg _ _ h
  · rw [if_neg hneg]
    have hd : (digits : ℚ) = ((digits.natAbs : Nat) : ℚ) := by
      rw [Nat.cast_natAbs, abs_of_nonneg (by omega)]
    rw [hd]
    exact h

/-- The Number value for a number that is a finite value of the Number type is
that number. -/
theorem numberValue_exact (x : ℚ) (r : JSNumber) (h : IsNumberValueFor x r)
    (hx : IsNumberCandidate x) (hlt : |x| < 2 ^ 1024) :
    ∃ d, r = .finite d ∧ d.toRat = x := by
  have hzero : ∀ y, IsClosestNumber x y → y = x := by
    intro y hy
    have := hy.2.1 x hx
    rw [sub_self, abs_zero] at this
    have h0 : |x - y| = 0 := le_antisymm this (abs_nonneg _)
    rw [abs_eq_zero] at h0
    linarith
  cases r with
  | nan => exact absurd h id
  | infinity b =>
    have := hzero _ h
    cases b
    · simp only [Bool.false_eq_true, if_false] at this
      rw [← this, abs_of_pos (by positivity)] at hlt
      exact absurd hlt (lt_irrefl _)
    · simp only [if_true] at this
      rw [← this, abs_neg, abs_of_pos (by positivity)] at hlt
      exact absurd hlt (lt_irrefl _)
  | finite d => exact ⟨d, rfl, hzero _ h.2⟩

/-! ## The value of a decimal literal -/

/-- The unary `+` on a decimal literal with a fraction yields the Number value
for the number that the literal denotes. -/
theorem StringToNumber_decimalText (negative : Bool) (wi i wf f : Nat) (hwi : 0 < wi)
    (hi : i < 10 ^ wi) (hf : f < 10 ^ wf) :
    IsNumberValueFor ((if negative then -1 else 1) * ((i : ℚ) + (f : ℚ) / 10 ^ wf))
      (StringToNumber (decimalText negative wi i wf f)) := by
  have hplain : ∀ c ∈ padDigits wi i ++ '.' :: padDigits wf f,
      (∃ d, d < 10 ∧ c = digitChar d) ∨ c = '.' := mem_decimal_chars wi i wf f
  have hws : ∀ c ∈ padDigits wi i ++ '.' :: padDigits wf f, isStrWhiteSpace c = false := by
    intro c hc
    rcases hplain c hc with ⟨d, hd, rfl⟩ | rfl
    · exact (digitChar_plain d hd).1
    · decide
  have hne : padDigits wi i ++ '.' :: padDigits wf f ≠ [] := by simp
  obtain ⟨h1, h2⟩ := strNumericLiteral_of_plain _ hplain
  have hval := strUnsignedDecimalLiteral_decimal wi i wf f hwi hi hf
  have hspec := ofDecimal_spec ((i * 10 ^ wf + f : Nat) : Int) wf
  have hrat : (((i * 10 ^ wf + f : Nat) : Int) : ℚ) / 10 ^ wf =
      (i : ℚ) + (f : ℚ) / 10 ^ wf := by
    push_cast
    field_simp
  rw [hrat] at hspec
  cases negative with
  | false =>
    have hS : StringToNumber (decimalText false wi i wf f) =
        JSNumber.ofDecimal ((i * 10 ^ wf + f : Nat) : Int) wf := by
      unfold StringToNumber decimalText
      simp only [Bool.false_eq_true, if_false, List.nil_append]
      rw [trimWhiteSpace_of_plain _ hne hws, if_neg hne, h1, hval]
      rfl
    rw [hS]
    simpa using hspec
  | true =>
    have hS : StringToNumber (decimalText true wi i wf f) =
        (JSNumber.ofDecimal ((i * 10 ^ wf + f : Nat) : Int) wf).neg := by
      unfold StringToNumber decimalText
      simp only [if_true, List.singleton_append, List.cons_append, List.nil_append]
      rw [trimWhiteSpace_of_plain _ (by simp) (by
        intro c hc
        rcases List.mem_cons.mp hc with rfl | hc
        · decide
        · exact hws c hc), if_neg (by simp), h2, hval]
      rfl
    rw [hS]
    have := IsNumberValueFor_neg _ _ hspec
    simpa using this

/-- The unary `+` on a decimal literal without fraction yields the Number value
for the integer that the literal denotes. -/
theorem StringToNumber_integerText (negative : Bool) (wi i : Nat) (hwi : 0 < wi)
    (hi : i < 10 ^ wi) :
    IsNumberValueFor ((if negative then -1 else 1) * (i : ℚ))
      (StringToNumber (integerText negative wi i)) := by
  have hplain : ∀ c ∈ padDigits wi i, (∃ d, d < 10 ∧ c = digitChar d) ∨ c = '.' :=
    fun c hc => Or.inl (mem_padDigits _ _ c hc)
  have hws : ∀ c ∈ padDigits wi i, isStrWhiteSpace c = false := by
    intro c hc
    obtain ⟨d, hd, rfl⟩ := mem_padDigits _ _ c hc
    exact (digitChar_plain d hd).1
  have hne : padDigits wi i ≠ [] := padDigits_ne_nil wi i hwi
  obtain ⟨h1, h2⟩ := strNumericLiteral_of_plain _ hplain
  have hval := strUnsignedDecimalLiteral_integer wi i hwi hi
  have hspec := ofDecimal_spec (i : Int) 0
  have hrat : ((i : Int) : ℚ) / 10 ^ 0 = (i : ℚ) := by simp
  rw [hrat] at hspec
  cases negative with
  | false =>
    have hS : StringToNumber (integerText false wi i) = JSNumber.ofDecimal (i : Int) 0 := by
      unfold StringToNumber integerText
      simp only [Bool.false_eq_true, if_false, List.nil_append]
      rw [trimWhiteSpace_of_plain _ hne hws, if_neg hne, h1, hval]
      rfl
    rw [hS]
    simpa using hspec
  | true =>
    have hS : StringToNumber (integerText true wi i) =
        (JSNumber.ofDecimal (i : Int) 0).neg := by
      unfold StringToNumber integerText
      simp only [if_true, List.singleton_append, List.cons_append, List.nil_append]
      rw [trimWhiteSpace_of_plain _ (by simp) (by
        intro c hc
        rcases List.mem_cons.mp hc with rfl | hc
        · decide
        · exact hws c hc), if_neg (by simp), h2, hval]
      rfl
    rw [hS]
    have := IsNumberValueFor_neg _ _ hspec
    simpa using this

/-! ## The texts that are number literals -/

theorem digitsValue_some (cs : List Char) : ∀ n, digitsValue cs = some n →
    ∀ c ∈ cs, c.isDigit = true := by
  induction cs using List.reverseRecOn with
  | nil => intro n _ c hc; simp at hc
  | append_singleton l a ih =>
    intro n h c hc
    rw [digitsValue_append_singleton] at h
    cases hl : digitsValue l with
    | none => rw [hl] at h; simp at h
    | some m =>
      rw [hl, Option.some_bind] at h
      have ha : a.isDigit = true := by
        by_contra hn
        rw [if_neg hn] at h
        exact Option.noConfusion h
      rcases List.mem_append.mp hc with hc | hc
      · exact ih m hl c hc
      · rw [List.mem_singleton.mp hc]
        exact ha

theorem digitsValue_of_digits (cs : List Char) (h : ∀ c ∈ cs, c.isDigit = true) :
    ∃ n, digitsValue cs = some n := by
  induction cs using List.reverseRecOn with
  | nil => exact ⟨0, rfl⟩
  | append_singleton l a ih =>
    obtain ⟨m, hm⟩ := ih fun c hc => h c (List.mem_append.mpr (Or.inl hc))
    have ha : a.isDigit = true := h a (by simp)
    exact ⟨_, by rw [digitsValue_append_singleton, hm, Option.some_bind, if_pos ha]⟩

theorem decimalDigits_iff (cs : List Char) :
    (∃ n, decimalDigits cs = some n) ↔ IsDecimalDigits cs := by
  unfold decimalDigits IsDecimalDigits
  constructor
  · rintro ⟨n, h⟩
    by_cases hne : cs = []
    · rw [if_pos hne] at h
      exact Option.noConfusion h
    · rw [if_neg hne] at h
      exact ⟨hne, digitsValue_some cs n h⟩
  · rintro ⟨hne, h⟩
    rw [if_neg hne]
    exact digitsValue_of_digits cs h

theorem eq_cons_of_take_one (cs : List Char) (c : Char) (h : cs.take 1 = [c]) :
    cs = c :: cs.drop 1 := by
  cases cs with
  | nil => simp at h
  | cons a r =>
    simp only [List.take_succ_cons, List.take_zero, List.cons.injEq, and_true] at h
    simp [h]

theorem eq_cons_of_take_two (cs : List Char) (a b : Char) (h : cs.take 2 = [a, b]) :
    cs = a :: b :: cs.drop 2 := by
  match cs, h with
  | [], h => simp at h
  | [x], h => simp at h
  | x :: y :: r, h =>
    simp only [List.take_succ_cons, List.take_zero, List.cons.injEq, and_true] at h
    simp [h.1, h.2]

theorem head_of_decimalDigits (d : List Char) (h : IsDecimalDigits d) :
    ∃ c r, d = c :: r ∧ c.isDigit = true := by
  obtain ⟨hne, hd⟩ := h
  cases d with
  | nil => exact absurd rfl hne
  | cons c r => exact ⟨c, r, rfl, hd c (by simp)⟩

theorem signedInteger_iff (cs : List Char) :
    (∃ x, signedInteger cs = some x) ↔ IsSignedInteger cs := by
  unfold signedInteger IsSignedInteger
  constructor
  · rintro ⟨x, h⟩
    split_ifs at h with h1 h2
    · obtain ⟨n, hn⟩ : ∃ n, decimalDigits (cs.drop 1) = some n := by
        cases hd : decimalDigits (cs.drop 1) with
        | none => rw [hd] at h; simp at h
        | some n => exact ⟨n, rfl⟩
      exact ⟨_, (decimalDigits_iff _).mp ⟨n, hn⟩, Or.inr (Or.inl (eq_cons_of_take_one _ _ h1))⟩
    · obtain ⟨n, hn⟩ : ∃ n, decimalDigits (cs.drop 1) = some n := by
        cases hd : decimalDigits (cs.drop 1) with
        | none => rw [hd] at h; simp at h
        | some n => exact ⟨n, rfl⟩
      exact ⟨_, (decimalDigits_iff _).mp ⟨n, hn⟩, Or.inr (Or.inr (eq_cons_of_take_one _ _ h2))⟩
    · obtain ⟨n, hn⟩ : ∃ n, decimalDigits cs = some n := by
        cases hd : decimalDigits cs with
        | none => rw [hd] at h; simp at h
        | some n => exact ⟨n, rfl⟩
      exact ⟨_, (decimalDigits_iff _).mp ⟨n, hn⟩, Or.inl rfl⟩
  · rintro ⟨d, hd, rfl | rfl | rfl⟩
    · obtain ⟨c, r, rfl, hc⟩ := head_of_decimalDigits _ hd
      obtain ⟨n, hn⟩ := (decimalDigits_iff _).mpr hd
      have h1 : c ≠ '+' := fun e => by rw [e] at hc; exact absurd hc (by decide)
      have h2 : c ≠ '-' := fun e => by rw [e] at hc; exact absurd hc (by decide)
      rw [if_neg (by simp [h1]), if_neg (by simp [h2]), hn]
      exact ⟨_, rfl⟩
    · obtain ⟨n, hn⟩ := (decimalDigits_iff _).mpr hd
      rw [if_pos (by simp)]
      simp only [List.drop_succ_cons, List.drop_zero, hn]
      exact ⟨_, rfl⟩
    · obtain ⟨n, hn⟩ := (decimalDigits_iff _).mpr hd
      rw [if_neg (by simp), if_pos (by simp)]
      simp only [List.drop_succ_cons, List.drop_zero, hn]
      exact ⟨_, rfl⟩

theorem isExponentIndicator_iff (c : Char) :
    isExponentIndicator c = true ↔ c = 'e' ∨ c = 'E' := by
  simp [isExponentIndicator]

theorem exponentPart_iff (e : List Char)
    (he : e = [] ∨ ∃ c r, e = c :: r ∧ isExponentIndicator c = true) :
    (∃ x, exponentPart e = some x) ↔ (e = [] ∨ IsExponentPart e) := by
  unfold exponentPart IsExponentPart
  rcases he with rfl | ⟨c, r, rfl, hc⟩
  · simp
  · rw [if_neg (by simp)]
    simp only [List.tail_cons, signedInteger_iff, List.cons.injEq, false_or, reduceCtorEq]
    rcases (isExponentIndicator_iff c).mp hc with rfl | rfl
    · constructor
      · intro h
        exact ⟨r, h, Or.inl ⟨rfl, rfl⟩⟩
      · rintro ⟨n, hn, ⟨-, rfl⟩ | ⟨h, -⟩⟩
        · exact hn
        · exact absurd h (by decide)
    · constructor
      · intro h
        exact ⟨r, h, Or.inr ⟨rfl, rfl⟩⟩
      · rintro ⟨n, hn, ⟨h, -⟩ | ⟨-, rfl⟩⟩
        · exact absurd h (by decide)
        · exact hn

/-- What follows the characters that a `dropWhile` drops starts with one that
fails the test. -/
theorem dropWhile_cases (p : Char → Bool) (cs : List Char) :
    cs.dropWhile p = [] ∨ ∃ c r, cs.dropWhile p = c :: r ∧ p c = false := by
  cases h : cs.dropWhile p with
  | nil => exact Or.inl rfl
  | cons c r =>
    have := List.head_dropWhile_not p cs (by rw [h]; simp)
    simp only [h, List.head_cons] at this
    exact Or.inr ⟨c, r, rfl, this⟩

theorem digit_plain (c : Char) (h : c.isDigit = true) :
    (!isExponentIndicator c) = true ∧ decide (c ≠ '.') = true ∧ c ≠ 'I' ∧ c ≠ '+' ∧ c ≠ '-'
    ∧ c ∉ ['x', 'X', 'o', 'O', 'b', 'B'] := by
  refine ⟨?_, ?_, ?_, ?_, ?_, ?_⟩
  · cases he : isExponentIndicator c with
    | false => rfl
    | true =>
      rcases (isExponentIndicator_iff c).mp he with rfl | rfl <;> exact absurd h (by decide)
  · simp only [decide_eq_true_eq]
    rintro rfl
    exact absurd h (by decide)
  · rintro rfl
    exact absurd h (by decide)
  · rintro rfl
    exact absurd h (by decide)
  · rintro rfl
    exact absurd h (by decide)
  · intro hm
    simp only [List.mem_cons, List.mem_singleton, List.not_mem_nil, or_false] at hm
    rcases hm with rfl | rfl | rfl | rfl | rfl | rfl <;> exact absurd h (by decide)

/-- The reading of an unsigned decimal literal accepts the texts of the grammar
and rejects every other text: soundness. -/
theorem strUnsignedDecimalLiteral_sound (cs : List Char) (v : JSNumber)
    (h : strUnsignedDecimalLiteral cs = some v) : IsStrUnsignedDecimalLiteral cs := by
  by_cases hinf : cs = "Infinity".data
  · exact Or.inl hinf
  · right
    have hcs := List.takeWhile_append_dropWhile (fun c => !isExponentIndicator c) cs
    have he := dropWhile_cases (fun c => !isExponentIndicator c) cs
    have hm := List.takeWhile_append_dropWhile (fun c => decide (c ≠ '.'))
      (cs.takeWhile fun c => !isExponentIndicator c)
    have hr := dropWhile_cases (fun c => decide (c ≠ '.'))
      (cs.takeWhile fun c => !isExponentIndicator c)
    unfold strUnsignedDecimalLiteral at h
    rw [if_neg hinf] at h
    simp only [] at h
    generalize cs.dropWhile (fun c => !isExponentIndicator c) = e at h hcs he
    generalize (cs.takeWhile fun c => !isExponentIndicator c).dropWhile
      (fun c => decide (c ≠ '.')) = rest at h hm hr
    generalize (cs.takeWhile fun c => !isExponentIndicator c).takeWhile
      (fun c => decide (c ≠ '.')) = i at h hm
    generalize cs.takeWhile (fun c => !isExponentIndicator c) = m at hcs hm
    by_cases hnil : i = [] ∧ rest.tail = []
    · rw [if_pos hnil] at h
      exact Option.noConfusion h
    · rw [if_neg hnil] at h
      cases hi : digitsValue i with
      | none => rw [hi] at h; simp at h
      | some n =>
        cases hf : digitsValue rest.tail with
        | none => rw [hi, hf] at h; simp at h
        | some k =>
          cases hx : exponentPart e with
          | none => rw [hi, hf, hx] at h; simp at h
          | some x =>
            have hexp : e = [] ∨ IsExponentPart e := by
              refine (exponentPart_iff e ?_).mp ⟨x, hx⟩
              rcases he with he | ⟨c, r, he, hc⟩
              · exact Or.inl he
              · exact Or.inr ⟨c, r, he, by simpa using hc⟩
            have hid := digitsValue_some i n hi
            have hfd := digitsValue_some rest.tail k hf
            refine ⟨e, hexp, ?_⟩
            rcases hr with hr | ⟨c, f, hr, hc⟩
            · have hine : i ≠ [] := fun hi0 => hnil ⟨hi0, by rw [hr]; rfl⟩
              refine Or.inr (Or.inr ⟨i, ⟨hine, hid⟩, ?_⟩)
              rw [← hcs, ← hm, hr, List.append_nil]
            · have hdot : c = '.' := by simpa using hc
              rw [hr, List.tail_cons] at hfd hnil
              by_cases hi0 : i = []
              · have hfne : f ≠ [] := fun hf0 => hnil ⟨hi0, hf0⟩
                refine Or.inr (Or.inl ⟨f, ⟨hfne, hfd⟩, ?_⟩)
                rw [← hcs, ← hm, hr, hi0, hdot]
                rfl
              · refine Or.inl ⟨i, f, ⟨hi0, hid⟩, ?_, ?_⟩
                · by_cases hf0 : f = []
                  · exact Or.inl hf0
                  · exact Or.inr ⟨hf0, hfd⟩
                · rw [← hcs, ← hm, hr, hdot]

/-- Digits `i`, then a point and digits `f` (or nothing, `f` being empty), then
an optional exponent part `x`, are read as a number when there is a digit. -/
theorem strUnsignedDecimalLiteral_of_parts (i f x : List Char) (point : Bool)
    (hi : ∀ c ∈ i, c.isDigit = true) (hf : ∀ c ∈ f, c.isDigit = true)
    (hx : x = [] ∨ IsExponentPart x) (hne : ¬ (i = [] ∧ f = []))
    (hp : point = false → f = []) :
    ∃ v, strUnsignedDecimalLiteral (i ++ (if point then '.' :: f else []) ++ x) = some v := by
  have hx' : x = [] ∨ ∃ c r, x = c :: r ∧ isExponentIndicator c = true := by
    rcases hx with hx | ⟨n, -, rfl | rfl⟩
    · exact Or.inl hx
    · exact Or.inr ⟨_, _, rfl, by decide⟩
    · exact Or.inr ⟨_, _, rfl, by decide⟩
  have hA : ∀ c ∈ i ++ (if point then '.' :: f else []), (!isExponentIndicator c) = true := by
    intro c hc
    rcases List.mem_append.mp hc with hc | hc
    · exact (digit_plain c (hi c hc)).1
    · cases point with
      | false => simp at hc
      | true =>
        simp only [if_true, List.mem_cons] at hc
        rcases hc with rfl | hc
        · decide
        · exact (digit_plain c (hf c hc)).1
  have hxt : x.takeWhile (fun c => !isExponentIndicator c) = [] := by
    rcases hx' with rfl | ⟨c, r, rfl, hc⟩
    · rfl
    · rw [List.takeWhile_cons_of_neg (by simp [hc])]
  have hxd : x.dropWhile (fun c => !isExponentIndicator c) = x := by
    rcases hx' with rfl | ⟨c, r, rfl, hc⟩
    · rfl
    · rw [List.dropWhile_cons_of_neg (by simp [hc])]
  have hm : (i ++ (if point then '.' :: f else []) ++ x).takeWhile
      (fun c => !isExponentIndicator c) = i ++ (if point then '.' :: f else []) := by
    rw [List.takeWhile_append_of_pos hA, hxt, List.append_nil]
  have he : (i ++ (if point then '.' :: f else []) ++ x).dropWhile
      (fun c => !isExponentIndicator c) = x := by
    rw [List.dropWhile_append_of_pos hA, hxd]
  have hq : ∀ c ∈ i, decide (c ≠ '.') = true := fun c hc => (digit_plain c (hi c hc)).2.1
  have hint : (i ++ (if point then '.' :: f else [])).takeWhile (fun c => decide (c ≠ '.'))
      = i := by
    rw [List.takeWhile_append_of_pos hq]
    cases point <;> simp
  have hfrac : ((i ++ (if point then '.' :: f else [])).dropWhile
      (fun c => decide (c ≠ '.'))).tail = f := by
    rw [List.dropWhile_append_of_pos hq]
    cases point with
    | false => simp [hp rfl]
    | true => simp
  have hinf : i ++ (if point then '.' :: f else []) ++ x ≠ "Infinity".data := by
    intro e
    have h1 : ('I' : Char) ∈ (i ++ (if point then '.' :: f else []) ++ x).takeWhile
        (fun c => !isExponentIndicator c) := by
      rw [e]
      decide
    rw [hm] at h1
    rcases List.mem_append.mp h1 with hc | hc
    · exact (digit_plain _ (hi _ hc)).2.2.1 rfl
    · cases point with
      | false => simp at hc
      | true =>
        simp only [if_true, List.mem_cons] at hc
        rcases hc with hc | hc
        · exact absurd hc (by decide)
        · exact (digit_plain _ (hf _ hc)).2.2.1 rfl
  obtain ⟨n, hn⟩ := digitsValue_of_digits i hi
  obtain ⟨k, hk⟩ := digitsValue_of_digits f hf
  obtain ⟨y, hy⟩ := (exponentPart_iff x hx').mpr hx
  unfold strUnsignedDecimalLiteral
  rw [if_neg hinf]
  simp only [hm, he, hint, hfrac]
  rw [if_neg hne, hn, hk, hy]
  exact ⟨_, rfl⟩

/-- The reading of an unsigned decimal literal accepts exactly the texts of the
grammar `StrUnsignedDecimalLiteral`. -/
theorem strUnsignedDecimalLiteral_iff (cs : List Char) :
    (∃ v, strUnsignedDecimalLiteral cs = some v) ↔ IsStrUnsignedDecimalLiteral cs := by
  constructor
  · rintro ⟨v, h⟩
    exact strUnsignedDecimalLiteral_sound cs v h
  · rintro (h | ⟨x, hx, h⟩)
    · rw [h]
      exact ⟨_, rfl⟩
    · rcases h with ⟨i, f, hi, hf, rfl⟩ | ⟨f, hf, rfl⟩ | ⟨i, hi, rfl⟩
      · have := strUnsignedDecimalLiteral_of_parts i f x true hi.2
          (by rcases hf with rfl | hf
              · simp
              · exact hf.2) hx (fun h => hi.1 h.1) (by simp)
        simpa using this
      · have := strUnsignedDecimalLiteral_of_parts [] f x true (by simp) hf.2 hx
          (fun h => hf.1 h.2) (by simp)
        simpa using this
      · have := strUnsignedDecimalLiteral_of_parts i [] x false hi.2 (by simp) hx
          (fun h => hi.1 h.1) (by simp)
        simpa using this

theorem digitIndex_mem_take (c : Char) (l : List Char) : ∀ (k n : Nat),
    digitIndex c l = some k → k < n → c ∈ l.take n := by
  induction l with
  | nil => intro k n h; simp [digitIndex] at h
  | cons x xs ih =>
    intro k n h hk
    obtain ⟨n', rfl⟩ : ∃ n', n = n' + 1 := ⟨n - 1, by omega⟩
    unfold digitIndex at h
    by_cases hcx : c = x
    · simp [hcx]
    · rw [if_neg hcx] at h
      cases hd : digitIndex c xs with
      | none => rw [hd] at h; simp at h
      | some j =>
        rw [hd] at h
        simp only [Option.map_some', Option.some.injEq] at h
        rw [List.take_succ_cons]
        exact List.mem_cons_of_mem _ (ih j n' hd (by omega))

theorem digitOfBase_some (base : Nat) (c : Char) (k : Nat) (h : digitOfBase base c = some k) :
    IsDigitOfBase base c := by
  unfold digitOfBase at h
  cases hl : digitIndex c "0123456789abcdef".data with
  | some d =>
    rw [hl] at h
    simp only [Option.orElse, Option.some_bind] at h
    by_cases hd : d < base
    · exact Or.inl (digitIndex_mem_take c _ d base hl hd)
    · rw [if_neg hd] at h
      exact Option.noConfusion h
  | none =>
    rw [hl] at h
    simp only [Option.orElse] at h
    cases hu : digitIndex c "0123456789ABCDEF".data with
    | none => rw [hu] at h; simp at h
    | some d =>
      rw [hu, Option.some_bind] at h
      by_cases hd : d < base
      · exact Or.inr (digitIndex_mem_take c _ d base hu hd)
      · rw [if_neg hd] at h
        exact Option.noConfusion h

/-- Each digit of the bases 2, 8 and 16 has a value. -/
theorem digitOfBase_of_digit (base : Nat) (hb : base = 2 ∨ base = 8 ∨ base = 16) (c : Char)
    (h : IsDigitOfBase base c) : ∃ k, digitOfBase base c = some k := by
  have h2 : ∀ c ∈ "0123456789abcdef".data.take 2 ++ "0123456789ABCDEF".data.take 2,
      (digitOfBase 2 c).isSome = true := by decide
  have h8 : ∀ c ∈ "0123456789abcdef".data.take 8 ++ "0123456789ABCDEF".data.take 8,
      (digitOfBase 8 c).isSome = true := by decide
  have h16 : ∀ c ∈ "0123456789abcdef".data.take 16 ++ "0123456789ABCDEF".data.take 16,
      (digitOfBase 16 c).isSome = true := by decide
  unfold IsDigitOfBase at h
  rcases hb with rfl | rfl | rfl
  · exact Option.isSome_iff_exists.mp (h2 c (List.mem_append.mpr h))
  · exact Option.isSome_iff_exists.mp (h8 c (List.mem_append.mpr h))
  · exact Option.isSome_iff_exists.mp (h16 c (List.mem_append.mpr h))

theorem foldl_digits_none (base : Nat) (l : List Char) :
    l.foldl (fun acc c =>
      acc.bind fun n => (digitOfBase base c).map fun d => base * n + d) none = none := by
  induction l with
  | nil => rfl
  | cons c l ih => simpa using ih

theorem foldl_digits_some (base : Nat) (l : List Char) : ∀ a : Nat,
    (∃ n, l.foldl (fun acc c =>
      acc.bind fun n => (digitOfBase base c).map fun d => base * n + d) (some a) = some n)
      ↔ ∀ c ∈ l, ∃ k, digitOfBase base c = some k := by
  induction l with
  | nil => intro a; simp
  | cons c l ih =>
    intro a
    simp only [List.foldl_cons, Option.some_bind, List.mem_cons, forall_eq_or_imp]
    cases hc : digitOfBase base c with
    | none =>
      simp only [Option.map_none', foldl_digits_none]
      simp
    | some k =>
      simp only [Option.map_some', ih]
      simp

theorem digitsValueBase_iff (base : Nat) (hb : base = 2 ∨ base = 8 ∨ base = 16)
    (d : List Char) :
    (∃ n, digitsValueBase base d = some n) ↔ d ≠ [] ∧ ∀ c ∈ d, IsDigitOfBase base c := by
  unfold digitsValueBase
  by_cases hd : d = []
  · simp [hd]
  · rw [if_neg hd, foldl_digits_some]
    constructor
    · intro h
      exact ⟨hd, fun c hc => by
        obtain ⟨k, hk⟩ := h c hc
        exact digitOfBase_some base c k hk⟩
    · rintro ⟨-, h⟩ c hc
      exact digitOfBase_of_digit base hb c (h c hc)

/-- An unsigned decimal literal starts with no sign, and no letter of a
hexadecimal, octal or binary prefix occurs in it. -/
theorem unsigned_decimal_chars (u : List Char) (h : IsStrUnsignedDecimalLiteral u) :
    u.take 1 ≠ ['+'] ∧ u.take 1 ≠ ['-'] ∧ ∀ c ∈ u, c ∉ ['x', 'X', 'o', 'O', 'b', 'B'] := by
  have hdig : ∀ d : List Char, (∀ c ∈ d, c.isDigit = true) →
      ∀ c ∈ d, c ∉ ['x', 'X', 'o', 'O', 'b', 'B'] :=
    fun d hd c hc => (digit_plain c (hd c hc)).2.2.2.2.2
  have hsig : ∀ n, IsSignedInteger n → ∀ c ∈ n, c ∉ ['x', 'X', 'o', 'O', 'b', 'B'] := by
    rintro n ⟨d, hd, rfl | rfl | rfl⟩ c hc
    · exact hdig _ hd.2 c hc
    · rcases List.mem_cons.mp hc with rfl | hc
      · decide
      · exact hdig d hd.2 c hc
    · rcases List.mem_cons.mp hc with rfl | hc
      · decide
      · exact hdig d hd.2 c hc
  have hexp : ∀ x, (x = [] ∨ IsExponentPart x) → ∀ c ∈ x, c ∉ ['x', 'X', 'o', 'O', 'b', 'B'] := by
    rintro x (rfl | ⟨n, hn, rfl | rfl⟩) c hc
    · simp at hc
    · rcases List.mem_cons.mp hc with rfl | hc
      · decide
      · exact hsig n hn c hc
    · rcases List.mem_cons.mp hc with rfl | hc
      · decide
      · exact hsig n hn c hc
  have htake : ∀ i rest : List Char, IsDecimalDigits i →
      (i ++ rest).take 1 ≠ ['+'] ∧ (i ++ rest).take 1 ≠ ['-'] := by
    intro i rest hi
    obtain ⟨c, r, rfl, hc⟩ := head_of_decimalDigits i hi
    have h1 : c ≠ '+' := (digit_plain c hc).2.2.2.1
    have h2 : c ≠ '-' := (digit_plain c hc).2.2.2.2.1
    exact ⟨by simp [h1], by simp [h2]⟩
  rcases h with rfl | ⟨x, hx, ⟨i, f, hi, hf, rfl⟩ | ⟨f, hf, rfl⟩ | ⟨i, hi, rfl⟩⟩
  · decide
  · rw [List.append_assoc]
    refine ⟨(htake i _ hi).1, (htake i _ hi).2, fun a ha => ?_⟩
    rcases List.mem_append.mp ha with ha | ha
    · exact hdig i hi.2 a ha
    · rcases List.mem_append.mp ha with ha | ha
      · rcases List.mem_cons.mp ha with rfl | ha
        · decide
        · rcases hf with rfl | hf
          · simp at ha
          · exact hdig f hf.2 a ha
      · exact hexp x hx a ha
  · refine ⟨by simp, by simp, fun a ha => ?_⟩
    rcases List.mem_append.mp ha with ha | ha
    · rcases List.mem_cons.mp ha with rfl | ha
      · decide
      · exact hdig f hf.2 a ha
    · exact hexp x hx a ha
  · refine ⟨(htake i _ hi).1, (htake i _ hi).2, fun a ha => ?_⟩
    rcases List.mem_append.mp ha with ha | ha
    · exact hdig i hi.2 a ha
    · exact hexp x hx a ha

/-- The reading of a numeric literal accepts exactly the texts of the grammar
`StrNumericLiteral` of ECMA-262. -/
theorem strNumericLiteral_iff (cs : List Char) :
    (∃ v, strNumericLiteral cs = some v) ↔ IsStrNumericLiteral cs := by
  have hsome : ∀ {α β : Type} (o : Option α) (g : α → β) (v : β), o.map g = some v →
      ∃ a, o = some a := by
    intro α β o g v h
    cases o with
    | none => simp at h
    | some a => exact ⟨a, rfl⟩
  have hbase : ∀ base v, ((digitsValueBase base (cs.drop 2)).map fun n =>
      JSNumber.ofDecimal n 0) = some v → ∃ n, digitsValueBase base (cs.drop 2) = some n := by
    intro base v h
    cases hdv : digitsValueBase base (cs.drop 2) with
    | none => rw [hdv] at h; simp at h
    | some n => exact ⟨n, rfl⟩
  constructor
  · rintro ⟨v, h⟩
    unfold strNumericLiteral at h
    split_ifs at h with h1 h2 h3 h4 h5
    · exact Or.inl ⟨_, (strUnsignedDecimalLiteral_iff _).mp ⟨v, h⟩,
        Or.inr (Or.inl (eq_cons_of_take_one _ _ h1))⟩
    · exact Or.inl ⟨_, (strUnsignedDecimalLiteral_iff _).mp (hsome _ _ _ h),
        Or.inr (Or.inr (eq_cons_of_take_one _ _ h2))⟩
    · obtain ⟨hne, hd⟩ := (digitsValueBase_iff 16 (by simp) _).mp (hbase _ _ h)
      refine Or.inr ⟨_, hne, Or.inl ⟨hd, ?_⟩⟩
      rcases h3 with h3 | h3
      · exact Or.inl (eq_cons_of_take_two _ _ _ h3)
      · exact Or.inr (eq_cons_of_take_two _ _ _ h3)
    · obtain ⟨hne, hd⟩ := (digitsValueBase_iff 8 (by simp) _).mp (hbase _ _ h)
      refine Or.inr ⟨_, hne, Or.inr (Or.inl ⟨hd, ?_⟩)⟩
      rcases h4 with h4 | h4
      · exact Or.inl (eq_cons_of_take_two _ _ _ h4)
      · exact Or.inr (eq_cons_of_take_two _ _ _ h4)
    · obtain ⟨hne, hd⟩ := (digitsValueBase_iff 2 (by simp) _).mp (hbase _ _ h)
      refine Or.inr ⟨_, hne, Or.inr (Or.inr ⟨hd, ?_⟩)⟩
      rcases h5 with h5 | h5
      · exact Or.inl (eq_cons_of_take_two _ _ _ h5)
      · exact Or.inr (eq_cons_of_take_two _ _ _ h5)
    · exact Or.inl ⟨cs, (strUnsignedDecimalLiteral_iff _).mp ⟨v, h⟩, Or.inl rfl⟩
  · rintro (⟨u, hu, rfl | rfl | rfl⟩ | ⟨d, hne, h⟩)
    · obtain ⟨c1, c2, hc⟩ := unsigned_decimal_chars _ hu
      obtain ⟨v, hv⟩ := (strUnsignedDecimalLiteral_iff _).mpr hu
      have hno : ∀ a b, b ∈ ['x', 'X', 'o', 'O', 'b', 'B'] → cs.take 2 ≠ [a, b] := by
        intro a b hb e
        exact hc b (List.mem_of_mem_take (by rw [e]; simp)) hb
      refine ⟨v, ?_⟩
      unfold strNumericLiteral
      rw [if_neg c1, if_neg c2, if_neg, if_neg, if_neg, hv]
      · rintro (e | e)
        · exact hno _ _ (by decide) e
        · exact hno _ _ (by decide) e
      · rintro (e | e)
        · exact hno _ _ (by decide) e
        · exact hno _ _ (by decide) e
      · rintro (e | e)
        · exact hno _ _ (by decide) e
        · exact hno _ _ (by decide) e
    · obtain ⟨v, hv⟩ := (strUnsignedDecimalLiteral_iff _).mpr hu
      refine ⟨v, ?_⟩
      unfold strNumericLiteral
      rw [if_pos (by simp)]
      simpa using hv
    · obtain ⟨v, hv⟩ := (strUnsignedDecimalLiteral_iff _).mpr hu
      refine ⟨v.neg, ?_⟩
      unfold strNumericLiteral
      rw [if_neg (by simp), if_pos (by simp)]
      simp [hv]
    · rcases h with ⟨hd, rfl | rfl⟩ | ⟨hd, rfl | rfl⟩ | ⟨hd, rfl | rfl⟩
      all_goals
        first
          | (obtain ⟨n, hn⟩ := (digitsValueBase_iff 16 (by simp) d).mpr ⟨hne, hd⟩
             refine ⟨JSNumber.ofDecimal n 0, ?_⟩
             unfold strNumericLiteral
             simp [hn]
             done)
          | (obtain ⟨n, hn⟩ := (digitsValueBase_iff 8 (by simp) d).mpr ⟨hne, hd⟩
             refine ⟨JSNumber.ofDecimal n 0, ?_⟩
             unfold strNumericLiteral
             simp [hn]
             done)
          | (obtain ⟨n, hn⟩ := (digitsValueBase_iff 2 (by simp) d).mpr ⟨hne, hd⟩
             refine ⟨JSNumber.ofDecimal n 0, ?_⟩
             unfold strNumericLiteral
             simp [hn])

/-! ## The numeric columns of `readVpts` -/

/-- The unary `+` on the text of a well-formed decimal literal yields the Number
value for the number that the literal denotes. -/
theorem StringToNumber_literal (l : DecimalLiteral) (h : l.WellFormed) :
    IsNumberValueFor l.value (StringToNumber l.text) := by
  obtain ⟨neg, w, i, fr⟩ := l
  obtain ⟨hw, hi, hf⟩ := h
  cases fr with
  | none =>
    simpa [DecimalLiteral.value, DecimalLiteral.text] using
      StringToNumber_integerText neg w i hw hi
  | some p =>
    obtain ⟨wf, f⟩ := p
    simpa [DecimalLiteral.value, DecimalLiteral.text] using
      StringToNumber_decimalText neg w i wf f hw hi hf

/-- The unary `+` gives NaN on a text that, once trimmed, is neither empty nor a
numeric literal, and 0 on an empty or blank text. -/
theorem StringToNumber_not_literal (s : String) :
    (trimWhiteSpace s.data ≠ [] → ¬ IsStrNumericLiteral (trimWhiteSpace s.data) →
      StringToNumber s = .nan)
    ∧ (trimWhiteSpace s.data = [] → StringToNumber s = .finite ⟨0, 0⟩) := by
  constructor
  · intro hne hn
    have hnone : strNumericLiteral (trimWhiteSpace s.data) = none := by
      cases h : strNumericLiteral (trimWhiteSpace s.data) with
      | none => rfl
      | some v => exact absurd ((strNumericLiteral_iff _).mp ⟨v, h⟩) hn
    simp [StringToNumber, hne, hnone]
  · intro he
    have h0 : JSNumber.ofDecimal 0 0 = .finite ⟨0, 0⟩ := by decide
    simp [StringToNumber, he, h0]

/-- C11, counterexample.  An empty and a blank `height` are not number literals,
yet the row callback gives the field `height` the number 0, not NaN. -/
theorem readVptsRow_blank_number :
    (readVptsRow TimeZone.utc
      ⟨some "2016-09-01T00:05:00Z", some "", some "45.0", some "3.2", some "12.5",
        some "NaN"⟩).height = .finite ⟨0, 0⟩
    ∧ (readVptsRow TimeZone.utc
      ⟨some "2016-09-01T00:05:00Z", some "  ", some "45.0", some "3.2", some "12.5",
        some "NaN"⟩).height = .finite ⟨0, 0⟩
    ∧ JSNumber.finite ⟨0, 0⟩ ≠ JSNumber.nan := by
  decide

/-- C11, amended.  The row callback is total.  For every row, every host and each
of the numeric columns `height`, `dd`, `ff` and `dens`: when the column holds a
text `s` that, once trimmed, is neither empty nor a number literal of the
grammar `StrNumericLiteral`, the field of that column is NaN, and when it holds
an empty or blank text `b` the field is 0; in both cases every other field of
the record is what it is with any text `valid` in that column. -/
theorem readVptsRow_not_numeric (tz : TimeZone) (d : Row) (s b valid : String)
    (hs : trimWhiteSpace s.data ≠ []) (hn : ¬ IsStrNumericLiteral (trimWhiteSpace s.data))
    (hb : trimWhiteSpace b.data = []) :
    (readVptsRow tz { d with height := some s } =
        { readVptsRow tz { d with height := some valid } with height := .nan }
      ∧ readVptsRow tz { d with dd := some s } =
        { readVptsRow tz { d with dd := some valid } with dd := .nan }
      ∧ readVptsRow tz { d with ff := some s } =
        { readVptsRow tz { d with ff := some valid } with ff := .nan }
      ∧ readVptsRow tz { d with dens := some s } =
        { readVptsRow tz { d with dens := some valid } with dens := .nan })
    ∧ (readVptsRow tz { d with height := some b } =
        { readVptsRow tz { d with height := some valid } with height := .finite ⟨0, 0⟩ }
      ∧ readVptsRow tz { d with dd := some b } =
        { readVptsRow tz { d with dd := some valid } with dd := .finite ⟨0, 0⟩ }
      ∧ readVptsRow tz { d with ff := some b } =
        { readVptsRow tz { d with ff := some valid } with ff := .finite ⟨0, 0⟩ }
      ∧ readVptsRow tz { d with dens := some b } =
        { readVptsRow tz { d with dens := some valid } with dens := .finite ⟨0, 0⟩ })
    ∧ ∀ rows, (readVpts tz rows).length = rows.length := by
  have h1 : StringToNumber s = .nan := (StringToNumber_not_literal s).1 hs hn
  have h2 : StringToNumber b = .finite ⟨0, 0⟩ := (StringToNumber_not_literal b).2 hb
  refine ⟨⟨?_, ?_, ?_, ?_⟩, ⟨?_, ?_, ?_, ?_⟩, fun rows => by simp [readVpts]⟩ <;>
    simp [readVptsRow, ToNumber, h1, h2]

/-- C11, at the row of the specification: `N/A` in the column `height` gives NaN
there and leaves the other fields as they are with `200` in that column, and a
blank `height` gives 0. -/
theorem readVptsRow_not_numeric_witness :
    trimWhiteSpace "N/A".data ≠ [] ∧ ¬ IsStrNumericLiteral (trimWhiteSpace "N/A".data)
    ∧ trimWhiteSpace "  ".data = []
    ∧ readVptsRow TimeZone.brussels2016
        ⟨some "2016-09-01T00:05:00Z", some "N/A", some "45.0", some "3.2", some "12.5",
          some "NaN"⟩ =
      ⟨some 1472688300000, .nan, .finite ⟨45, 0⟩,
        .finite ⟨320000000000000017763568394002504646778106689453125, 50⟩,
        .finite ⟨125, 1⟩, some "NaN"⟩
    ∧ readVptsRow TimeZone.brussels2016
        ⟨some "2016-09-01T00:05:00Z", some "  ", some "45.0", some "3.2", some "12.5",
          some "NaN"⟩ =
      ⟨some 1472688300000, .finite ⟨0, 0⟩, .finite ⟨45, 0⟩,
        .finite ⟨320000000000000017763568394002504646778106689453125, 50⟩,
        .finite ⟨125, 1⟩, some "NaN"⟩ := by
  have hs : trimWhiteSpace "N/A".data ≠ [] := by decide
  have hn : ¬ IsStrNumericLiteral (trimWhiteSpace "N/A".data) := by
    intro h
    obtain ⟨v, hv⟩ := (strNumericLiteral_iff _).mpr h
    have hnone : strNumericLiteral (trimWhiteSpace "N/A".data) = none := by decide
    rw [hnone] at hv
    cases hv
  have hb : trimWhiteSpace "  ".data = [] := by decide
  have h := readVptsRow_not_numeric TimeZone.brussels2016
    ⟨some "2016-09-01T00:05:00Z", some "200", some "45.0", some "3.2", some "12.5",
      some "NaN"⟩ "N/A" "  " "200" hs hn hb
  refine ⟨hs, hn, hb, ?_, ?_⟩
  · exact h.1.1.trans (by decide)
  · exact h.2.1.1.trans (by decide)

set_option maxRecDepth 100000 in
/-- C12 as stated fails for a literal whose number is not a Number.  The literal
`9007199254740993`, which denotes 2 ^ 53 + 1, gives the field `height` the
Number 9007199254740992, and the literal made of 1 and 309 zeros, which denotes
10 ^ 309, gives it `+∞`. -/
theorem readVptsRow_height_rounded :
    DecimalLiteral.text ⟨false, 16, 9007199254740993, none⟩ = "9007199254740993"
    ∧ DecimalLiteral.WellFormed ⟨false, 16, 9007199254740993, none⟩
    ∧ DecimalLiteral.value ⟨false, 16, 9007199254740993, none⟩ = 9007199254740993
    ∧ (readVptsRow TimeZone.utc
        ⟨some "2016-09-01T00:05:00Z", some "9007199254740993", some "45.0", some "3.2",
          some "12.5", some "1.1"⟩).height = .finite ⟨9007199254740992, 0⟩
    ∧ (Decimal.mk 9007199254740992 0).toRat ≠ 9007199254740993
    ∧ DecimalLiteral.text ⟨false, 310,
        1000000000000000000000000000000000000000000000000000000000000000000000000000000000000000000000000000000000000000000000000000000000000000000000000000000000000000000000000000000000000000000000000000000000000000000000000000000000000000000000000000000000000000000000000000000000000000000000000000000000000000000000,
        none⟩ =
      "1000000000000000000000000000000000000000000000000000000000000000000000000000000000000000000000000000000000000000000000000000000000000000000000000000000000000000000000000000000000000000000000000000000000000000000000000000000000000000000000000000000000000000000000000000000000000000000000000000000000000000000000"
    ∧ (readVptsRow TimeZone.utc
        ⟨some "2016-09-01T00:05:00Z",
          some "1000000000000000000000000000000000000000000000000000000000000000000000000000000000000000000000000000000000000000000000000000000000000000000000000000000000000000000000000000000000000000000000000000000000000000000000000000000000000000000000000000000000000000000000000000000000000000000000000000000000000000000000",
          some "45.0", some "3.2", some "12.5", some "1.1"⟩).height = .infinity false := by
  refine ⟨by decide, ⟨by decide, by decide, trivial⟩, by simp [DecimalLiteral.value], by decide,
    by simp [Decimal.toRat], by decide, by decide⟩

/-- C12, amended.  On every host, for every row whose `datetime` is the ISO 8601
timestamp in UTC of an instant `t` with a year of four digits, written to the
second (`YYYY-MM-DDTHH:mm:ssZ`) or to the millisecond
(`YYYY-MM-DDTHH:mm:ss.sssZ`), and whose `height`, `dd`, `ff` and `dens` are
well-formed decimal number literals, the row callback yields `t` as `datetime`,
the raw text of `sd_vvp`, and for each of the four literals the Number value
for the number that it denotes: the double nearest to it, or an infinity, and
that number itself when it is a finite value of the Number type.  On the row of
the specification it yields 1472688300000, 200, 45, the Number value for 3.2
(which is what `3.2` is in the language), 12.5 and the text `1.1`. -/
theorem readVptsRow_valid (tz : TimeZone) (t : Int) (stamp : String)
    (height dd ff dens : DecimalLiteral) (sd : Option String)
    (hv : validTime t) (h0 : 0 ≤ YearFromTime t) (h1 : YearFromTime t ≤ 9999)
    (hstamp : stamp = String.mk (isoString t) ∨ (msFromTime t = 0 ∧ stamp = utcTimestamp t))
    (hheight : height.WellFormed) (hdd : dd.WellFormed) (hff : ff.WellFormed)
    (hdens : dens.WellFormed) :
    (∃ h d f n, readVptsRow tz
          ⟨some stamp, some height.text, some dd.text, some ff.text, some dens.text, sd⟩ =
        ⟨some t, h, d, f, n, sd⟩
      ∧ IsNumberValueFor height.value h ∧ IsNumberValueFor dd.value d
      ∧ IsNumberValueFor ff.value f ∧ IsNumberValueFor dens.value n
      ∧ (IsNumberCandidate height.value → |height.value| < 2 ^ 1024 →
          ∃ x, h = .finite x ∧ x.toRat = height.value)
      ∧ (IsNumberCandidate dd.value → |dd.value| < 2 ^ 1024 →
          ∃ x, d = .finite x ∧ x.toRat = dd.value)
      ∧ (IsNumberCandidate ff.value → |ff.value| < 2 ^ 1024 →
          ∃ x, f = .finite x ∧ x.toRat = ff.value)
      ∧ (IsNumberCandidate dens.value → |dens.value| < 2 ^ 1024 →
          ∃ x, n = .finite x ∧ x.toRat = dens.value))
    ∧ readVptsRow tz
        ⟨some "2016-09-01T00:05:00Z", some "200", some "45.0", some "3.2", some "12.5",
          some "1.1"⟩ =
      ⟨some 1472688300000, .finite ⟨200, 0⟩, .finite ⟨45, 0⟩,
        .finite ⟨320000000000000017763568394002504646778106689453125, 50⟩,
        .finite ⟨125, 1⟩, some "1.1"⟩
    ∧ (Decimal.mk 200 0).toRat = 200 ∧ (Decimal.mk 45 0).toRat = 45
    ∧ (Decimal.mk 125 1).toRat = 125 / 10
    ∧ IsNumberValueFor (32 / 10)
        (.finite ⟨320000000000000017763568394002504646778106689453125, 50⟩) := by
  have hdate : DateParse tz stamp = some t := by
    rcases hstamp with rfl | ⟨hsec, rfl⟩
    · exact DateParse_isoString tz t hv h0 h1
    · exact DateParse_utcTimestamp tz t hv h0 h1 hsec
  have e1 := StringToNumber_literal height hheight
  have e2 := StringToNumber_literal dd hdd
  have e3 := StringToNumber_literal ff hff
  have e4 := StringToNumber_literal dens hdens
  have hex : DateParse tz "2016-09-01T00:05:00Z" = some 1472688300000 :=
    DateParse_utcTimestamp tz 1472688300000 (by decide) (by decide) (by decide) (by decide)
  refine ⟨⟨StringToNumber height.text, StringToNumber dd.text, StringToNumber ff.text,
    StringToNumber dens.text, ?_, e1, e2, e3, e4,
    fun h1 h2 => numberValue_exact _ _ e1 h1 h2, fun h1 h2 => numberValue_exact _ _ e2 h1 h2,
    fun h1 h2 => numberValue_exact _ _ e3 h1 h2, fun h1 h2 => numberValue_exact _ _ e4 h1 h2⟩,
    ?_, ?_, ?_, ?_, ?_⟩
  · simp [readVptsRow, ToNumber, ToString, hdate]
  · have hnum : ToNumber (some "200") = .finite ⟨200, 0⟩
        ∧ ToNumber (some "45.0") = .finite ⟨45, 0⟩
        ∧ ToNumber (some "3.2") =
          .finite ⟨320000000000000017763568394002504646778106689453125, 50⟩
        ∧ ToNumber (some "12.5") = .finite ⟨125, 1⟩ := by decide
    simp only [readVptsRow, ToString, hex, hnum.1, hnum.2.1, hnum.2.2.1, hnum.2.2.2]
  · simp [Decimal.toRat]
  · simp [Decimal.toRat]
  · simp [Decimal.toRat]
  · have h32 : JSNumber.ofDecimal 32 1 =
        .finite ⟨320000000000000017763568394002504646778106689453125, 50⟩ := by decide
    have := ofDecimal_spec 32 1
    rw [h32] at this
    simpa using this

/-- C12, amended, at the row of the specification, on a host in Europe/Brussels:
the timestamp `2016-09-01T00:05:00Z` and the literals `200`, `45.0`, `3.2` and
`12.5`. -/
theorem readVptsRow_valid_witness :
    validTime 1472688300000 ∧ msFromTime 1472688300000 = 0
    ∧ utcTimestamp 1472688300000 = "2016-09-01T00:05:00Z"
    ∧ DecimalLiteral.text ⟨false, 3, 200, none⟩ = "200"
    ∧ DecimalLiteral.text ⟨false, 2, 45, some (1, 0)⟩ = "45.0"
    ∧ DecimalLiteral.text ⟨false, 1, 3, some (1, 2)⟩ = "3.2"
    ∧ DecimalLiteral.text ⟨false, 2, 12, some (1, 5)⟩ = "12.5"
    ∧ readVptsRow TimeZone.brussels2016
        ⟨some "2016-09-01T00:05:00Z", some "200", some "45.0", some "3.2", some "12.5",
          some "1.1"⟩ =
      ⟨some 1472688300000, .finite ⟨200, 0⟩, .finite ⟨45, 0⟩,
        .finite ⟨320000000000000017763568394002504646778106689453125, 50⟩,
        .finite ⟨125, 1⟩, some "1.1"⟩ :=
  ⟨by decide, by decide, by decide, by decide, by decide, by decide, by decide,
    (readVptsRow_valid TimeZone.brussels2016 1472688300000 (utcTimestamp 1472688300000)
      ⟨false, 3, 200, none⟩ ⟨false, 2, 45, some (1, 0)⟩ ⟨false, 1, 3, some (1, 2)⟩
      ⟨false, 2, 12, some (1, 5)⟩ (some "1.1") (by decide) (by decide) (by decide)
      (Or.inr ⟨by decide, rfl⟩) ⟨by decide, by decide, trivial⟩
      ⟨by decide, by decide, (by decide : (0 : Nat) < 10 ^ 1)⟩
      ⟨by decide, by decide, (by decide : (2 : Nat) < 10 ^ 1)⟩
      ⟨by decide, by decide, (by decide : (5 : Nat) < 10 ^ 1)⟩).2.1⟩

end Crow
